import Mathlib

/-!
# skiboot `core/timer.c`: a shallow embedding of the timer scheduler

The C file keeps two intrusive doubly-linked lists of caller-owned `struct timer`
objects (`timer_list`, ordered by `target`, and `timer_poll_list`), a poll
generation counter, an in-progress flag and one lock.

Embedding:
* a timer object is named by its address, a `Nat`; the memory holding the timer
  objects is the function `Sched.timers`;
* a `list_head` is the `List Nat` of the addresses linked on it, head first;
  `link.next != NULL` is the boolean field `timer.link`;
* `uint64_t` values are `Nat`, reduced modulo `2 ^ 64` where the C arithmetic
  can wrap (`timer_poll_gen++`, `now + how_long`);
* a function pointer is a `Nat`; the table `code` says what the function at
  that address does to the scheduler;
* the external collaborators (`TIMER_POLL` of `timer.h`, `this_cpu()`, `mftb()`)
  are the fields of `Platform`; `slw_update_timer_expiry` is recorded in the
  log `Sched.slw_calls`, callback invocations in `Sched.expiry_calls`;
* the unbounded `for (;;)` loops take a fuel argument; a run ends in `ok s` or
  in a `Fault` together with the state in which it occurred;
* a call runs alone, from entry to return; the one property about two contexts
  at once is stated on `cancel_step` and `cancel_next`, a step relation for
  `cancel_timer` run among other contexts, whose steps are the outcomes of the
  embedded `cancel_timer`.
-/

namespace Timer

/-- The `struct timer` of `timer.h`, as far as `timer.c` reads and writes it. -/
structure timer where
  /-- Whether `link.next` is non-`NULL`, that is, the timer is queued. -/
  link : Bool
  target : Nat
  gen : Nat
  /-- Address of the callback. -/
  expiry : Nat
  user_data : Nat
  /-- The `running` pointer: `none` is `NULL`, `some c` the cpu running the callback. -/
  running : Option Nat

/-- The file-scope state of `timer.c`, the timer objects, and the logs of the
calls made to external code. -/
structure Sched where
  timers : Nat → timer
  timer_list : List Nat
  timer_poll_list : List Nat
  timer_in_poll : Bool
  timer_poll_gen : Nat
  /-- Whether `timer_lock` is held. -/
  timer_lock : Bool
  /-- The arguments of the calls of `slw_update_timer_expiry`, oldest first. -/
  slw_calls : List Nat
  /-- The calls `t->expiry(t, t->user_data, now)` made so far, oldest first. -/
  expiry_calls : List (Nat × Nat × Nat)
  /-- The number of times `mftb()` has been read. -/
  mftb_reads : Nat

/-- The ways a call fails to return normally. -/
inductive Fault where
  /-- An `assert` failed. -/
  | assertion
  /-- Waiting in `__sync_timer` for another context to clear `running`. -/
  | spin
  /-- Taking `timer_lock` while it is held. -/
  | deadlock
  /-- The fuel given to a `for (;;)` loop ran out. -/
  | fuel
  deriving DecidableEq, Repr

/-- The outcome of a call: the new state, or a fault and the state it occurred in. -/
abbrev Run := Except (Fault × Sched) Sched

/-- The type `timer_func_t`: `void (*)(struct timer *t, void *data, uint64_t now)`. -/
abbrev timer_func_t := Nat → Nat → Nat → Sched → Run

/-- What `timer.c` takes from its headers and collaborators. -/
structure Platform where
  /-- The reserved value of `timer.h` that marks a poll timer. -/
  TIMER_POLL : Nat
  /-- The value of `this_cpu()` in the calling context. -/
  this_cpu : Nat
  /-- The value returned by the `k`-th read of the timebase, `k = 0, 1, ...`. -/
  mftb : Nat → Nat

/-- Write a timer object. -/
def set_timer (t : Nat) (v : timer) (s : Sched) : Sched :=
  { s with timers := Function.update s.timers t v }

/-- Read the timebase: `mftb()`. -/
def mftb (P : Platform) (s : Sched) : Nat × Sched :=
  (P.mftb s.mftb_reads, { s with mftb_reads := s.mftb_reads + 1 })

/-- The external `slw_update_timer_expiry(new_target)`: only recorded. -/
def slw_update_timer_expiry (new_target : Nat) (s : Sched) : Sched :=
  { s with slw_calls := s.slw_calls ++ [new_target] }

/-- Take `timer_lock`; taking it while it is held never returns. -/
def lock (s : Sched) : Run :=
  if s.timer_lock then .error (Fault.deadlock, s) else .ok { s with timer_lock := true }

/-- Release `timer_lock`. -/
def unlock (s : Sched) : Sched :=
  { s with timer_lock := false }

/-- `init_timer` (timer.c 27-34). The field `gen` is not written. -/
def init_timer (t : Nat) (expiry : Nat) (data : Nat) (s : Sched) : Sched :=
  set_timer t { s.timers t with link := false, target := 0, expiry := expiry,
                                user_data := data, running := none } s

/-- `__remove_timer` (timer.c 36-40): `list_del` unlinks the node from the list
it is on, then the link is cleared. -/
def __remove_timer (t : Nat) (s : Sched) : Sched :=
  let s1 := { s with timer_list := s.timer_list.erase t,
                     timer_poll_list := s.timer_poll_list.erase t }
  set_timer t { s1.timers t with link := false } s1

/-- `__sync_timer` (timer.c 42-55), called with the lock held. The barrier
`sync()` has no effect on the state. In a sequential run no other context
clears `running`, so the `while (t->running)` loop, which only drops and
retakes the lock, never exits once entered: outcome `spin`. -/
def __sync_timer (P : Platform) (t : Nat) (s : Sched) : Run :=
  if (s.timers t).running = some P.this_cpu then .error (Fault.assertion, s)
  else if (s.timers t).running.isSome then .error (Fault.spin, s)
  else .ok s

/-- `sync_timer` (timer.c 57-62). -/
def sync_timer (P : Platform) (t : Nat) (s : Sched) : Run := do
  let s1 ← lock s
  let s2 ← __sync_timer P t s1
  pure (unlock s2)

/-- `cancel_timer` (timer.c 64-71). -/
def cancel_timer (P : Platform) (t : Nat) (s : Sched) : Run := do
  let s1 ← lock s
  let s2 ← __sync_timer P t s1
  let s3 := if (s2.timers t).link then __remove_timer t s2 else s2
  pure (unlock s3)

/-- `cancel_timer_async` (timer.c 73-79). -/
def cancel_timer_async (t : Nat) (s : Sched) : Run := do
  let s1 ← lock s
  let s2 := if (s1.timers t).link then __remove_timer t s1 else s1
  pure (unlock s2)

/-- The scan `list_for_each(&timer_list, lt, link)` of `__schedule_timer_at`
(timer.c 98-107): `t` goes before the first `lt` with `when < lt->target`,
or to the tail. -/
def list_add_sorted (tg : Nat → Nat) (t : Nat) (when : Nat) : List Nat → List Nat
  | [] => [t]
  | lt :: rest =>
    if when < tg lt then t :: lt :: rest else lt :: list_add_sorted tg t when rest

/-- The call `list_add_tail(&timer_poll_list, &t->link)` (timer.c 94). -/
def poll_list_add_tail (t : Nat) (s : Sched) : Sched :=
  set_timer t { s.timers t with link := true }
    { s with timer_poll_list := s.timer_poll_list ++ [t] }

/-- The ordered insertion into `timer_list` (timer.c 98-107). -/
def timer_list_add (t : Nat) (when : Nat) (s : Sched) : Sched :=
  set_timer t { s.timers t with link := true }
    { s with timer_list :=
        list_add_sorted (fun lt => (s.timers lt).target) t when s.timer_list }

/-- The code at the label `bail` (timer.c 110-116): the target of the head of
`timer_list`, when there is one, goes to `slw_update_timer_expiry`. -/
def bail (s : Sched) : Sched :=
  match s.timer_list with
  | [] => s
  | lt :: _ => slw_update_timer_expiry (s.timers lt).target s

/-- `__schedule_timer_at` (timer.c 81-116), called with the lock held. -/
def __schedule_timer_at (P : Platform) (t : Nat) (when : Nat) (s : Sched) : Sched :=
  let s1 := if (s.timers t).link then __remove_timer t s else s
  let s2 := set_timer t { s1.timers t with target := when } s1
  let s3 :=
    if when = P.TIMER_POLL then
      poll_list_add_tail t (set_timer t { s2.timers t with gen := s2.timer_poll_gen } s2)
    else
      timer_list_add t when s2
  bail s3

/-- `schedule_timer_at` (timer.c 118-123). -/
def schedule_timer_at (P : Platform) (t : Nat) (when : Nat) (s : Sched) : Run := do
  let s1 ← lock s
  pure (unlock (__schedule_timer_at P t when s1))

/-- `schedule_timer` (timer.c 125-135): the new state and the returned `now`. -/
def schedule_timer (P : Platform) (t : Nat) (how_long : Nat) (s : Sched) :
    Except (Fault × Sched) (Nat × Sched) := do
  let (now, s0) := mftb P s
  let s1 ← if how_long = P.TIMER_POLL then schedule_timer_at P t P.TIMER_POLL s0
           else schedule_timer_at P t ((now + how_long) % 2 ^ 64) s0
  pure (now, s1)

/-- The call `t->expiry(t, t->user_data, now)`, logged. -/
def call_expiry (code : Nat → timer_func_t) (t : Nat) (now : Nat) (s : Sched) : Run :=
  code (s.timers t).expiry t (s.timers t).user_data now
    { s with expiry_calls := s.expiry_calls ++ [(t, (s.timers t).user_data, now)] }

/-- The `for (;;)` loop of `__check_poll_timers` (timer.c 158-186). -/
def poll_loop (P : Platform) (code : Nat → timer_func_t) (now : Nat) : Nat → Sched → Run
  | 0, s => .error (Fault.fuel, s)
  | fuel + 1, s =>
    match s.timer_poll_list with
    | [] => .ok s
    | t :: _ =>
      if (s.timers t).gen = s.timer_poll_gen then .ok s
      else if (s.timers t).running.isSome then .ok s
      else do
        let s1 := __remove_timer t s
        let s2 := set_timer t { s1.timers t with running := some P.this_cpu } s1
        let s3 := unlock s2
        let s4 ← call_expiry code t now s3
        let s5 ← lock s4
        let s6 := set_timer t { s5.timers t with running := none } s5
        poll_loop P code now fuel s6

/-- `__check_poll_timers` (timer.c 137-188), called with the lock held. -/
def __check_poll_timers (P : Platform) (code : Nat → timer_func_t) (fuel : Nat) (now : Nat)
    (s : Sched) : Run :=
  if s.timer_in_poll then .ok s
  else do
    let s1 := { s with timer_in_poll := true }
    let s2 := { s1 with timer_poll_gen := (s1.timer_poll_gen + 1) % 2 ^ 64 }
    let s3 ← poll_loop P code now fuel s2
    pure { s3 with timer_in_poll := false }

/-- `__check_timers` (timer.c 190-228), called with the lock held. -/
def __check_timers (P : Platform) (code : Nat → timer_func_t) : Nat → Nat → Sched → Run
  | 0, _, s => .error (Fault.fuel, s)
  | fuel + 1, now, s =>
    match s.timer_list with
    | [] => .ok s
    | t :: _ =>
      if (s.timers t).target > now then .ok s
      else if (s.timers t).running.isSome then .ok s
      else do
        let s1 := __remove_timer t s
        let s2 := set_timer t { s1.timers t with running := some P.this_cpu } s1
        let s3 := unlock s2
        let s4 ← call_expiry code t now s3
        let s5 ← lock s4
        let s6 := set_timer t { s5.timers t with running := none } s5
        let (now1, s7) := mftb P s6
        __check_timers P code fuel now1 s7

/-- `check_timers` (timer.c 230-251). -/
def check_timers (P : Platform) (code : Nat → timer_func_t) (fuel : Nat)
    (from_interrupt : Bool) (s : Sched) : Run :=
  let (now, s0) := mftb P s
  let due : Bool :=
    match s0.timer_list with
    | [] => false
    | t :: _ => decide ((s0.timers t).target ≤ now)
  if s0.timer_poll_list.isEmpty && !due then .ok s0
  else do
    let s1 ← lock s0
    let s2 ← if !from_interrupt then __check_poll_timers P code fuel now s1 else pure s1
    let s3 ← __check_timers P code fuel now s2
    pure (unlock s3)

/-! ## Definitions used to state the properties -/

/-- One turn of either dispatch loop on the timer `t` (timer.c 175-185 and
213-223): unlink, mark running, drop the lock, call, retake the lock, clear
`running`. -/
def dispatch (P : Platform) (code : Nat → timer_func_t) (t : Nat) (now : Nat) (s : Sched) : Run := do
  let s1 := __remove_timer t s
  let s2 := set_timer t { s1.timers t with running := some P.this_cpu } s1
  let s3 := unlock s2
  let s4 ← call_expiry code t now s3
  let s5 ← lock s4
  pure (set_timer t { s5.timers t with running := none } s5)

/-- The state handed to the callback of `t` in a turn of either dispatch loop
that starts in `s` (timer.c 176-181 and 214-219), the call being logged. -/
def callback_entry (P : Platform) (t : Nat) (now : Nat) (s : Sched) : Sched :=
  let s1 := __remove_timer t s
  let s2 := set_timer t { s1.timers t with running := some P.this_cpu } s1
  let s3 := unlock s2
  { s3 with expiry_calls := s3.expiry_calls ++ [(t, (s3.timers t).user_data, now)] }

/-- The targets of the deadline list, head first. -/
def targets (s : Sched) : List Nat :=
  s.timer_list.map (fun i => (s.timers i).target)

/-- The representation invariant of the two intrusive lists: a node is linked
at most once, on at most one list, and `link.next` is non-`NULL` exactly for
the linked nodes. -/
def wf (s : Sched) : Prop :=
  s.timer_list.Nodup ∧ s.timer_poll_list.Nodup ∧
  (∀ i ∈ s.timer_list, i ∉ s.timer_poll_list) ∧
  (∀ i, (s.timers i).link = true ↔ (i ∈ s.timer_list ∨ i ∈ s.timer_poll_list))

/-- The states `s1` and `s2` hold the same scheduler data and call log; they may
differ in the clock reads made and in the calls made to the notification sink. -/
def same_sched (s1 s2 : Sched) : Prop :=
  s2.timers = s1.timers ∧ s2.timer_list = s1.timer_list ∧
  s2.timer_poll_list = s1.timer_poll_list ∧ s2.timer_in_poll = s1.timer_in_poll ∧
  s2.timer_poll_gen = s1.timer_poll_gen ∧ s2.timer_lock = s1.timer_lock ∧
  s2.expiry_calls = s1.expiry_calls

/-- A callback that returns and does not touch the scheduler. -/
def cb_idle (cb : timer_func_t) : Prop :=
  ∀ t d now s, ∃ s1, cb t d now s = .ok s1 ∧ same_sched s s1

/-- A callback that does nothing to the scheduler but re-schedule its own timer
with the poll value, unconditionally. -/
def cb_repolls (P : Platform) (cb : timer_func_t) : Prop :=
  ∀ t d now s, ∃ s1, same_sched s s1 ∧ cb t d now s = schedule_timer_at P t P.TIMER_POLL s1

/-- The number of calls of the callback of timer `t` in the log. -/
def invocations (t : Nat) (s : Sched) : Nat :=
  (s.expiry_calls.filter (fun c => c.1 = t)).length

/-- A sequence of calls `schedule_timer_at(t, when)`, given as pairs `(t, when)`. -/
def run_schedule_at (P : Platform) : List (Nat × Nat) → Sched → Run
  | [], s => .ok s
  | c :: cs, s => do
    let s1 ← schedule_timer_at P c.1 c.2 s
    run_schedule_at P cs s1

/-- The calls a caller makes outside callbacks. -/
inductive Op where
  | schedule_at (t : Nat) (when : Nat)
  | cancel (t : Nat)
  | cancel_async (t : Nat)

/-- Make one call. -/
def apply_op (P : Platform) : Op → Sched → Run
  | .schedule_at t when, s => schedule_timer_at P t when s
  | .cancel t, s => cancel_timer P t s
  | .cancel_async t, s => cancel_timer_async t s

/-- Make a sequence of calls, first to last. -/
def run_ops (P : Platform) : List Op → Sched → Run
  | [], s => .ok s
  | o :: os, s => do
    let s1 ← apply_op P o s
    run_ops P os s1

/-- The locked part of `check_timers` (timer.c 245-250), entered in the state
`s0` left by the clock read, with the time `now` that was read. -/
def locked_pass (P : Platform) (code : Nat → timer_func_t) (fuel : Nat) (from_interrupt : Bool)
    (now : Nat) (s0 : Sched) : Run := do
  let s1 ← lock s0
  let s2 ← if !from_interrupt then __check_poll_timers P code fuel now s1 else pure s1
  let s3 ← __check_timers P code fuel now s2
  pure (unlock s3)

/-- A callback table under watch: a callback called on timer `t` in a state
that fails the test `ok t` does not run; the call ends in a failed assertion. -/
def monitored (ok : Nat → Sched → Bool) (code : Nat → timer_func_t) : Nat → timer_func_t :=
  fun f t d now x => if ok t x then code f t d now x else .error (Fault.assertion, x)

/-- The test: the lock is not held, the link of `t` is null and `t` is marked
running by the calling cpu. -/
def entry_ok (P : Platform) (t : Nat) (x : Sched) : Bool :=
  decide (x.timer_lock = false ∧ (x.timers t).link = false ∧
    (x.timers t).running = some P.this_cpu)

/-- The test: `t` is on neither list. -/
def entry_off (t : Nat) (x : Sched) : Bool :=
  decide (t ∉ x.timer_list ∧ t ∉ x.timer_poll_list)

/-- Since the state `s`, up to the state `s1`, no callback has been called for a
timer marked running in `s`: every call logged since `s` is for a timer whose
running marker is none in `s`, and every running marker set in `s` is still
set in `s1`. -/
def spares_running (s s1 : Sched) : Prop :=
  (∀ i, (s.timers i).running ≠ none → (s1.timers i).running ≠ none) ∧
  ∃ calls, s1.expiry_calls = s.expiry_calls ++ calls ∧
    ∀ c ∈ calls, (s.timers c.1).running = none

/-- The runs of the deadline loop (timer.c 200-227) that start at time `now`
in the state `s`, turn by turn: the loop stops only where the list is empty or
its head is not due or is marked running, and every turn is a `dispatch` of the
head of the list of that moment, which is due and whose running marker is none
at that moment, followed by a clock read. -/
inductive check_turns (P : Platform) (code : Nat → timer_func_t) :
    Nat → Sched → Sched → Prop where
  | stop (now : Nat) (s : Sched) :
      (∀ t rest, s.timer_list = t :: rest → (s.timers t).target ≤ now →
        (s.timers t).running ≠ none) →
      check_turns P code now s s
  | turn (now t : Nat) (rest : List Nat) (s s1 s2 : Sched) :
      s.timer_list = t :: rest → (s.timers t).target ≤ now → (s.timers t).running = none →
      dispatch P code t now s = .ok s1 →
      check_turns P code (P.mftb s1.mftb_reads) { s1 with mftb_reads := s1.mftb_reads + 1 } s2 →
      check_turns P code now s s2

/-- The runs of the poll loop (timer.c 158-186) that start in the state `s`,
turn by turn: the loop stops only where the list is empty or its head is
stamped with the current generation or is marked running, and every turn is a
`dispatch` of the head of the list of that moment, whose running marker is none
at that moment. -/
inductive poll_turns (P : Platform) (code : Nat → timer_func_t) (now : Nat) :
    Sched → Sched → Prop where
  | stop (s : Sched) :
      (∀ t rest, s.timer_poll_list = t :: rest → (s.timers t).gen ≠ s.timer_poll_gen →
        (s.timers t).running ≠ none) →
      poll_turns P code now s s
  | turn (t : Nat) (rest : List Nat) (s s1 s2 : Sched) :
      s.timer_poll_list = t :: rest → (s.timers t).gen ≠ s.timer_poll_gen →
      (s.timers t).running = none → dispatch P code t now s = .ok s1 →
      poll_turns P code now s1 s2 → poll_turns P code now s s2

/-- Where a context stands in its call `cancel_timer(t)` (timer.c 64-71, with
`__sync_timer`, 42-55, in line) at the moments it does not hold `timer_lock`. -/
inductive cancel_pc where
  /-- Before `lock(&timer_lock)` (line 66). -/
  | at_lock
  /-- Inside the loop of `__sync_timer`, the lock released (lines 50-52), before
  `lock` (line 53). -/
  | at_relock
  /-- After `unlock(&timer_lock)` (line 70): the call has returned. -/
  | returned
  /-- The assertion of line 47 has failed. -/
  | aborted
  deriving DecidableEq, Repr

/-- The shared scheduler state and the place of the cancelling context. -/
structure cancel_cfg where
  s : Sched
  pc : cancel_pc

/-- One step of the context `P.this_cpu` in its call `cancel_timer(t)`: one
section of the call run with the lock held, from taking the lock to releasing
it or to the failed assertion; `none` when the context cannot move (the lock is
held by another context, or the call is over).

From the entry the section is what `cancel_timer` does in the current state.
Outcome `ok`: the call has returned. Outcome `assertion`: the call has aborted.
Outcome `spin`: the test of `while (t->running)` has succeeded and the context
has released the lock inside the loop (line 50).

From inside the loop the context takes the lock (line 53) and evaluates the
loop test again (line 49); the assertion is not evaluated again. The test
fails, and the rest of the call runs, exactly when `cancel_timer` returns in
the current state; otherwise the marker is set and the context releases the
lock inside the loop again. -/
def cancel_step (P : Platform) (t : Nat) (c : cancel_cfg) : Option cancel_cfg :=
  match c.pc with
  | .at_lock =>
    match cancel_timer P t c.s with
    | .ok s1 => some { s := s1, pc := .returned }
    | .error (Fault.assertion, s1) => some { s := s1, pc := .aborted }
    | .error (Fault.spin, s1) => some { s := unlock s1, pc := .at_relock }
    | .error (Fault.deadlock, _) => none
    | .error (Fault.fuel, _) => none
  | .at_relock =>
    match cancel_timer P t c.s with
    | .ok s1 => some { s := s1, pc := .returned }
    | .error (Fault.assertion, s1) => some { s := unlock s1, pc := .at_relock }
    | .error (Fault.spin, s1) => some { s := unlock s1, pc := .at_relock }
    | .error (Fault.deadlock, _) => none
    | .error (Fault.fuel, _) => none
  | .returned => none
  | .aborted => none

/-- One step of a run of `cancel_timer(t)` by the context `P.this_cpu` among
other contexts: either the cancelling context makes its step, or, the
cancelling context not holding the lock, the other contexts change the shared
state in any way that keeps the lists well-formed (they may take and release
the lock, set and clear running markers, queue and unqueue timers). The
functions of `timer.c` write the lists, and the dispatch loops the running
markers (timer.c 177 and 185, 215 and 223), with the lock held, so the other
contexts make no step inside a section of the cancelling context. -/
def cancel_next (P : Platform) (t : Nat) (c c2 : cancel_cfg) : Prop :=
  cancel_step P t c = some c2 ∨ (c2.pc = c.pc ∧ wf c2.s)

/-! ## Concrete platforms and states -/

/-- A platform: the poll value is the largest 64-bit value, the calling cpu is
cpu 1, and the timebase reads 25 at every read. -/
def P0 : Platform := { TIMER_POLL := 2 ^ 64 - 1, this_cpu := 1, mftb := fun _ => 25 }

/-- A timer as `init_timer(t, f, 0)` leaves it, for the callback address `f`. -/
def fresh (f : Nat) : timer :=
  { link := false, target := 0, gen := 0, expiry := f, user_data := 0, running := none }

/-- The scheduler at start: nothing queued, every timer object initialised. -/
def sched0 : Sched :=
  { timers := fun _ => fresh 0, timer_list := [], timer_poll_list := [],
    timer_in_poll := false, timer_poll_gen := 0, timer_lock := false,
    slw_calls := [], expiry_calls := [], mftb_reads := 0 }

/-- Timer 1 queued alone on the deadline list with target 10. -/
def sched_one : Sched :=
  { sched0 with
    timers := fun i => if i = 1 then { fresh 0 with link := true, target := 10 } else fresh 0
    timer_list := [1] }

/-- Timer 1 is queued on the deadline list, due, and its callback is running on
cpu 1, the calling cpu of `P0`. -/
def sched_self : Sched :=
  { sched_one with
    timers := fun i =>
      if i = 1 then { fresh 0 with link := true, target := 10, running := some 1 } else fresh 0 }

/-- Timers 1, 2 and 3 queued on the deadline list with targets 10, 20 and 30. -/
def sched_three : Sched :=
  { sched0 with
    timers := fun i =>
      if i = 1 then { fresh 0 with link := true, target := 10 }
      else if i = 2 then { fresh 0 with link := true, target := 20 }
      else if i = 3 then { fresh 0 with link := true, target := 30 }
      else fresh 0
    timer_list := [1, 2, 3] }

/-- A code table in which every callback returns at once. -/
def code_idle : Nat → timer_func_t := fun _ _ _ _ s => .ok s

/-- A code table: the callback at address 0 returns at once, every other
callback re-schedules its own timer with the poll value and returns. -/
def code_poll (P : Platform) : Nat → timer_func_t := fun f =>
  if f = 0 then fun _ _ _ s => .ok s
  else fun t _ _ s => schedule_timer_at P t P.TIMER_POLL s

/-- A timer queued on the poll list of `P0`, stamped with generation `g`, with
the callback at address `f`. -/
def polled (f : Nat) (g : Nat) : timer :=
  { fresh f with link := true, target := 2 ^ 64 - 1, gen := g }

/-- Timers 1 and 2 on the poll list, stamped with generation 0, the counter at
0; the callback of timer 1 is at address 0, that of timer 2 at address 1. -/
def sched_poll2 : Sched :=
  { sched0 with
    timers := fun i => if i = 1 then polled 0 0 else if i = 2 then polled 1 0 else fresh 0
    timer_poll_list := [1, 2] }

/-- As `sched_poll2`, but the callback of timer 1 is running on cpu 7. -/
def sched_blocked : Sched :=
  { sched0 with
    timers := fun i =>
      if i = 1 then { polled 0 0 with running := some 7 }
      else if i = 2 then polled 1 0 else fresh 0
    timer_poll_list := [1, 2] }

/-- Timer 1 alone on the poll list, stamped with generation 1, the counter at 0. -/
def sched_stale : Sched :=
  { sched0 with
    timers := fun i => if i = 1 then polled 0 1 else fresh 0
    timer_poll_list := [1] }

/-- Timer 1 holds stale contents (stamp 7, target 99, marked running) and is on
no list. -/
def sched_dirty : Sched :=
  { sched0 with
    timers := fun i =>
      if i = 1 then { link := false, target := 99, gen := 7, expiry := 3, user_data := 4,
                      running := some 2 }
      else fresh 0 }

/-- The platform `P0` with the timebase reading 5 at every read. -/
def P0_at5 : Platform := { P0 with mftb := fun _ => 5 }

/-- Timers 1 and 3 on the deadline list with targets 10 and 30 and the callback
at address 0, timer 2 on the poll list with the callback at address 1. -/
def sched_mixed : Sched :=
  { sched0 with
    timers := fun i =>
      if i = 1 then { fresh 0 with link := true, target := 10 }
      else if i = 2 then polled 1 0
      else if i = 3 then { fresh 0 with link := true, target := 30 }
      else fresh 0
    timer_list := [1, 3]
    timer_poll_list := [2] }

/-- Timer 1 is queued on the deadline list and its callback is running on cpu 7. -/
def sched_busy : Sched :=
  { sched_one with
    timers := fun i =>
      if i = 1 then { fresh 0 with link := true, target := 10, running := some 7 } else fresh 0 }

/-- Timers 1, 2 and 3 queued on the deadline list with targets 10, 20 and 30;
the callback of timer 1 is running on cpu 7. -/
def sched_front_busy : Sched :=
  { sched_three with
    timers := fun i =>
      if i = 1 then { fresh 0 with link := true, target := 10, running := some 7 }
      else if i = 2 then { fresh 0 with link := true, target := 20 }
      else if i = 3 then { fresh 0 with link := true, target := 30 }
      else fresh 0 }

/-- Timers 1, 2 and 3 queued on the deadline list with targets 10, 20 and 30;
the callback of timer 2 is running on cpu 7. -/
def sched_second_busy : Sched :=
  { sched_three with
    timers := fun i =>
      if i = 1 then { fresh 0 with link := true, target := 10 }
      else if i = 2 then { fresh 0 with link := true, target := 20, running := some 7 }
      else if i = 3 then { fresh 0 with link := true, target := 30 }
      else fresh 0 }

/-- Context 1 at the entry of `cancel_timer(1)` while the callback of timer 1
runs on cpu 7. -/
def busy_entry : cancel_cfg := { s := sched_busy, pc := .at_lock }

/-- Context 1 inside the wait loop, the lock released, the callback of timer 1
still running on cpu 7. -/
def busy_waiting : cancel_cfg :=
  { s := unlock { sched_busy with timer_lock := true }, pc := .at_relock }

/-- Context 1 inside the wait loop after cpu 7 has cleared the running marker
of timer 1. -/
def cleared_waiting : cancel_cfg := { s := sched_one, pc := .at_relock }

/-- Context 1 has returned from `cancel_timer(1)`. -/
def cancelled : cancel_cfg :=
  { s := unlock (__remove_timer 1 { sched_one with timer_lock := true }), pc := .returned }

/-! ## Properties -/

@[simp] theorem set_timer_timers (t : Nat) (v : timer) (s : Sched) :
    (set_timer t v s).timers = Function.update s.timers t v := rfl
@[simp] theorem set_timer_timer_list (t : Nat) (v : timer) (s : Sched) :
    (set_timer t v s).timer_list = s.timer_list := rfl
@[simp] theorem set_timer_timer_poll_list (t : Nat) (v : timer) (s : Sched) :
    (set_timer t v s).timer_poll_list = s.timer_poll_list := rfl
@[simp] theorem set_timer_timer_in_poll (t : Nat) (v : timer) (s : Sched) :
    (set_timer t v s).timer_in_poll = s.timer_in_poll := rfl
@[simp] theorem set_timer_timer_poll_gen (t : Nat) (v : timer) (s : Sched) :
    (set_timer t v s).timer_poll_gen = s.timer_poll_gen := rfl
@[simp] theorem set_timer_timer_lock (t : Nat) (v : timer) (s : Sched) :
    (set_timer t v s).timer_lock = s.timer_lock := rfl
@[simp] theorem set_timer_slw_calls (t : Nat) (v : timer) (s : Sched) :
    (set_timer t v s).slw_calls = s.slw_calls := rfl
@[simp] theorem set_timer_expiry_calls (t : Nat) (v : timer) (s : Sched) :
    (set_timer t v s).expiry_calls = s.expiry_calls := rfl
@[simp] theorem set_timer_mftb_reads (t : Nat) (v : timer) (s : Sched) :
    (set_timer t v s).mftb_reads = s.mftb_reads := rfl

@[simp] theorem remove_timer_timers (t : Nat) (s : Sched) :
    (__remove_timer t s).timers =
      Function.update s.timers t { s.timers t with link := false } := rfl
@[simp] theorem remove_timer_timer_list (t : Nat) (s : Sched) :
    (__remove_timer t s).timer_list = s.timer_list.erase t := rfl
@[simp] theorem remove_timer_timer_poll_list (t : Nat) (s : Sched) :
    (__remove_timer t s).timer_poll_list = s.timer_poll_list.erase t := rfl
@[simp] theorem remove_timer_timer_in_poll (t : Nat) (s : Sched) :
    (__remove_timer t s).timer_in_poll = s.timer_in_poll := rfl
@[simp] theorem remove_timer_timer_poll_gen (t : Nat) (s : Sched) :
    (__remove_timer t s).timer_poll_gen = s.timer_poll_gen := rfl
@[simp] theorem remove_timer_timer_lock (t : Nat) (s : Sched) :
    (__remove_timer t s).timer_lock = s.timer_lock := rfl
@[simp] theorem remove_timer_slw_calls (t : Nat) (s : Sched) :
    (__remove_timer t s).slw_calls = s.slw_calls := rfl
@[simp] theorem remove_timer_expiry_calls (t : Nat) (s : Sched) :
    (__remove_timer t s).expiry_calls = s.expiry_calls := rfl
@[simp] theorem remove_timer_mftb_reads (t : Nat) (s : Sched) :
    (__remove_timer t s).mftb_reads = s.mftb_reads := rfl

@[simp] theorem bail_timers (s : Sched) : (bail s).timers = s.timers := by
  unfold bail; split <;> rfl
@[simp] theorem bail_timer_list (s : Sched) : (bail s).timer_list = s.timer_list := by
  unfold bail; split <;> rfl
@[simp] theorem bail_timer_poll_list (s : Sched) :
    (bail s).timer_poll_list = s.timer_poll_list := by
  unfold bail; split <;> rfl
@[simp] theorem bail_timer_in_poll (s : Sched) : (bail s).timer_in_poll = s.timer_in_poll := by
  unfold bail; split <;> rfl
@[simp] theorem bail_timer_poll_gen (s : Sched) :
    (bail s).timer_poll_gen = s.timer_poll_gen := by
  unfold bail; split <;> rfl
@[simp] theorem bail_timer_lock (s : Sched) : (bail s).timer_lock = s.timer_lock := by
  unfold bail; split <;> rfl
@[simp] theorem bail_expiry_calls (s : Sched) : (bail s).expiry_calls = s.expiry_calls := by
  unfold bail; split <;> rfl
@[simp] theorem bail_mftb_reads (s : Sched) : (bail s).mftb_reads = s.mftb_reads := by
  unfold bail; split <;> rfl

/-- The sink receives the target of the head of the deadline list, if any. -/
theorem bail_slw_calls (s : Sched) :
    (bail s).slw_calls =
      s.slw_calls ++ (s.timer_list.head?.map (fun lt => (s.timers lt).target)).toList := by
  unfold bail; split <;> rename_i h <;> simp [h, slw_update_timer_expiry]

@[simp] theorem unlock_timers (s : Sched) : (unlock s).timers = s.timers := rfl
@[simp] theorem unlock_timer_list (s : Sched) : (unlock s).timer_list = s.timer_list := rfl
@[simp] theorem unlock_timer_poll_list (s : Sched) :
    (unlock s).timer_poll_list = s.timer_poll_list := rfl
@[simp] theorem unlock_timer_in_poll (s : Sched) : (unlock s).timer_in_poll = s.timer_in_poll := rfl
@[simp] theorem unlock_timer_poll_gen (s : Sched) :
    (unlock s).timer_poll_gen = s.timer_poll_gen := rfl
@[simp] theorem unlock_timer_lock (s : Sched) : (unlock s).timer_lock = false := rfl
@[simp] theorem unlock_slw_calls (s : Sched) : (unlock s).slw_calls = s.slw_calls := rfl
@[simp] theorem unlock_expiry_calls (s : Sched) : (unlock s).expiry_calls = s.expiry_calls := rfl
@[simp] theorem unlock_mftb_reads (s : Sched) : (unlock s).mftb_reads = s.mftb_reads := rfl

/-- Taking the free lock succeeds. -/
theorem lock_ok (s : Sched) (h : s.timer_lock = false) :
    lock s = .ok { s with timer_lock := true } := by
  simp [lock, h]

@[simp] theorem poll_list_add_tail_timers (t : Nat) (s : Sched) :
    (poll_list_add_tail t s).timers =
      Function.update s.timers t { s.timers t with link := true } := rfl
@[simp] theorem timer_list_add_timers (t w : Nat) (s : Sched) :
    (timer_list_add t w s).timers =
      Function.update s.timers t { s.timers t with link := true } := rfl

/-- The timer objects after `__schedule_timer_at`: only `t` is written. -/
theorem sched_at_timers (P : Platform) (t w : Nat) (s : Sched) :
    (__schedule_timer_at P t w s).timers =
      Function.update s.timers t
        { s.timers t with
            link := true, target := w,
            gen := if w = P.TIMER_POLL then s.timer_poll_gen else (s.timers t).gen } := by
  unfold __schedule_timer_at
  by_cases hw : w = P.TIMER_POLL <;> by_cases hl : (s.timers t).link = true <;>
    simp [hw, hl]

/-- The deadline list after `__schedule_timer_at`. -/
theorem sched_at_timer_list (P : Platform) (t w : Nat) (s : Sched) :
    (__schedule_timer_at P t w s).timer_list =
      if w = P.TIMER_POLL then (if (s.timers t).link then s.timer_list.erase t else s.timer_list)
      else list_add_sorted (fun lt => if lt = t then w else (s.timers lt).target) t w
        (if (s.timers t).link then s.timer_list.erase t else s.timer_list) := by
  have hfun : ∀ (tm : Nat → timer) (v : timer), v.target = w →
      (fun lt => (Function.update tm t v lt).target) =
        fun lt => if lt = t then w else (tm lt).target := by
    intro tm v hv; funext lt
    by_cases hlt : lt = t
    · subst hlt; simp [hv]
    · simp [hlt]
  unfold __schedule_timer_at
  by_cases hw : w = P.TIMER_POLL <;> by_cases hl : (s.timers t).link = true <;>
    simp [hw, hl, hfun, timer_list_add, poll_list_add_tail]

/-- The poll list after `__schedule_timer_at`. -/
theorem sched_at_timer_poll_list (P : Platform) (t w : Nat) (s : Sched) :
    (__schedule_timer_at P t w s).timer_poll_list =
      (if (s.timers t).link then s.timer_poll_list.erase t else s.timer_poll_list) ++
        (if w = P.TIMER_POLL then [t] else []) := by
  unfold __schedule_timer_at
  by_cases hw : w = P.TIMER_POLL <;> by_cases hl : (s.timers t).link = true <;>
    simp [hw, hl, timer_list_add, poll_list_add_tail]

@[simp] theorem sched_at_timer_in_poll (P : Platform) (t w : Nat) (s : Sched) :
    (__schedule_timer_at P t w s).timer_in_poll = s.timer_in_poll := by
  unfold __schedule_timer_at
  by_cases hw : w = P.TIMER_POLL <;> by_cases hl : (s.timers t).link = true <;>
    simp [hw, hl, timer_list_add, poll_list_add_tail]

@[simp] theorem sched_at_timer_poll_gen (P : Platform) (t w : Nat) (s : Sched) :
    (__schedule_timer_at P t w s).timer_poll_gen = s.timer_poll_gen := by
  unfold __schedule_timer_at
  by_cases hw : w = P.TIMER_POLL <;> by_cases hl : (s.timers t).link = true <;>
    simp [hw, hl, timer_list_add, poll_list_add_tail]

@[simp] theorem sched_at_timer_lock (P : Platform) (t w : Nat) (s : Sched) :
    (__schedule_timer_at P t w s).timer_lock = s.timer_lock := by
  unfold __schedule_timer_at
  by_cases hw : w = P.TIMER_POLL <;> by_cases hl : (s.timers t).link = true <;>
    simp [hw, hl, timer_list_add, poll_list_add_tail]

@[simp] theorem sched_at_expiry_calls (P : Platform) (t w : Nat) (s : Sched) :
    (__schedule_timer_at P t w s).expiry_calls = s.expiry_calls := by
  unfold __schedule_timer_at
  by_cases hw : w = P.TIMER_POLL <;> by_cases hl : (s.timers t).link = true <;>
    simp [hw, hl, timer_list_add, poll_list_add_tail]

@[simp] theorem sched_at_mftb_reads (P : Platform) (t w : Nat) (s : Sched) :
    (__schedule_timer_at P t w s).mftb_reads = s.mftb_reads := by
  unfold __schedule_timer_at
  by_cases hw : w = P.TIMER_POLL <;> by_cases hl : (s.timers t).link = true <;>
    simp [hw, hl, timer_list_add, poll_list_add_tail]

/-- The sink is called once, with the target of the new head, when the deadline
list is not empty after the insertion, and not at all when it is empty. -/
theorem sched_at_slw_calls (P : Platform) (t w : Nat) (s : Sched) :
    (__schedule_timer_at P t w s).slw_calls =
      s.slw_calls ++
        ((__schedule_timer_at P t w s).timer_list.head?.map
          (fun lt => ((__schedule_timer_at P t w s).timers lt).target)).toList := by
  unfold __schedule_timer_at
  simp only [bail_slw_calls, bail_timer_list, bail_timers]
  by_cases hw : w = P.TIMER_POLL <;> by_cases hl : (s.timers t).link = true <;>
    simp [hw, hl, timer_list_add, poll_list_add_tail]

/-- With the lock free, `schedule_timer_at` returns. -/
theorem schedule_timer_at_ok (P : Platform) (t w : Nat) (s : Sched) (h : s.timer_lock = false) :
    schedule_timer_at P t w s =
      .ok (unlock (__schedule_timer_at P t w { s with timer_lock := true })) := by
  simp [schedule_timer_at, lock_ok s h, bind, Except.bind, pure, Except.pure]

/-- The ordered insertion only reads the targets of the timers on the list. -/
theorem list_add_sorted_congr (f g : Nat → Nat) (t w : Nat) (l : List Nat)
    (h : ∀ i ∈ l, f i = g i) : list_add_sorted f t w l = list_add_sorted g t w l := by
  induction l with
  | nil => rfl
  | cons a l ih =>
    have ha : f a = g a := h a (List.mem_cons_self a l)
    have hl : ∀ i ∈ l, f i = g i := fun i hi => h i (List.mem_cons_of_mem a hi)
    simp [list_add_sorted, ha, ih hl]

/-- The ordered insertion puts `t` after the longest run of timers, from the
head, whose target is at most `w`. -/
theorem list_add_sorted_eq (f : Nat → Nat) (t w : Nat) (l : List Nat) :
    list_add_sorted f t w l =
      l.takeWhile (fun lt => decide (f lt ≤ w)) ++ t :: l.dropWhile (fun lt => decide (f lt ≤ w)) := by
  induction l with
  | nil => rfl
  | cons a l ih =>
    by_cases h : w < f a
    · have h1 : ¬ f a ≤ w := Nat.not_le.mpr h
      simp [list_add_sorted, h, h1, List.takeWhile, List.dropWhile]
    · have h1 : f a ≤ w := Nat.not_lt.mp h
      simp [list_add_sorted, h, h1, List.takeWhile, List.dropWhile, ih]

theorem list_add_sorted_perm (f : Nat → Nat) (t w : Nat) (l : List Nat) :
    (list_add_sorted f t w l).Perm (t :: l) := by
  rw [list_add_sorted_eq]
  refine List.perm_middle.trans ?_
  exact List.Perm.cons t (List.Perm.of_eq (List.takeWhile_append_dropWhile _ l))

theorem mem_list_add_sorted (f : Nat → Nat) (t w : Nat) (l : List Nat) (i : Nat) :
    i ∈ list_add_sorted f t w l ↔ i = t ∨ i ∈ l := by
  rw [(list_add_sorted_perm f t w l).mem_iff]; simp

theorem list_add_sorted_nodup (f : Nat → Nat) (t w : Nat) (l : List Nat)
    (ht : t ∉ l) (hl : l.Nodup) : (list_add_sorted f t w l).Nodup := by
  rw [(list_add_sorted_perm f t w l).nodup_iff]
  exact List.nodup_cons.mpr ⟨ht, hl⟩

/-- Leaving out `t`, the ordered insertion changes nothing. -/
theorem list_add_sorted_filter (f : Nat → Nat) (t w : Nat) (l : List Nat) :
    (list_add_sorted f t w l).filter (fun i => decide (i ≠ t)) =
      l.filter (fun i => decide (i ≠ t)) := by
  rw [list_add_sorted_eq]
  simp only [List.filter_append, List.filter_cons, ne_eq, not_true_eq_false, decide_False,
    Bool.false_eq_true, if_false]
  rw [← List.filter_append, List.takeWhile_append_dropWhile]

/-- The ordered insertion keeps a sorted list sorted. -/
theorem list_add_sorted_sorted (f : Nat → Nat) (t w : Nat) (l : List Nat) (hft : f t = w)
    (hs : (l.map f).Sorted (· ≤ ·)) : ((list_add_sorted f t w l).map f).Sorted (· ≤ ·) := by
  induction l with
  | nil => simp [list_add_sorted]
  | cons a l ih =>
    have hs2 := List.sorted_cons.mp hs
    by_cases h : w < f a
    · simp only [list_add_sorted, h, if_true, List.map_cons]
      refine List.sorted_cons.mpr ⟨?_, hs⟩
      intro b hb
      rcases List.mem_cons.mp hb with hb | hb
      · omega
      · have := hs2.1 b hb; omega
    · simp only [list_add_sorted, h, if_false, List.map_cons]
      refine List.sorted_cons.mpr ⟨?_, ih hs2.2⟩
      intro b hb
      obtain ⟨x, hx, rfl⟩ := List.mem_map.mp hb
      rcases (mem_list_add_sorted f t w l x).mp hx with hx | hx
      · subst hx; omega
      · exact hs2.1 _ (List.mem_map_of_mem f hx)

/-- Erasing from a duplicate-free list is filtering. -/
theorem erase_eq_filter_ne (l : List Nat) (t : Nat) (h : l.Nodup) :
    l.erase t = l.filter (fun i => decide (i ≠ t)) := by
  rw [List.Nodup.erase_eq_filter h]
  congr 1
  funext i
  by_cases hi : i = t <;> simp [hi]

/-- One `schedule_timer_at` with a deadline value keeps the deadline list
duplicate-free, its members linked, and sorted. -/
theorem schedule_at_keeps_sorted (P : Platform) (t w : Nat) (s : Sched)
    (hw : w ≠ P.TIMER_POLL) (hl : s.timer_lock = false) (hnd : s.timer_list.Nodup)
    (hlk : ∀ i ∈ s.timer_list, (s.timers i).link = true)
    (hs : (targets s).Sorted (· ≤ ·)) :
    ∃ s1, schedule_timer_at P t w s = .ok s1 ∧ s1.timer_lock = false ∧ s1.timer_list.Nodup ∧
      (∀ i ∈ s1.timer_list, (s1.timers i).link = true) ∧ (targets s1).Sorted (· ≤ ·) := by
  refine ⟨_, schedule_timer_at_ok P t w s hl, by simp, ?_, ?_, ?_⟩
  all_goals
    simp only [targets, unlock_timer_list, unlock_timers, sched_at_timer_list, sched_at_timers,
      hw, if_false]
  all_goals
    generalize hL : (if (s.timers t).link = true then s.timer_list.erase t else s.timer_list) = L
  all_goals
    have hLsub : L.Sublist s.timer_list := by
      rw [← hL]; split
      · exact List.erase_sublist t s.timer_list
      · exact List.Sublist.refl _
    have htL : t ∉ L := by
      rw [← hL]; split
      · exact fun hmem => (List.Nodup.mem_erase_iff hnd).mp hmem |>.1 rfl
      · rename_i hlink
        exact fun hmem => hlink (hlk t hmem)
  · exact list_add_sorted_nodup _ t w L htL (hnd.sublist hLsub)
  · intro i hi
    rcases (mem_list_add_sorted _ t w L i).mp hi with hi | hi
    · subst hi; simp
    · have hne : i ≠ t := fun h => htL (h ▸ hi)
      simp [Function.update_noteq hne, hlk i (hLsub.subset hi)]
  · have hf : (fun i => (Function.update s.timers t
        { link := true, target := w, gen := (s.timers t).gen, expiry := (s.timers t).expiry,
          user_data := (s.timers t).user_data, running := (s.timers t).running } i).target) =
        fun lt => if lt = t then w else (s.timers lt).target := by
      funext i
      by_cases hi : i = t
      · subst hi; simp
      · simp [hi]
    rw [hf]
    apply list_add_sorted_sorted _ t w L (by simp)
    have hmap : L.map (fun lt => if lt = t then w else (s.timers lt).target) =
        L.map (fun lt => (s.timers lt).target) := by
      apply List.map_congr_left
      intro i hi
      have hne : i ≠ t := fun h => htL (h ▸ hi)
      simp [hne]
    rw [hmap]
    exact List.Pairwise.sublist (List.Sublist.map _ hLsub) hs

/-- Any sequence of `schedule_timer_at` calls with deadline values returns and
keeps the deadline list duplicate-free, linked and sorted. -/
theorem run_schedule_at_sorted (P : Platform) (calls : List (Nat × Nat)) :
    ∀ s : Sched, (∀ c ∈ calls, c.2 ≠ P.TIMER_POLL) → s.timer_lock = false → s.timer_list.Nodup →
      (∀ i ∈ s.timer_list, (s.timers i).link = true) → (targets s).Sorted (· ≤ ·) →
      ∃ s1, run_schedule_at P calls s = .ok s1 ∧ s1.timer_lock = false ∧ s1.timer_list.Nodup ∧
        (∀ i ∈ s1.timer_list, (s1.timers i).link = true) ∧ (targets s1).Sorted (· ≤ ·) := by
  induction calls with
  | nil => intro s _ hl hnd hlk hs; exact ⟨s, rfl, hl, hnd, hlk, hs⟩
  | cons c cs ih =>
    intro s hc hl hnd hlk hs
    obtain ⟨s1, h1, hl1, hnd1, hlk1, hs1⟩ :=
      schedule_at_keeps_sorted P c.1 c.2 s (hc c (List.mem_cons_self c cs)) hl hnd hlk hs
    obtain ⟨s2, h2, hrest⟩ :=
      ih s1 (fun d hd => hc d (List.mem_cons_of_mem c hd)) hl1 hnd1 hlk1 hs1
    refine ⟨s2, ?_, hrest⟩
    simp [run_schedule_at, h1, h2, bind, Except.bind]

/-- C1. Ordering invariant: from a state with an empty deadline list, after each
call of a finite sequence of `schedule_timer_at` calls with deadline values, on
any timers (queued ones included), the call has returned and the deadline list
is non-decreasing in `target` from head to tail. -/
theorem C1_ordering_invariant (P : Platform) (s0 : Sched) (calls : List (Nat × Nat)) (n : Nat)
    (h0 : s0.timer_list = []) (hl : s0.timer_lock = false)
    (hc : ∀ c ∈ calls, c.2 ≠ P.TIMER_POLL) :
    ∃ s, run_schedule_at P (calls.take n) s0 = .ok s ∧ (targets s).Sorted (· ≤ ·) := by
  obtain ⟨s, hrun, _, _, _, hs⟩ :=
    run_schedule_at_sorted P (calls.take n) s0
      (fun c hcm => hc c (List.mem_of_mem_take hcm)) hl (by simp [h0]) (by simp [h0])
      (by simp [targets, h0])
  exact ⟨s, hrun, hs⟩

/-- C1 at three calls on two timers, the last one re-scheduling a queued timer. -/
theorem C1_ordering_invariant_witness :
    ∃ s, run_schedule_at P0 ([(1, 30), (2, 10), (1, 5)].take 3) sched0 = .ok s ∧
      (targets s).Sorted (· ≤ ·) :=
  C1_ordering_invariant P0 sched0 [(1, 30), (2, 10), (1, 5)] 3 rfl rfl (by decide)

/-- In a sorted list every timer behind the leading run of targets at most `w`
has a target above `w`. -/
theorem dropWhile_le_all_gt (f : Nat → Nat) (w : Nat) (l : List Nat)
    (hs : (l.map f).Sorted (· ≤ ·)) :
    ∀ i ∈ l.dropWhile (fun lt => decide (f lt ≤ w)), w < f i := by
  induction l with
  | nil => simp
  | cons a l ih =>
    have hs2 := List.sorted_cons.mp hs
    by_cases h : f a ≤ w
    · simpa [List.dropWhile, h] using ih hs2.2
    · intro i hi
      simp only [List.dropWhile, h, decide_False] at hi
      rcases List.mem_cons.mp hi with hi | hi
      · subst hi; omega
      · have := hs2.1 (f i) (List.mem_map_of_mem f hi); omega

/-- A deadline insertion of a timer that is not on the deadline list. -/
theorem schedule_at_new_timer_list (P : Platform) (t w : Nat) (s : Sched)
    (hw : w ≠ P.TIMER_POLL) (ht : t ∉ s.timer_list) :
    (__schedule_timer_at P t w s).timer_list =
      list_add_sorted (fun lt => (s.timers lt).target) t w s.timer_list := by
  rw [sched_at_timer_list]
  simp only [hw, if_false, List.erase_of_not_mem ht, ite_self]
  apply list_add_sorted_congr
  intro i hi
  have hne : i ≠ t := fun h => ht (h ▸ hi)
  simp [hne]

/-- C6. Insertion position and tie-break: on a sorted deadline list,
`schedule_timer_at` of a timer that is not on the list, with a deadline value
`w`, returns and splits the list as `pre ++ post`, with every target in `pre`
at most `w` and every target in `post` above `w`, and the new list is
`pre ++ t :: post`: the timer stands immediately before the first strictly
greater target, at the tail when there is none, behind every timer of target
`w`; the targets of the other timers are unchanged. -/
theorem C6_insertion_position (P : Platform) (t w : Nat) (s : Sched)
    (hl : s.timer_lock = false) (hw : w ≠ P.TIMER_POLL) (ht : t ∉ s.timer_list)
    (hs : (targets s).Sorted (· ≤ ·)) :
    ∃ s1 pre post, schedule_timer_at P t w s = .ok s1 ∧
      s.timer_list = pre ++ post ∧ s1.timer_list = pre ++ t :: post ∧
      (∀ i ∈ pre, (s.timers i).target ≤ w) ∧ (∀ i ∈ post, w < (s.timers i).target) ∧
      (s1.timers t).target = w ∧ (∀ i, i ≠ t → s1.timers i = s.timers i) := by
  refine ⟨_, s.timer_list.takeWhile (fun lt => decide ((s.timers lt).target ≤ w)),
    s.timer_list.dropWhile (fun lt => decide ((s.timers lt).target ≤ w)),
    schedule_timer_at_ok P t w s hl, (List.takeWhile_append_dropWhile _ _).symm, ?_, ?_, ?_, ?_, ?_⟩
  · rw [unlock_timer_list, schedule_at_new_timer_list P t w { s with timer_lock := true } hw ht]
    exact list_add_sorted_eq _ t w s.timer_list
  · intro i hi
    simpa using List.mem_takeWhile_imp hi
  · exact dropWhile_le_all_gt (fun lt => (s.timers lt).target) w s.timer_list hs
  · simp [sched_at_timers]
  · intro i hi
    simp [sched_at_timers, Function.update_noteq hi]

/-- C6 on the list of targets 10 (timer 1): timer 2 with target 10 goes behind it. -/
theorem C6_insertion_position_witness :
    ∃ s1 pre post, schedule_timer_at P0 2 10 sched_one = .ok s1 ∧
      sched_one.timer_list = pre ++ post ∧ s1.timer_list = pre ++ 2 :: post ∧
      (∀ i ∈ pre, (sched_one.timers i).target ≤ 10) ∧
      (∀ i ∈ post, 10 < (sched_one.timers i).target) ∧
      (s1.timers 2).target = 10 ∧ (∀ i, i ≠ 2 → s1.timers i = sched_one.timers i) :=
  C6_insertion_position P0 2 10 sched_one rfl (by decide) (by decide) (by decide)

/-- C9. Notification on an earlier deadline: when the head of the deadline list
has a target above the deadline value `w` and `t` is not on the deadline list,
`schedule_timer_at(t, w)` returns, `t` is the new head, and the sink has
received exactly one more call, with argument `w`. -/
theorem C9_notify_earlier (P : Platform) (t w lt : Nat) (rest : List Nat) (s : Sched)
    (hl : s.timer_lock = false) (hw : w ≠ P.TIMER_POLL) (ht : t ∉ s.timer_list)
    (hlist : s.timer_list = lt :: rest) (hlt : w < (s.timers lt).target) :
    ∃ s1, schedule_timer_at P t w s = .ok s1 ∧ s1.timer_list = t :: lt :: rest ∧
      (s1.timers t).target = w ∧ s1.slw_calls = s.slw_calls ++ [w] := by
  have hnew : (__schedule_timer_at P t w { s with timer_lock := true }).timer_list =
      t :: lt :: rest := by
    rw [schedule_at_new_timer_list P t w { s with timer_lock := true } hw ht]
    simp [hlist, list_add_sorted, hlt]
  refine ⟨_, schedule_timer_at_ok P t w s hl, by simpa using hnew, by simp [sched_at_timers], ?_⟩
  rw [unlock_slw_calls, sched_at_slw_calls, hnew]
  simp [sched_at_timers]

/-- C9 on the list of targets 10: scheduling timer 2 at 5 notifies 5. -/
theorem C9_notify_earlier_witness :
    ∃ s1, schedule_timer_at P0 2 5 sched_one = .ok s1 ∧ s1.timer_list = 2 :: 1 :: [] ∧
      (s1.timers 2).target = 5 ∧ s1.slw_calls = sched_one.slw_calls ++ [5] :=
  C9_notify_earlier P0 2 5 1 [] sched_one rfl (by decide) (by decide) rfl (by decide)

/-- C10, as stated, fails: with timer 1 queued at target 10, scheduling timer 2
at the later deadline 20 calls the sink, with the argument 10. -/
theorem C10_counterexample :
    ∃ s1, schedule_timer_at P0 2 20 sched_one = .ok s1 ∧
      sched_one.slw_calls = [] ∧ s1.slw_calls = [10] :=
  ⟨_, rfl, rfl, rfl⟩

/-- C10, amended. Notification on a later deadline: when the head `lt` of the
deadline list has a target below the deadline value `w` and `t` is not on the
deadline list, `schedule_timer_at(t, w)` returns, the head is still `lt`, and
the sink has received exactly one more call, whose argument is the unchanged
target of the head. -/
theorem C10_notify_later (P : Platform) (t w lt : Nat) (rest : List Nat) (s : Sched)
    (hl : s.timer_lock = false) (hw : w ≠ P.TIMER_POLL) (ht : t ∉ s.timer_list)
    (hlist : s.timer_list = lt :: rest) (hlt : (s.timers lt).target < w) :
    ∃ s1, schedule_timer_at P t w s = .ok s1 ∧ s1.timer_list.head? = some lt ∧
      (s1.timers lt).target = (s.timers lt).target ∧
      s1.slw_calls = s.slw_calls ++ [(s.timers lt).target] := by
  have hne : lt ≠ t := fun h => ht (by rw [hlist, h]; exact List.mem_cons_self t rest)
  have hnew : (__schedule_timer_at P t w { s with timer_lock := true }).timer_list =
      lt :: list_add_sorted (fun i => (s.timers i).target) t w rest := by
    rw [schedule_at_new_timer_list P t w { s with timer_lock := true } hw ht]
    have : ¬ w < (s.timers lt).target := by omega
    simp [hlist, list_add_sorted, this]
  refine ⟨_, schedule_timer_at_ok P t w s hl, by simp [hnew], ?_, ?_⟩
  · simp [sched_at_timers, Function.update_noteq hne]
  · rw [unlock_slw_calls, sched_at_slw_calls, hnew]
    simp [sched_at_timers, Function.update_noteq hne]

/-- C10, amended, on the list of targets 10: scheduling timer 2 at 20 notifies 10. -/
theorem C10_notify_later_witness :
    ∃ s1, schedule_timer_at P0 2 20 sched_one = .ok s1 ∧ s1.timer_list.head? = some 1 ∧
      (s1.timers 1).target = (sched_one.timers 1).target ∧
      s1.slw_calls = sched_one.slw_calls ++ [(sched_one.timers 1).target] :=
  C10_notify_later P0 2 20 1 [] sched_one rfl (by decide) (by decide) rfl (by decide)

/-- The invariant `wf` only reads the timer objects and the two lists. -/
theorem wf_congr (s s1 : Sched) (h1 : s1.timers = s.timers) (h2 : s1.timer_list = s.timer_list)
    (h3 : s1.timer_poll_list = s.timer_poll_list) : wf s1 ↔ wf s := by
  simp [wf, h1, h2, h3]

/-- Erasing `t` from the lists and clearing its link keeps `wf`, and `t` is then
on neither list. -/
theorem wf_remove_timer (t : Nat) (s : Sched) (h : wf s) :
    wf (__remove_timer t s) ∧ t ∉ (__remove_timer t s).timer_list ∧
      t ∉ (__remove_timer t s).timer_poll_list := by
  obtain ⟨h1, h2, h3, h4⟩ := h
  have e1 : ∀ i, i ∈ s.timer_list.erase t ↔ i ≠ t ∧ i ∈ s.timer_list :=
    fun i => List.Nodup.mem_erase_iff h1
  have e2 : ∀ i, i ∈ s.timer_poll_list.erase t ↔ i ≠ t ∧ i ∈ s.timer_poll_list :=
    fun i => List.Nodup.mem_erase_iff h2
  refine ⟨⟨h1.erase t, h2.erase t, ?_, ?_⟩, ?_, ?_⟩
  · intro i hi hi2
    simp only [remove_timer_timer_list, remove_timer_timer_poll_list, e1, e2] at hi hi2
    exact h3 i hi.2 hi2.2
  · intro i
    simp only [remove_timer_timers, remove_timer_timer_list, remove_timer_timer_poll_list, e1, e2]
    by_cases hi : i = t
    · subst hi; simp
    · simp [Function.update_noteq hi, hi, h4 i]
  · simp [e1]
  · simp [e2]

/-- The state after the optional unlinking at the head of `__schedule_timer_at`
and of the cancel functions: `wf` holds and `t` is on neither list. -/
theorem wf_unlinked (t : Nat) (s : Sched) (h : wf s) :
    wf (if (s.timers t).link = true then __remove_timer t s else s) ∧
      t ∉ (if (s.timers t).link = true then __remove_timer t s else s).timer_list ∧
      t ∉ (if (s.timers t).link = true then __remove_timer t s else s).timer_poll_list := by
  by_cases hl : (s.timers t).link = true
  · simpa [hl] using wf_remove_timer t s h
  · have := (h.2.2.2 t).not.mp hl
    simp only [hl, if_false]
    exact ⟨h, fun hm => this (Or.inl hm), fun hm => this (Or.inr hm)⟩

/-- On a `wf` state the optional unlinking removes `t` from both lists, keeping
the order of the others. -/
theorem unlinked_lists (t : Nat) (s : Sched) (h : wf s) :
    (if (s.timers t).link = true then s.timer_list.erase t else s.timer_list) =
        s.timer_list.filter (fun i => decide (i ≠ t)) ∧
    (if (s.timers t).link = true then s.timer_poll_list.erase t else s.timer_poll_list) =
        s.timer_poll_list.filter (fun i => decide (i ≠ t)) := by
  have e1 := erase_eq_filter_ne s.timer_list t h.1
  have e2 := erase_eq_filter_ne s.timer_poll_list t h.2.1
  by_cases hl : (s.timers t).link = true
  · simp only [hl, if_true]; exact ⟨e1, e2⟩
  · have := (h.2.2.2 t).not.mp hl
    simp only [hl, if_false]
    rw [← e1, ← e2, List.erase_of_not_mem (fun hm => this (Or.inl hm)),
      List.erase_of_not_mem (fun hm => this (Or.inr hm))]
    exact ⟨rfl, rfl⟩

/-- `__schedule_timer_at` keeps `wf`. -/
theorem wf_schedule_timer_at (P : Platform) (t w : Nat) (s : Sched) (h : wf s) :
    wf (__schedule_timer_at P t w s) := by
  obtain ⟨e1, e2⟩ := unlinked_lists t s h
  have hf1 : ∀ i, i ∈ s.timer_list.filter (fun i => decide (i ≠ t)) ↔ i ∈ s.timer_list ∧ i ≠ t := by
    intro i; simp [List.mem_filter]
  have hf2 : ∀ i, i ∈ s.timer_poll_list.filter (fun i => decide (i ≠ t)) ↔
      i ∈ s.timer_poll_list ∧ i ≠ t := by
    intro i; simp [List.mem_filter]
  obtain ⟨h1, h2, h3, h4⟩ := h
  unfold wf
  rw [sched_at_timers, sched_at_timer_list, sched_at_timer_poll_list, e1, e2]
  by_cases hw : w = P.TIMER_POLL
  · simp only [hw, if_true]
    refine ⟨h1.filter _, ?_, ?_, ?_⟩
    · rw [List.nodup_append]
      refine ⟨h2.filter _, List.nodup_singleton t, ?_⟩
      intro a ha hb
      rw [List.mem_singleton] at hb
      exact ((hf2 a).mp ha).2 hb
    · intro i hi hi2
      rw [List.mem_append, List.mem_singleton] at hi2
      rcases hi2 with hi2 | hi2
      · exact h3 i ((hf1 i).mp hi).1 ((hf2 i).mp hi2).1
      · exact ((hf1 i).mp hi).2 hi2
    · intro i
      by_cases hi : i = t
      · subst hi; simp
      · simp [Function.update_noteq hi, hi, hf1, hf2, h4 i]
  · simp only [hw, if_false, List.append_nil]
    refine ⟨?_, h2.filter _, ?_, ?_⟩
    · exact list_add_sorted_nodup _ t w _ (fun hm => ((hf1 t).mp hm).2 rfl) (h1.filter _)
    · intro i hi hi2
      rcases (mem_list_add_sorted _ t w _ i).mp hi with hi | hi
      · exact ((hf2 i).mp hi2).2 hi
      · exact h3 i ((hf1 i).mp hi).1 ((hf2 i).mp hi2).1
    · intro i
      rw [mem_list_add_sorted]
      by_cases hi : i = t
      · subst hi; simp
      · simp [Function.update_noteq hi, hi, hf1, hf2, h4 i]

/-- Writing back the value a field already has changes nothing. -/
theorem unlock_of_free (s : Sched) (h : s.timer_lock = false) : unlock s = s := by
  cases s; simp only [unlock] at *; simp [h]

/-- With the lock free and the timer not running, `cancel_timer` returns. -/
theorem cancel_timer_ok (P : Platform) (t : Nat) (s : Sched) (hl : s.timer_lock = false)
    (hr : (s.timers t).running = none) :
    cancel_timer P t s =
      .ok (unlock (if (s.timers t).link = true then __remove_timer t { s with timer_lock := true }
                   else { s with timer_lock := true })) := by
  simp [cancel_timer, lock_ok s hl, __sync_timer, hr, bind, Except.bind, pure, Except.pure]

/-- With the lock free `cancel_timer_async` returns. -/
theorem cancel_timer_async_ok (t : Nat) (s : Sched) (hl : s.timer_lock = false) :
    cancel_timer_async t s =
      .ok (unlock (if (s.timers t).link = true then __remove_timer t { s with timer_lock := true }
                   else { s with timer_lock := true })) := by
  simp [cancel_timer_async, lock_ok s hl, bind, Except.bind, pure, Except.pure]

/-- The state both cancel functions return: `wf`, unlocked, `t` unlinked and on
neither list, the other timers and their order untouched. -/
theorem cancel_result (t : Nat) (s : Sched) (hwf : wf s) (hl : s.timer_lock = false) :
    let s1 := unlock (if (s.timers t).link = true then __remove_timer t { s with timer_lock := true }
                      else { s with timer_lock := true })
    wf s1 ∧ s1.timer_lock = false ∧ t ∉ s1.timer_list ∧ t ∉ s1.timer_poll_list ∧
      (s1.timers t).link = false ∧
      s1.timer_list = s.timer_list.filter (fun i => decide (i ≠ t)) ∧
      s1.timer_poll_list = s.timer_poll_list.filter (fun i => decide (i ≠ t)) ∧
      (∀ i, i ≠ t → s1.timers i = s.timers i) ∧
      (∀ i, (s1.timers i).running = (s.timers i).running) ∧
      ((s.timers t).link = false → s1 = s) := by
  intro s1
  have hwf2 : wf { s with timer_lock := true } := (wf_congr s _ rfl rfl rfl).mpr hwf
  obtain ⟨hw, hn1, hn2⟩ := wf_unlinked t { s with timer_lock := true } hwf2
  obtain ⟨e1, e2⟩ := unlinked_lists t s hwf
  have hwf1 : wf s1 := (wf_congr _ s1 rfl rfl rfl).mpr hw
  refine ⟨hwf1, rfl, hn1, hn2, ?_, ?_, ?_, ?_, ?_, ?_⟩
  · exact Bool.eq_false_iff.mpr (fun hlink => by
      rcases (hwf1.2.2.2 t).mp hlink with hm | hm
      · exact hn1 hm
      · exact hn2 hm)
  · rw [← e1]; by_cases hk : (s.timers t).link = true <;> simp [s1, hk]
  · rw [← e2]; by_cases hk : (s.timers t).link = true <;> simp [s1, hk]
  · intro i hi
    by_cases hk : (s.timers t).link = true <;> simp [s1, hk, Function.update_noteq hi]
  · intro i
    by_cases hk : (s.timers t).link = true
    · by_cases hi : i = t
      · subst hi; simp [s1, hk]
      · simp [s1, hk, Function.update_noteq hi]
    · simp [s1, hk]
  · intro hk
    simp only [s1, hk, Bool.false_eq_true, if_false]
    exact unlock_of_free s hl

/-- C7. `cancel_timer` on a timer that is not running, in a well-formed state
with the lock free: the call returns; the timer is then on neither list and its
link is null; the other timers keep their membership and order on both lists
and their fields, so target and generation; when the timer's link is null
beforehand (it is on no list) the whole state is unchanged; and a second
`cancel_timer` returns the state the first one returned. -/
theorem C7_cancel_timer (P : Platform) (t : Nat) (s : Sched) (hwf : wf s)
    (hl : s.timer_lock = false) (hr : (s.timers t).running = none) :
    ∃ s1, cancel_timer P t s = .ok s1 ∧
      t ∉ s1.timer_list ∧ t ∉ s1.timer_poll_list ∧ (s1.timers t).link = false ∧
      s1.timer_list = s.timer_list.filter (fun i => decide (i ≠ t)) ∧
      s1.timer_poll_list = s.timer_poll_list.filter (fun i => decide (i ≠ t)) ∧
      (∀ i, i ≠ t → s1.timers i = s.timers i) ∧
      ((t ∉ s.timer_list ∧ t ∉ s.timer_poll_list) → s1 = s) ∧
      cancel_timer P t s1 = .ok s1 := by
  obtain ⟨hwf1, hl1, hn1, hn2, hk1, e1, e2, hfr, hrun, hsame⟩ := cancel_result t s hwf hl
  refine ⟨_, cancel_timer_ok P t s hl hr, hn1, hn2, hk1, e1, e2, hfr, ?_, ?_⟩
  · intro hno
    apply hsame
    exact Bool.eq_false_iff.mpr (fun hlink => by
      rcases (hwf.2.2.2 t).mp hlink with hm | hm
      · exact hno.1 hm
      · exact hno.2 hm)
  · rw [cancel_timer_ok P t _ hl1 (by rw [hrun t]; exact hr)]
    congr 1
    exact (cancel_result t _ hwf1 hl1).2.2.2.2.2.2.2.2.2 hk1

/-- C7 on the state with timer 1 queued at target 10. -/
theorem C7_cancel_timer_witness :
    ∃ s1, cancel_timer P0 1 sched_one = .ok s1 ∧
      1 ∉ s1.timer_list ∧ 1 ∉ s1.timer_poll_list ∧ (s1.timers 1).link = false ∧
      s1.timer_list = sched_one.timer_list.filter (fun i => decide (i ≠ 1)) ∧
      s1.timer_poll_list = sched_one.timer_poll_list.filter (fun i => decide (i ≠ 1)) ∧
      (∀ i, i ≠ 1 → s1.timers i = sched_one.timers i) ∧
      ((1 ∉ sched_one.timer_list ∧ 1 ∉ sched_one.timer_poll_list) → s1 = sched_one) ∧
      cancel_timer P0 1 s1 = .ok s1 :=
  C7_cancel_timer P0 1 sched_one
    ⟨by decide, by decide, by decide, fun i => by
      by_cases h : i = 1 <;> simp [sched_one, sched0, fresh, h]⟩
    rfl rfl

/-- C8. Reentrancy violation is fatal: with the lock free on entry, when the
timer's running marker is the calling cpu both `cancel_timer` and `sync_timer`
end in the failed assertion, in a state whose lists and timer objects are those
on entry (only the lock has been taken); when the running marker is none both
calls return. -/
theorem C8_reentrancy_assert (P : Platform) (t : Nat) (s : Sched) (hl : s.timer_lock = false) :
    ((s.timers t).running = some P.this_cpu →
       cancel_timer P t s = .error (Fault.assertion, { s with timer_lock := true }) ∧
       sync_timer P t s = .error (Fault.assertion, { s with timer_lock := true })) ∧
    ((s.timers t).running = none →
       (∃ s1, cancel_timer P t s = .ok s1) ∧ sync_timer P t s = .ok s) := by
  constructor
  · intro hr
    simp [cancel_timer, sync_timer, lock_ok s hl, __sync_timer, hr, bind, Except.bind]
  · intro hr
    refine ⟨⟨_, cancel_timer_ok P t s hl hr⟩, ?_⟩
    have : unlock { s with timer_lock := true } = s := by
      cases s; simp only [unlock] at *; simp [hl]
    simp [sync_timer, lock_ok s hl, __sync_timer, hr, bind, Except.bind, pure, Except.pure, this]

/-- C8 on a timer running on the calling cpu, and on an idle timer. -/
theorem C8_reentrancy_assert_witness :
    (cancel_timer P0 1 sched_self = .error (Fault.assertion, { sched_self with timer_lock := true }) ∧
     sync_timer P0 1 sched_self = .error (Fault.assertion, { sched_self with timer_lock := true })) ∧
    ((∃ s1, cancel_timer P0 1 sched_one = .ok s1) ∧ sync_timer P0 1 sched_one = .ok sched_one) :=
  ⟨(C8_reentrancy_assert P0 1 sched_self rfl).1 rfl, (C8_reentrancy_assert P0 1 sched_one rfl).2 rfl⟩

/-- The state `schedule_timer_at` returns on a well-formed state: `wf` again,
the other timers in their order, and `t` exactly once, at the tail of the poll
list with the current generation for the poll value, on the deadline list
otherwise. -/
theorem schedule_at_result (P : Platform) (t w : Nat) (s : Sched) (hwf : wf s) :
    let s1 := unlock (__schedule_timer_at P t w { s with timer_lock := true })
    wf s1 ∧ s1.timer_lock = false ∧
      (∀ i, (s1.timers i).running = (s.timers i).running) ∧
      s1.timer_list.filter (fun i => decide (i ≠ t)) =
        s.timer_list.filter (fun i => decide (i ≠ t)) ∧
      s1.timer_poll_list.filter (fun i => decide (i ≠ t)) =
        s.timer_poll_list.filter (fun i => decide (i ≠ t)) ∧
      (w = P.TIMER_POLL →
        s1.timer_poll_list.count t = 1 ∧ t ∉ s1.timer_list ∧
        s1.timer_poll_list.getLast? = some t ∧ (s1.timers t).gen = s1.timer_poll_gen ∧
        s1.timer_poll_gen = s.timer_poll_gen) ∧
      (w ≠ P.TIMER_POLL → s1.timer_list.count t = 1 ∧ t ∉ s1.timer_poll_list) := by
  intro s1
  have hwf2 : wf { s with timer_lock := true } := (wf_congr s _ rfl rfl rfl).mpr hwf
  have hwf1 : wf s1 := (wf_congr _ s1 rfl rfl rfl).mpr (wf_schedule_timer_at P t w _ hwf2)
  obtain ⟨e1, e2⟩ := unlinked_lists t s hwf
  have htl : s1.timer_list =
      if w = P.TIMER_POLL then s.timer_list.filter (fun i => decide (i ≠ t))
      else list_add_sorted (fun lt => if lt = t then w else (s.timers lt).target) t w
        (s.timer_list.filter (fun i => decide (i ≠ t))) := by
    simp only [s1, unlock_timer_list, sched_at_timer_list]
    rw [← e1]
  have hpl : s1.timer_poll_list =
      s.timer_poll_list.filter (fun i => decide (i ≠ t)) ++
        (if w = P.TIMER_POLL then [t] else []) := by
    simp only [s1, unlock_timer_poll_list, sched_at_timer_poll_list]
    rw [← e2]
  have hnot1 : t ∉ s.timer_list.filter (fun i => decide (i ≠ t)) := by simp [List.mem_filter]
  have hnot2 : t ∉ s.timer_poll_list.filter (fun i => decide (i ≠ t)) := by simp [List.mem_filter]
  refine ⟨hwf1, rfl, ?_, ?_, ?_, ?_, ?_⟩
  · intro i
    by_cases hi : i = t
    · subst hi; simp [s1, sched_at_timers]
    · simp [s1, sched_at_timers, Function.update_noteq hi]
  · rw [htl]
    by_cases hw : w = P.TIMER_POLL
    · simp [hw, List.filter_filter]
    · simp only [hw, if_false]
      rw [list_add_sorted_filter, List.filter_filter]; simp
  · rw [hpl]
    by_cases hw : w = P.TIMER_POLL
    · simp [hw, List.filter_filter]
    · simp [hw, List.filter_filter]
  · intro hw
    refine ⟨?_, ?_, ?_, ?_, ?_⟩
    · rw [hpl, List.count_append, List.count_eq_zero_of_not_mem hnot2]; simp [hw]
    · rw [htl]; simp [hw]
    · rw [hpl]; simp [hw]
    · simp [s1, sched_at_timers, hw]
    · simp [s1]
  · intro hw
    refine ⟨?_, ?_⟩
    · rw [htl]
      simp only [hw, if_false]
      rw [(list_add_sorted_perm _ t w _).count_eq, List.count_cons_self,
        List.count_eq_zero_of_not_mem hnot1]
    · rw [hpl]; simp [hw]

/-- Every sequence of calls, on timers none of which is running, returns and
keeps the state well-formed, unlocked and without running timers. -/
theorem run_ops_wf (P : Platform) (ops : List Op) :
    ∀ s : Sched, wf s → s.timer_lock = false → (∀ i, (s.timers i).running = none) →
      ∃ s1, run_ops P ops s = .ok s1 ∧ wf s1 ∧ s1.timer_lock = false ∧
        (∀ i, (s1.timers i).running = none) := by
  induction ops with
  | nil => intro s h1 h2 h3; exact ⟨s, rfl, h1, h2, h3⟩
  | cons o os ih =>
    intro s h1 h2 h3
    have hstep : ∃ s1, apply_op P o s = .ok s1 ∧ wf s1 ∧ s1.timer_lock = false ∧
        (∀ i, (s1.timers i).running = none) := by
      cases o with
      | schedule_at t w =>
        obtain ⟨a, b, c, _⟩ := schedule_at_result P t w s h1
        exact ⟨_, schedule_timer_at_ok P t w s h2, a, b, fun i => by rw [c i]; exact h3 i⟩
      | cancel t =>
        obtain ⟨a, b, _, _, _, _, _, _, c, _⟩ := cancel_result t s h1 h2
        exact ⟨_, cancel_timer_ok P t s h2 (h3 t), a, b, fun i => by rw [c i]; exact h3 i⟩
      | cancel_async t =>
        obtain ⟨a, b, _, _, _, _, _, _, c, _⟩ := cancel_result t s h1 h2
        exact ⟨_, cancel_timer_async_ok t s h2, a, b, fun i => by rw [c i]; exact h3 i⟩
    obtain ⟨s1, e1, a1, b1, c1⟩ := hstep
    obtain ⟨s2, e2, rest⟩ := ih s1 a1 b1 c1
    exact ⟨s2, by simp [run_ops, e1, e2, bind, Except.bind], rest⟩

/-- C5. At-most-one-membership: from a start state with both lists empty, the
lock free and every timer initialised (link null, not running), every sequence
of `schedule_timer_at`, `cancel_timer` and `cancel_timer_async` calls returns,
and in the state reached no timer occurs twice on a list or on both lists.
In that state `schedule_timer_at(t, when)`, for any `t` (queued or not) and any
`when`, returns; the other timers keep their order on both lists; for the poll
value `t` is not on the deadline list and occurs once on the poll list, at the
tail, stamped with the current poll-generation counter; for any other value
`t` is not on the poll list and occurs once on the deadline list. -/
theorem C5_one_membership (P : Platform) (s0 : Sched) (ops : List Op)
    (h0 : s0.timer_list = []) (h1 : s0.timer_poll_list = []) (hl : s0.timer_lock = false)
    (hinit : ∀ i, (s0.timers i).link = false ∧ (s0.timers i).running = none) :
    ∃ s, run_ops P ops s0 = .ok s ∧
      s.timer_list.Nodup ∧ s.timer_poll_list.Nodup ∧ (∀ i ∈ s.timer_list, i ∉ s.timer_poll_list) ∧
      ∀ t w, ∃ s1, schedule_timer_at P t w s = .ok s1 ∧
        s1.timer_list.filter (fun i => decide (i ≠ t)) =
          s.timer_list.filter (fun i => decide (i ≠ t)) ∧
        s1.timer_poll_list.filter (fun i => decide (i ≠ t)) =
          s.timer_poll_list.filter (fun i => decide (i ≠ t)) ∧
        (w = P.TIMER_POLL →
          s1.timer_poll_list.count t = 1 ∧ t ∉ s1.timer_list ∧
          s1.timer_poll_list.getLast? = some t ∧ (s1.timers t).gen = s1.timer_poll_gen ∧
          s1.timer_poll_gen = s.timer_poll_gen) ∧
        (w ≠ P.TIMER_POLL → s1.timer_list.count t = 1 ∧ t ∉ s1.timer_poll_list) := by
  have hwf0 : wf s0 := by
    refine ⟨by simp [h0], by simp [h1], by simp [h0], fun i => ?_⟩
    simp [h0, h1, (hinit i).1]
  obtain ⟨s, hrun, hwf, hlock, _⟩ := run_ops_wf P ops s0 hwf0 hl (fun i => (hinit i).2)
  refine ⟨s, hrun, hwf.1, hwf.2.1, hwf.2.2.1, fun t w => ?_⟩
  obtain ⟨_, _, _, a, b, c, d⟩ := schedule_at_result P t w s hwf
  exact ⟨_, schedule_timer_at_ok P t w s hlock, a, b, c, d⟩

/-- C5 after scheduling timer 1 at 30, timer 2 as a poll timer, timer 1 again as a
poll timer, and cancelling timer 2. -/
theorem C5_one_membership_witness :
    ∃ s, run_ops P0 [.schedule_at 1 30, .schedule_at 2 P0.TIMER_POLL,
        .schedule_at 1 P0.TIMER_POLL, .cancel 2] sched0 = .ok s ∧
      s.timer_list.Nodup ∧ s.timer_poll_list.Nodup ∧ (∀ i ∈ s.timer_list, i ∉ s.timer_poll_list) ∧
      ∀ t w, ∃ s1, schedule_timer_at P0 t w s = .ok s1 ∧
        s1.timer_list.filter (fun i => decide (i ≠ t)) =
          s.timer_list.filter (fun i => decide (i ≠ t)) ∧
        s1.timer_poll_list.filter (fun i => decide (i ≠ t)) =
          s.timer_poll_list.filter (fun i => decide (i ≠ t)) ∧
        (w = P0.TIMER_POLL →
          s1.timer_poll_list.count t = 1 ∧ t ∉ s1.timer_list ∧
          s1.timer_poll_list.getLast? = some t ∧ (s1.timers t).gen = s1.timer_poll_gen ∧
          s1.timer_poll_gen = s.timer_poll_gen) ∧
        (w ≠ P0.TIMER_POLL → s1.timer_list.count t = 1 ∧ t ∉ s1.timer_poll_list) :=
  C5_one_membership P0 sched0 _ rfl rfl rfl (fun _ => ⟨rfl, rfl⟩)

/-- A turn of a dispatch loop, unfolded. -/
theorem dispatch_def (P : Platform) (code : Nat → timer_func_t) (t now : Nat) (s : Sched) :
    dispatch P code t now s =
      (call_expiry code t now
        (unlock (set_timer t { (__remove_timer t s).timers t with running := some P.this_cpu }
          (__remove_timer t s)))).bind
        (fun s4 => (lock s4).bind
          (fun s5 => .ok (set_timer t { s5.timers t with running := none } s5))) := rfl

/-- The poll loop stops at an empty list. -/
theorem poll_loop_nil (P : Platform) (code : Nat → timer_func_t) (now fuel : Nat) (s : Sched)
    (h : s.timer_poll_list = []) : poll_loop P code now (fuel + 1) s = .ok s := by
  simp [poll_loop, h]

/-- The poll loop stops at a head stamped with the current generation or running. -/
theorem poll_loop_stop (P : Platform) (code : Nat → timer_func_t) (now fuel t : Nat)
    (rest : List Nat) (s : Sched) (h : s.timer_poll_list = t :: rest)
    (hstop : (s.timers t).gen = s.timer_poll_gen ∨ (s.timers t).running ≠ none) :
    poll_loop P code now (fuel + 1) s = .ok s := by
  rcases hstop with hg | hr
  · simp [poll_loop, h, hg]
  · have : (s.timers t).running.isSome = true := by
      cases hrun : (s.timers t).running with
      | none => exact absurd hrun hr
      | some c => rfl
    simp [poll_loop, h, this]

/-- The poll loop dispatches a head that is of an older generation and not running. -/
theorem poll_loop_step (P : Platform) (code : Nat → timer_func_t) (now fuel t : Nat)
    (rest : List Nat) (s s1 : Sched) (h : s.timer_poll_list = t :: rest)
    (hg : (s.timers t).gen ≠ s.timer_poll_gen) (hr : (s.timers t).running = none)
    (hd : dispatch P code t now s = .ok s1) :
    poll_loop P code now (fuel + 1) s = poll_loop P code now fuel s1 := by
  rw [dispatch_def] at hd
  simp only [poll_loop, h, hg, hr, Option.isSome_none, if_false, Bool.false_eq_true, bind]
  revert hd
  cases call_expiry code t now _ with
  | error e => intro hd; simp [Except.bind] at hd
  | ok s4 =>
    simp only [Except.bind]
    cases lock s4 with
    | error e => intro hd; simp at hd
    | ok s5 => intro hd; simp only [Except.ok.injEq] at hd; rw [← hd]

/-- The deadline loop stops at an empty list. -/
theorem check_loop_nil (P : Platform) (code : Nat → timer_func_t) (now fuel : Nat) (s : Sched)
    (h : s.timer_list = []) : __check_timers P code (fuel + 1) now s = .ok s := by
  simp [__check_timers, h]

/-- The deadline loop stops at a head that is not due or is running. -/
theorem check_loop_stop (P : Platform) (code : Nat → timer_func_t) (now fuel t : Nat)
    (rest : List Nat) (s : Sched) (h : s.timer_list = t :: rest)
    (hstop : now < (s.timers t).target ∨ (s.timers t).running ≠ none) :
    __check_timers P code (fuel + 1) now s = .ok s := by
  rcases hstop with hg | hr
  · simp [__check_timers, h, hg]
  · have : (s.timers t).running.isSome = true := by
      cases hrun : (s.timers t).running with
      | none => exact absurd hrun hr
      | some c => rfl
    simp [__check_timers, h, this]

/-- The deadline loop dispatches a head that is due and not running, then reads
the timebase. -/
theorem check_loop_step (P : Platform) (code : Nat → timer_func_t) (now fuel t : Nat)
    (rest : List Nat) (s s1 : Sched) (h : s.timer_list = t :: rest)
    (hg : (s.timers t).target ≤ now) (hr : (s.timers t).running = none)
    (hd : dispatch P code t now s = .ok s1) :
    __check_timers P code (fuel + 1) now s =
      __check_timers P code fuel (P.mftb s1.mftb_reads)
        { s1 with mftb_reads := s1.mftb_reads + 1 } := by
  rw [dispatch_def] at hd
  have hg2 : ¬ now < (s.timers t).target := Nat.not_lt.mpr hg
  simp only [__check_timers, h, hg2, hr, Option.isSome_none, if_false, Bool.false_eq_true, bind,
    gt_iff_lt]
  revert hd
  cases call_expiry code t now _ with
  | error e => intro hd; simp [Except.bind] at hd
  | ok s4 =>
    simp only [Except.bind]
    cases lock s4 with
    | error e => intro hd; simp at hd
    | ok s5 => intro hd; simp only [Except.ok.injEq] at hd; rw [← hd]; rfl

@[simp] theorem callback_entry_timers (P : Platform) (t now : Nat) (s : Sched) :
    (callback_entry P t now s).timers =
      Function.update s.timers t
        { s.timers t with link := false, running := some P.this_cpu } := by
  simp [callback_entry]
@[simp] theorem callback_entry_timer_list (P : Platform) (t now : Nat) (s : Sched) :
    (callback_entry P t now s).timer_list = s.timer_list.erase t := rfl
@[simp] theorem callback_entry_timer_poll_list (P : Platform) (t now : Nat) (s : Sched) :
    (callback_entry P t now s).timer_poll_list = s.timer_poll_list.erase t := rfl
@[simp] theorem callback_entry_timer_in_poll (P : Platform) (t now : Nat) (s : Sched) :
    (callback_entry P t now s).timer_in_poll = s.timer_in_poll := rfl
@[simp] theorem callback_entry_timer_poll_gen (P : Platform) (t now : Nat) (s : Sched) :
    (callback_entry P t now s).timer_poll_gen = s.timer_poll_gen := rfl
@[simp] theorem callback_entry_timer_lock (P : Platform) (t now : Nat) (s : Sched) :
    (callback_entry P t now s).timer_lock = false := rfl
@[simp] theorem callback_entry_slw_calls (P : Platform) (t now : Nat) (s : Sched) :
    (callback_entry P t now s).slw_calls = s.slw_calls := rfl
@[simp] theorem callback_entry_mftb_reads (P : Platform) (t now : Nat) (s : Sched) :
    (callback_entry P t now s).mftb_reads = s.mftb_reads := rfl
@[simp] theorem callback_entry_expiry_calls (P : Platform) (t now : Nat) (s : Sched) :
    (callback_entry P t now s).expiry_calls =
      s.expiry_calls ++ [(t, (s.timers t).user_data, now)] := by
  simp [callback_entry]

/-- A turn of a dispatch loop: the callback runs from `callback_entry`, then the
lock is retaken and `running` cleared. -/
theorem dispatch_eq (P : Platform) (code : Nat → timer_func_t) (t now : Nat) (s : Sched) :
    dispatch P code t now s =
      (code (s.timers t).expiry t (s.timers t).user_data now (callback_entry P t now s)).bind
        (fun s4 => (lock s4).bind
          (fun s5 => .ok (set_timer t { s5.timers t with running := none } s5))) := by
  have h : call_expiry code t now
      (unlock (set_timer t { (__remove_timer t s).timers t with running := some P.this_cpu }
        (__remove_timer t s))) =
      code (s.timers t).expiry t (s.timers t).user_data now (callback_entry P t now s) := by
    simp [call_expiry, callback_entry]
  rw [← h]; rfl

/-- A turn on a timer whose callback leaves the scheduler alone: the timer is
off both lists, unlinked and not running, the call is logged, the lock is held
again. -/
theorem dispatch_idle (P : Platform) (code : Nat → timer_func_t) (t now : Nat) (s : Sched)
    (hcb : cb_idle (code (s.timers t).expiry)) :
    ∃ s1, dispatch P code t now s = .ok s1 ∧
      s1.timers = Function.update s.timers t { s.timers t with link := false, running := none } ∧
      s1.timer_list = s.timer_list.erase t ∧
      s1.timer_poll_list = s.timer_poll_list.erase t ∧
      s1.timer_in_poll = s.timer_in_poll ∧ s1.timer_poll_gen = s.timer_poll_gen ∧
      s1.timer_lock = true ∧
      s1.expiry_calls = s.expiry_calls ++ [(t, (s.timers t).user_data, now)] := by
  rw [dispatch_eq]
  obtain ⟨s4, h4, e1, e2, e3, e4, e5, e6, e7⟩ :=
    hcb t (s.timers t).user_data now (callback_entry P t now s)
  rw [h4]
  have hl4 : s4.timer_lock = false := by rw [e6]; rfl
  simp only [Except.bind, lock_ok s4 hl4]
  refine ⟨_, rfl, ?_, ?_, ?_, ?_, ?_, ?_, ?_⟩
  · simp [e1]
  · simp [e2]
  · simp [e3]
  · simp [e4]
  · simp [e5]
  · simp
  · simp [e7]

/-- A turn on a timer whose callback re-schedules it with the poll value: the
timer is at the tail of the poll list, linked, stamped with the current
generation and not running; the call is logged, the lock is held again. -/
theorem dispatch_repolls (P : Platform) (code : Nat → timer_func_t) (t now : Nat) (s : Sched)
    (hcb : cb_repolls P (code (s.timers t).expiry)) :
    ∃ s1, dispatch P code t now s = .ok s1 ∧
      s1.timers = Function.update s.timers t
        { s.timers t with link := true, target := P.TIMER_POLL, gen := s.timer_poll_gen,
                          running := none } ∧
      s1.timer_list = s.timer_list.erase t ∧
      s1.timer_poll_list = s.timer_poll_list.erase t ++ [t] ∧
      s1.timer_in_poll = s.timer_in_poll ∧ s1.timer_poll_gen = s.timer_poll_gen ∧
      s1.timer_lock = true ∧
      s1.expiry_calls = s.expiry_calls ++ [(t, (s.timers t).user_data, now)] := by
  rw [dispatch_eq]
  obtain ⟨s4, ⟨e1, e2, e3, e4, e5, e6, e7⟩, h4⟩ :=
    hcb t (s.timers t).user_data now (callback_entry P t now s)
  rw [h4]
  have hl4 : s4.timer_lock = false := by rw [e6]; rfl
  rw [schedule_timer_at_ok P t P.TIMER_POLL s4 hl4]
  simp only [Except.bind, lock_ok _ (unlock_timer_lock _)]
  have hlink : (s4.timers t).link = false := by simp [e1]
  refine ⟨_, rfl, ?_, ?_, ?_, ?_, ?_, ?_, ?_⟩
  · simp [sched_at_timers, e1, e5]
  · simp [sched_at_timer_list, e1, e2]
  · simp [sched_at_timer_poll_list, e1, e3]
  · simp [e4]
  · simp [e5]
  · simp
  · simp [e7]

/-- Invariant rule for the poll loop: if every turn on an eligible head returns
and re-establishes `Inv` at a smaller measure, the loop returns when the fuel
exceeds the measure, `Inv` holds and the head, if any, is not eligible. -/
theorem poll_loop_inv (P : Platform) (code : Nat → timer_func_t) (now : Nat)
    (Inv : Nat → Sched → Prop)
    (hstep : ∀ m s t rest, Inv m s → s.timer_poll_list = t :: rest →
      (s.timers t).gen ≠ s.timer_poll_gen → (s.timers t).running = none →
      ∃ s1 m1, dispatch P code t now s = .ok s1 ∧ m1 < m ∧ Inv m1 s1) :
    ∀ fuel m s, Inv m s → m < fuel →
      ∃ s1 m1, poll_loop P code now fuel s = .ok s1 ∧ Inv m1 s1 ∧
        (s1.timer_poll_list = [] ∨ ∃ t rest, s1.timer_poll_list = t :: rest ∧
          ((s1.timers t).gen = s1.timer_poll_gen ∨ (s1.timers t).running ≠ none)) := by
  intro fuel
  induction fuel with
  | zero => intro m s _ hm; omega
  | succ fuel ih =>
    intro m s hinv hm
    cases hlist : s.timer_poll_list with
    | nil => exact ⟨s, m, poll_loop_nil P code now fuel s hlist, hinv, Or.inl hlist⟩
    | cons t rest =>
      by_cases hg : (s.timers t).gen = s.timer_poll_gen
      · exact ⟨s, m, poll_loop_stop P code now fuel t rest s hlist (Or.inl hg), hinv,
          Or.inr ⟨t, rest, hlist, Or.inl hg⟩⟩
      · by_cases hr : (s.timers t).running = none
        · obtain ⟨s1, m1, hd, hlt, hinv1⟩ := hstep m s t rest hinv hlist hg hr
          obtain ⟨s2, m2, hrun, hinv2, hstop⟩ := ih m1 s1 hinv1 (by omega)
          exact ⟨s2, m2, by rw [poll_loop_step P code now fuel t rest s s1 hlist hg hr hd]; exact hrun,
            hinv2, hstop⟩
        · exact ⟨s, m, poll_loop_stop P code now fuel t rest s hlist (Or.inr hr), hinv,
            Or.inr ⟨t, rest, hlist, Or.inr hr⟩⟩

/-- Invariant rule for the deadline loop: if every turn on a due, idle head
returns and, after the clock is read, re-establishes `Inv` at a smaller measure,
the loop returns when the fuel exceeds the measure, `Inv` holds and the head,
if any, is not due or is running. -/
theorem check_loop_inv (P : Platform) (code : Nat → timer_func_t)
    (Inv : Nat → Nat → Sched → Prop)
    (hstep : ∀ m now s t rest, Inv m now s → s.timer_list = t :: rest →
      (s.timers t).target ≤ now → (s.timers t).running = none →
      ∃ s1 m1, dispatch P code t now s = .ok s1 ∧ m1 < m ∧
        Inv m1 (P.mftb s1.mftb_reads) { s1 with mftb_reads := s1.mftb_reads + 1 }) :
    ∀ fuel m now s, Inv m now s → m < fuel →
      ∃ s1 m1 now1, __check_timers P code fuel now s = .ok s1 ∧ Inv m1 now1 s1 ∧
        (s1.timer_list = [] ∨ ∃ t rest, s1.timer_list = t :: rest ∧
          (now1 < (s1.timers t).target ∨ (s1.timers t).running ≠ none)) := by
  intro fuel
  induction fuel with
  | zero => intro m now s _ hm; omega
  | succ fuel ih =>
    intro m now s hinv hm
    cases hlist : s.timer_list with
    | nil => exact ⟨s, m, now, check_loop_nil P code now fuel s hlist, hinv, Or.inl hlist⟩
    | cons t rest =>
      by_cases hg : now < (s.timers t).target
      · exact ⟨s, m, now, check_loop_stop P code now fuel t rest s hlist (Or.inl hg), hinv,
          Or.inr ⟨t, rest, hlist, Or.inl hg⟩⟩
      · by_cases hr : (s.timers t).running = none
        · obtain ⟨s1, m1, hd, hlt, hinv1⟩ :=
            hstep m now s t rest hinv hlist (Nat.not_lt.mp hg) hr
          obtain ⟨s2, m2, now2, hrun, hinv2, hstop⟩ := ih m1 _ _ hinv1 (by omega)
          exact ⟨s2, m2, now2, by
            rw [check_loop_step P code now fuel t rest s s1 hlist (Nat.not_lt.mp hg) hr hd]
            exact hrun, hinv2, hstop⟩
        · exact ⟨s, m, now, check_loop_stop P code now fuel t rest s hlist (Or.inr hr), hinv,
            Or.inr ⟨t, rest, hlist, Or.inr hr⟩⟩

/-- A list cut after a run on which `p` holds, right before an element on which
it fails (or at the end), is cut as `takeWhile` and `dropWhile` cut it. -/
theorem split_eq_takeWhile (p : Nat → Bool) (l done rem : List Nat) (h : l = done ++ rem)
    (hd : ∀ i ∈ done, p i = true)
    (hr : rem = [] ∨ ∃ t rest, rem = t :: rest ∧ p t = false) :
    done = l.takeWhile p ∧ rem = l.dropWhile p := by
  subst h
  induction done with
  | nil =>
    rcases hr with hr | ⟨t, rest, hr, hp⟩
    · subst hr; simp
    · subst hr; simp [List.takeWhile, List.dropWhile, hp]
  | cons a done ih =>
    have ha : p a = true := hd a (List.mem_cons_self a done)
    have := ih (fun i hi => hd i (List.mem_cons_of_mem a hi))
    rw [List.cons_append, List.takeWhile_cons, List.dropWhile_cons]
    simp only [ha, if_true]
    exact ⟨by rw [← this.1], this.2⟩

/-- On a sorted list the due timers are the leading run of due timers. -/
theorem sorted_filter_due (f : Nat → Nat) (now : Nat) (l : List Nat)
    (hs : (l.map f).Sorted (· ≤ ·)) :
    l.filter (fun i => decide (f i ≤ now)) = l.takeWhile (fun i => decide (f i ≤ now)) ∧
    l.filter (fun i => decide (now < f i)) = l.dropWhile (fun i => decide (f i ≤ now)) := by
  induction l with
  | nil => simp
  | cons a l ih =>
    have hs2 := List.sorted_cons.mp hs
    obtain ⟨ih1, ih2⟩ := ih hs2.2
    by_cases h : f a ≤ now
    · have h2 : ¬ now < f a := Nat.not_lt.mpr h
      simp [List.filter, List.takeWhile, List.dropWhile, h, h2, ih1, ih2]
    · have h2 : now < f a := Nat.not_le.mp h
      have hall : ∀ i ∈ l, now < f i := fun i hi => by
        have := hs2.1 (f i) (List.mem_map_of_mem f hi); omega
      constructor
      · simp only [List.takeWhile, h, decide_False]
        rw [List.filter_eq_nil_iff]
        intro i hi
        rcases List.mem_cons.mp hi with hi | hi
        · subst hi; simp [h]
        · have := hall i hi; simp; omega
      · simp only [List.dropWhile, h, decide_False]
        rw [List.filter_eq_self]
        intro i hi
        rcases List.mem_cons.mp hi with hi | hi
        · subst hi; simp [h2]
        · simp [hall i hi]

/-- The deadline loop on idle callbacks under a clock that always reads `now`:
it fires the leading run of due timers, in order, each with `now`, and leaves
the rest of the list and every target as they are. -/
theorem check_loop_idle (P : Platform) (code : Nat → timer_func_t) (now fuel : Nat) (s : Sched)
    (hclock : ∀ k, P.mftb k = now) (hf : s.timer_list.length < fuel)
    (hl : s.timer_lock = true)
    (hrun : ∀ i ∈ s.timer_list, (s.timers i).running = none)
    (hcb : ∀ i ∈ s.timer_list, cb_idle (code (s.timers i).expiry)) :
    ∃ s1, __check_timers P code fuel now s = .ok s1 ∧
      s1.timer_list = s.timer_list.dropWhile (fun i => decide ((s.timers i).target ≤ now)) ∧
      s1.expiry_calls = s.expiry_calls ++
        (s.timer_list.takeWhile (fun i => decide ((s.timers i).target ≤ now))).map
          (fun i => (i, (s.timers i).user_data, now)) ∧
      (∀ i, (s1.timers i).target = (s.timers i).target) ∧ s1.timer_lock = true := by
  let Inv : Nat → Nat → Sched → Prop := fun m now1 x =>
    now1 = now ∧ x.timer_list.length = m ∧ x.timer_lock = true ∧
    (∀ i, (x.timers i).target = (s.timers i).target ∧
          (x.timers i).user_data = (s.timers i).user_data ∧
          (x.timers i).expiry = (s.timers i).expiry) ∧
    (∀ i ∈ x.timer_list, (x.timers i).running = none) ∧
    ∃ done, s.timer_list = done ++ x.timer_list ∧
      (∀ i ∈ done, (s.timers i).target ≤ now) ∧
      x.expiry_calls = s.expiry_calls ++ done.map (fun i => (i, (s.timers i).user_data, now))
  have hstep : ∀ m now1 x t rest, Inv m now1 x → x.timer_list = t :: rest →
      (x.timers t).target ≤ now1 → (x.timers t).running = none →
      ∃ x1 m1, dispatch P code t now1 x = .ok x1 ∧ m1 < m ∧
        Inv m1 (P.mftb x1.mftb_reads) { x1 with mftb_reads := x1.mftb_reads + 1 } := by
    rintro m now1 x t rest ⟨hnow, hlen, _, hfld, hrn, done, hsplit, hdue, hcalls⟩ hlist htg _
    subst hnow
    have htmem : t ∈ s.timer_list := by rw [hsplit, hlist]; simp
    have hidle : cb_idle (code (x.timers t).expiry) := by
      rw [(hfld t).2.2]; exact hcb t htmem
    obtain ⟨x1, hd, e1, e2, _, _, _, e6, e7⟩ := dispatch_idle P code t now1 x hidle
    refine ⟨x1, rest.length, hd, by rw [← hlen, hlist]; simp, hclock _, ?_, e6, ?_, ?_,
      done ++ [t], ?_, ?_, ?_⟩
    · simp [e2, hlist]
    · intro i
      by_cases hi : i = t
      · subst hi; simpa [e1] using hfld i
      · simpa [e1, Function.update_noteq hi] using hfld i
    · intro i hi
      have hi2 : i ∈ rest := by simpa [e2, hlist] using hi
      by_cases hit : i = t
      · subst hit; simp [e1]
      · simpa [e1, Function.update_noteq hit] using hrn i (by rw [hlist]; simp [hi2])
    · simp [e2, hlist, hsplit]
    · intro i hi
      rcases List.mem_append.mp hi with hi | hi
      · exact hdue i hi
      · rw [List.mem_singleton] at hi; subst hi
        rw [← (hfld i).1]; exact htg
    · simp [e7, hcalls, (hfld t).2.1]
  have hinv0 : Inv s.timer_list.length now s :=
    ⟨rfl, rfl, hl, fun _ => ⟨rfl, rfl, rfl⟩, hrun, [], by simp, by simp, by simp⟩
  obtain ⟨s1, m1, now1, hres, ⟨hnow, _, hl1, hfld, hrn, done, hsplit, hdue, hcalls⟩, hstop⟩ :=
    check_loop_inv P code Inv hstep fuel _ now s hinv0 hf
  subst hnow
  have hcut := split_eq_takeWhile (fun i => decide ((s.timers i).target ≤ now1)) s.timer_list
    done s1.timer_list hsplit (fun i hi => by simpa using hdue i hi) (by
      rcases hstop with h | ⟨t, rest, hlist, h | h⟩
      · exact Or.inl h
      · refine Or.inr ⟨t, rest, hlist, ?_⟩
        rw [(hfld t).1] at h
        simp; omega
      · exact absurd (hrn t (by rw [hlist]; simp)) h)
  exact ⟨s1, hres, hcut.2, by rw [hcalls, hcut.1], fun i => (hfld i).1, hl1⟩

/-- The lock-free return of `check_timers`: the poll list is empty and the
deadline list is empty or its head is not due at the time read. -/
theorem check_timers_early (P : Platform) (code : Nat → timer_func_t) (fuel : Nat)
    (from_interrupt : Bool) (s : Sched) (hp : s.timer_poll_list = [])
    (hd : ∀ t rest, s.timer_list = t :: rest → P.mftb s.mftb_reads < (s.timers t).target) :
    check_timers P code fuel from_interrupt s = .ok { s with mftb_reads := s.mftb_reads + 1 } := by
  cases hlist : s.timer_list with
  | nil => simp [check_timers, mftb, hp, hlist]
  | cons t rest =>
    have := hd t rest hlist
    have h2 : ¬ (s.timers t).target ≤ P.mftb s.mftb_reads := by omega
    simp [check_timers, mftb, hp, hlist, h2]

/-- The locked pass of `check_timers`: taken when the poll list is not empty or
the head of the deadline list is due at the time read. -/
theorem check_timers_locked (P : Platform) (code : Nat → timer_func_t) (fuel : Nat)
    (from_interrupt : Bool) (s : Sched) (hl : s.timer_lock = false)
    (hgo : s.timer_poll_list ≠ [] ∨
      ∃ t rest, s.timer_list = t :: rest ∧ (s.timers t).target ≤ P.mftb s.mftb_reads) :
    check_timers P code fuel from_interrupt s =
      ((if from_interrupt = true then
          .ok { s with mftb_reads := s.mftb_reads + 1, timer_lock := true }
        else __check_poll_timers P code fuel (P.mftb s.mftb_reads)
          { s with mftb_reads := s.mftb_reads + 1, timer_lock := true }).bind
        (fun s2 => (__check_timers P code fuel (P.mftb s.mftb_reads) s2).bind
          (fun s3 => .ok (unlock s3)))) := by
  have hl0 : ({ s with mftb_reads := s.mftb_reads + 1 } : Sched).timer_lock = false := hl
  have hcond : (s.timer_poll_list.isEmpty &&
      !(match s.timer_list with
        | [] => false
        | t :: _ => decide ((s.timers t).target ≤ P.mftb s.mftb_reads))) = false := by
    rcases hgo with h | ⟨t, rest, hlist, hdue⟩
    · cases hpl : s.timer_poll_list with
      | nil => exact absurd hpl h
      | cons a l => simp
    · simp [hlist, hdue]
  unfold check_timers
  simp only [mftb, hcond, Bool.false_eq_true, if_false, lock_ok _ hl0, bind, Except.bind]
  cases from_interrupt <;> rfl

/-- The poll pass on an empty poll list runs no callback and leaves the timers
and the lists as they are. -/
theorem check_poll_timers_empty (P : Platform) (code : Nat → timer_func_t) (fuel now : Nat)
    (s : Sched) (hp : s.timer_poll_list = []) (hf : 0 < fuel) :
    ∃ s1, __check_poll_timers P code fuel now s = .ok s1 ∧ s1.timers = s.timers ∧
      s1.timer_list = s.timer_list ∧ s1.timer_poll_list = [] ∧
      s1.timer_lock = s.timer_lock ∧ s1.expiry_calls = s.expiry_calls := by
  obtain ⟨n, rfl⟩ : ∃ n, fuel = n + 1 := ⟨fuel - 1, by omega⟩
  by_cases hin : s.timer_in_poll = true
  · exact ⟨s, by simp [__check_poll_timers, hin], rfl, rfl, hp, rfl, rfl⟩
  · have hloop := poll_loop_nil P code now n
      { s with timer_in_poll := true, timer_poll_gen := (s.timer_poll_gen + 1) % 2 ^ 64 } hp
    refine ⟨{ s with timer_poll_gen := (s.timer_poll_gen + 1) % 2 ^ 64, timer_in_poll := false },
      ?_, rfl, rfl, hp, rfl, rfl⟩
    simp only [__check_poll_timers, hin, Bool.false_eq_true, if_false, bind, Except.bind, hloop]
    rfl

/-- A callback that returns its state is idle. -/
theorem code_idle_is_idle (f : Nat) : cb_idle (code_idle f) :=
  fun _ _ _ s => ⟨s, rfl, rfl, rfl, rfl, rfl, rfl, rfl, rfl⟩

/-- C2. Deadline dispatch correctness: on a sorted, duplicate-free deadline
list with no timer running, an empty poll list, the lock free, a clock that
reads `now` at every read and callbacks that do not touch the scheduler,
`check_timers` (from an interrupt or not) returns; the calls made are those of
the timers with target at most `now`, in list order, each once, with arguments
(timer, user_data, now); these timers are the leading run of due timers; the
timers with target above `now` stay on the list in their order, and no target
has changed. -/
theorem C2_deadline_dispatch (P : Platform) (code : Nat → timer_func_t) (now fuel : Nat)
    (from_interrupt : Bool) (s : Sched)
    (hclock : ∀ k, P.mftb k = now) (hl : s.timer_lock = false)
    (hp : s.timer_poll_list = []) (hnd : s.timer_list.Nodup)
    (hs : (targets s).Sorted (· ≤ ·))
    (hrun : ∀ i ∈ s.timer_list, (s.timers i).running = none)
    (hcb : ∀ i ∈ s.timer_list, cb_idle (code (s.timers i).expiry))
    (hf : s.timer_list.length < fuel) :
    ∃ s1, check_timers P code fuel from_interrupt s = .ok s1 ∧
      s1.expiry_calls = s.expiry_calls ++
        (s.timer_list.filter (fun i => decide ((s.timers i).target ≤ now))).map
          (fun i => (i, (s.timers i).user_data, now)) ∧
      (s.timer_list.filter (fun i => decide ((s.timers i).target ≤ now))).Nodup ∧
      s.timer_list.filter (fun i => decide ((s.timers i).target ≤ now)) =
        s.timer_list.takeWhile (fun i => decide ((s.timers i).target ≤ now)) ∧
      s1.timer_list = s.timer_list.filter (fun i => decide (now < (s.timers i).target)) ∧
      (∀ i, (s1.timers i).target = (s.timers i).target) ∧
      s1.timer_lock = false := by
  obtain ⟨hdue, hlate⟩ := sorted_filter_due (fun i => (s.timers i).target) now s.timer_list hs
  rw [hlate]
  suffices hmain : ∃ s1, check_timers P code fuel from_interrupt s = .ok s1 ∧
      s1.expiry_calls = s.expiry_calls ++
        (s.timer_list.takeWhile (fun i => decide ((s.timers i).target ≤ now))).map
          (fun i => (i, (s.timers i).user_data, now)) ∧
      s1.timer_list = s.timer_list.dropWhile (fun i => decide ((s.timers i).target ≤ now)) ∧
      (∀ i, (s1.timers i).target = (s.timers i).target) ∧ s1.timer_lock = false by
    obtain ⟨s1, h1, h2, h3, h4, h5⟩ := hmain
    exact ⟨s1, h1, by rw [hdue]; exact h2, hnd.filter _, hdue, h3, h4, h5⟩
  have hnow : P.mftb s.mftb_reads = now := hclock _
  by_cases hgo : ∃ t rest, s.timer_list = t :: rest ∧ (s.timers t).target ≤ now
  · -- the head is due: the locked pass runs
    obtain ⟨s2, hpoll, p1, p2, p3, p4, p5⟩ :
        ∃ s2, (if from_interrupt = true then
              .ok { s with mftb_reads := s.mftb_reads + 1, timer_lock := true }
            else __check_poll_timers P code fuel now
              { s with mftb_reads := s.mftb_reads + 1, timer_lock := true }) = .ok s2 ∧
          s2.timers = s.timers ∧ s2.timer_list = s.timer_list ∧ s2.timer_poll_list = [] ∧
          s2.timer_lock = true ∧ s2.expiry_calls = s.expiry_calls := by
      cases from_interrupt with
      | true => exact ⟨_, rfl, rfl, rfl, hp, rfl, rfl⟩
      | false =>
        simpa using check_poll_timers_empty P code fuel now
          { s with mftb_reads := s.mftb_reads + 1, timer_lock := true } hp (by omega)
    obtain ⟨s3, hloop, q1, q2, q3, q4⟩ := check_loop_idle P code now fuel s2 hclock
      (by rw [p2]; exact hf) p4 (by rw [p1, p2]; exact hrun) (by rw [p1, p2]; exact hcb)
    refine ⟨unlock s3, ?_, ?_, ?_, ?_, rfl⟩
    · rw [check_timers_locked P code fuel from_interrupt s hl (Or.inr (by rw [hnow]; exact hgo)),
        hnow, hpoll]
      simp only [Except.bind, hloop]
    · simpa [p1, p2, p5] using q2
    · simpa [p1, p2] using q1
    · intro i; simpa [p1] using q3 i
  · -- nothing is due and the poll list is empty: the early return
    have hnd2 : ∀ t rest, s.timer_list = t :: rest → now < (s.timers t).target := by
      intro t rest hlist
      by_contra hlt
      exact hgo ⟨t, rest, hlist, Nat.not_lt.mp hlt⟩
    have htake : s.timer_list.takeWhile (fun i => decide ((s.timers i).target ≤ now)) = [] ∧
        s.timer_list.dropWhile (fun i => decide ((s.timers i).target ≤ now)) = s.timer_list := by
      cases hlist : s.timer_list with
      | nil => simp
      | cons t rest =>
        have : ¬ (s.timers t).target ≤ now := by have := hnd2 t rest hlist; omega
        simp [List.takeWhile, List.dropWhile, this]
    refine ⟨{ s with mftb_reads := s.mftb_reads + 1 },
      check_timers_early P code fuel from_interrupt s hp (by rw [hnow]; exact hnd2), ?_, ?_,
      fun _ => rfl, hl⟩
    · simp [htake.1]
    · simp [htake.2]

/-- C2 on timers 1, 2, 3 at 10, 20, 30 with the clock at 25: timers 1 and 2
fire, in that order, and timer 3 stays queued with target 30. -/
theorem C2_deadline_dispatch_witness :
    ∃ s1, check_timers P0 code_idle 4 false sched_three = .ok s1 ∧
      s1.expiry_calls = [(1, 0, 25), (2, 0, 25)] ∧ s1.timer_list = [3] ∧
      (s1.timers 3).target = 30 := by
  obtain ⟨s1, h1, h2, _, _, h3, h4, _⟩ :=
    C2_deadline_dispatch P0 code_idle 25 4 false sched_three (fun _ => rfl) rfl rfl
      (by decide) (by decide) (by decide) (fun _ _ => code_idle_is_idle _) (by decide)
  exact ⟨s1, h1, h2.trans (by decide), h3.trans (by decide), (h4 3).trans rfl⟩

/-- A turn on `t` keeps `wf`: `t` leaves both lists and either stays off them,
unlinked, or joins the tail of the poll list, linked. -/
theorem wf_after_dispatch (x x1 : Sched) (t : Nat) (v : timer) (rq : Bool) (hwf : wf x)
    (h1 : x1.timers = Function.update x.timers t v) (hv : v.link = rq)
    (h2 : x1.timer_list = x.timer_list.erase t)
    (h3 : x1.timer_poll_list = x.timer_poll_list.erase t ++ (if rq = true then [t] else [])) :
    wf x1 := by
  obtain ⟨w1, w2, w3, w4⟩ := hwf
  have e1 : ∀ i, i ∈ x.timer_list.erase t ↔ i ≠ t ∧ i ∈ x.timer_list :=
    fun i => List.Nodup.mem_erase_iff w1
  have e2 : ∀ i, i ∈ x.timer_poll_list.erase t ↔ i ≠ t ∧ i ∈ x.timer_poll_list :=
    fun i => List.Nodup.mem_erase_iff w2
  unfold wf
  rw [h1, h2, h3]
  refine ⟨w1.erase t, ?_, ?_, ?_⟩
  · rw [List.nodup_append]
    refine ⟨w2.erase t, by cases rq <;> simp, ?_⟩
    intro a ha hb
    cases rq with
    | false => simp at hb
    | true =>
      simp only [if_true, List.mem_singleton] at hb
      exact ((e2 a).mp ha).1 hb
  · intro i hi hi2
    rw [List.mem_append] at hi2
    rcases hi2 with hi2 | hi2
    · exact w3 i ((e1 i).mp hi).2 ((e2 i).mp hi2).2
    · cases rq with
      | false => simp at hi2
      | true =>
        simp only [if_true, List.mem_singleton] at hi2
        exact ((e1 i).mp hi).1 hi2
  · intro i
    by_cases hi : i = t
    · subst hi
      cases rq <;> simp [hv, e1, e2]
    · cases rq <;> simp [Function.update_noteq hi, hi, e1, e2, w4 i]

/-- The poll pass on a well-formed state, entered with the lock held and the
in-progress flag clear, on timers whose callbacks are idle or re-schedule their
own timer with the poll value. The pass returns. It has served the leading
run `done` of the poll list, in order, each timer once, and stopped in front of
`rem`, which is empty or begins with a timer that is running or already
stamped with the new generation; the served timers that re-scheduled
themselves form `req`, behind `rem`, stamped with the new generation. -/
theorem poll_pass (P : Platform) (code : Nat → timer_func_t) (fuel now : Nat) (s : Sched)
    (hwf : wf s) (hl : s.timer_lock = true) (hin : s.timer_in_poll = false)
    (hcb : ∀ i ∈ s.timer_poll_list,
      cb_idle (code (s.timers i).expiry) ∨ cb_repolls P (code (s.timers i).expiry))
    (hf : s.timer_poll_list.length < fuel) :
    ∃ s1 done rem req, __check_poll_timers P code fuel now s = .ok s1 ∧
      s.timer_poll_list = done ++ rem ∧ s1.timer_poll_list = rem ++ req ∧ req.Sublist done ∧
      (∀ i ∈ req, (s1.timers i).gen = s1.timer_poll_gen) ∧
      (∀ i ∈ done, cb_repolls P (code (s.timers i).expiry) → i ∈ req) ∧
      s1.expiry_calls = s.expiry_calls ++ done.map (fun i => (i, (s.timers i).user_data, now)) ∧
      (∀ i, i ∉ done → s1.timers i = s.timers i) ∧
      (∀ i, (s1.timers i).expiry = (s.timers i).expiry) ∧
      s1.timer_list = s.timer_list ∧
      s1.timer_poll_gen = (s.timer_poll_gen + 1) % 2 ^ 64 ∧
      s1.timer_in_poll = false ∧ s1.timer_lock = true ∧ wf s1 ∧
      (rem = [] ∨ ∃ t rest, rem = t :: rest ∧
        ((s.timers t).gen = (s.timer_poll_gen + 1) % 2 ^ 64 ∨ (s.timers t).running ≠ none)) := by
  let Inv : Nat → Sched → Prop := fun m x =>
    wf x ∧ x.timer_lock = true ∧ x.timer_poll_gen = (s.timer_poll_gen + 1) % 2 ^ 64 ∧
    x.timer_list = s.timer_list ∧ (∀ i, (x.timers i).expiry = (s.timers i).expiry) ∧
    ∃ done rem req, rem.length = m ∧ s.timer_poll_list = done ++ rem ∧
      x.timer_poll_list = rem ++ req ∧ req.Sublist done ∧
      (∀ i ∈ req, (x.timers i).gen = (s.timer_poll_gen + 1) % 2 ^ 64) ∧
      (∀ i ∈ done, cb_repolls P (code (s.timers i).expiry) → i ∈ req) ∧
      x.expiry_calls = s.expiry_calls ++ done.map (fun i => (i, (s.timers i).user_data, now)) ∧
      (∀ i, i ∉ done → x.timers i = s.timers i)
  have hstep : ∀ m x t rest, Inv m x → x.timer_poll_list = t :: rest →
      (x.timers t).gen ≠ x.timer_poll_gen → (x.timers t).running = none →
      ∃ x1 m1, dispatch P code t now x = .ok x1 ∧ m1 < m ∧ Inv m1 x1 := by
    rintro m x t rest ⟨xwf, _, xgen, xtl, xexp, done, rem, req, hlen, hsplit, hpl, hsub, hreq,
      hrep, hcalls, hfr⟩ hlist hg _
    -- the head is the first timer not yet served
    obtain ⟨rem1, hrem⟩ : ∃ rem1, rem = t :: rem1 := by
      cases rem with
      | nil =>
        rw [List.nil_append] at hpl
        exact absurd (by rw [xgen]; exact hreq t (by rw [← hpl, hlist]; simp)) hg
      | cons a rem1 =>
        rw [hlist, List.cons_append] at hpl
        exact ⟨rem1, by rw [(List.cons.inj hpl).1]⟩
    subst hrem
    have hrest : rest = rem1 ++ req := by
      rw [hlist, List.cons_append] at hpl; exact (List.cons.inj hpl).2
    have hnd : (done ++ t :: rem1).Nodup := hsplit ▸ hwf.2.1
    have htd : t ∉ done := fun h =>
      (List.nodup_append.mp hnd).2.2 h (List.mem_cons_self t rem1)
    have htmem : t ∈ s.timer_poll_list := by rw [hsplit]; simp
    have htx : x.timers t = s.timers t := hfr t htd
    have htl : t ∉ x.timer_list := fun h => xwf.2.2.1 t h (by rw [hlist]; simp)
    have hne : ∀ i ∈ req, i ≠ t := fun i hi h => htd (h ▸ hsub.subset hi)
    by_cases hrp : cb_repolls P (code (s.timers t).expiry)
    · obtain ⟨x1, hd, e1, e2, e3, _, e5, e6, e7⟩ :=
        dispatch_repolls P code t now x (by rw [xexp t]; exact hrp)
      have e3b : x1.timer_poll_list = rem1 ++ (req ++ [t]) := by
        rw [e3, hlist, List.erase_cons_head, hrest, List.append_assoc]
      refine ⟨x1, rem1.length, hd, by rw [← hlen]; simp, ?_, e6, by rw [e5, xgen],
        by rw [e2, List.erase_of_not_mem htl, xtl], ?_, done ++ [t], rem1, req ++ [t], rfl,
        by rw [hsplit]; simp, e3b, List.Sublist.append hsub (List.Sublist.refl _), ?_, ?_, ?_, ?_⟩
      · exact wf_after_dispatch x x1 t _ true xwf e1 rfl e2 (by rw [e3]; rfl)
      · intro i
        by_cases hi : i = t
        · subst hi; simp [e1, xexp i]
        · simp [e1, Function.update_noteq hi, xexp i]
      · intro i hi
        rcases List.mem_append.mp hi with hi | hi
        · rw [e1, Function.update_noteq (hne i hi)]; exact hreq i hi
        · rw [List.mem_singleton] at hi; subst hi; simp [e1, xgen]
      · intro i hi hr
        rcases List.mem_append.mp hi with hi | hi
        · exact List.mem_append_left _ (hrep i hi hr)
        · exact List.mem_append_right _ hi
      · simp [e7, hcalls, htx]
      · intro i hi
        have hi1 : i ∉ done := fun h => hi (List.mem_append_left _ h)
        have hi2 : i ≠ t := fun h => hi (by rw [h]; simp)
        rw [e1, Function.update_noteq hi2]; exact hfr i hi1
    · have hid : cb_idle (code (s.timers t).expiry) := (hcb t htmem).resolve_right hrp
      obtain ⟨x1, hd, e1, e2, e3, _, e5, e6, e7⟩ :=
        dispatch_idle P code t now x (by rw [xexp t]; exact hid)
      have e3b : x1.timer_poll_list = rem1 ++ req := by
        rw [e3, hlist, List.erase_cons_head, hrest]
      refine ⟨x1, rem1.length, hd, by rw [← hlen]; simp, ?_, e6, by rw [e5, xgen],
        by rw [e2, List.erase_of_not_mem htl, xtl], ?_, done ++ [t], rem1, req, rfl,
        by rw [hsplit]; simp, e3b, hsub.trans (List.sublist_append_left done [t]), ?_, ?_, ?_, ?_⟩
      · exact wf_after_dispatch x x1 t _ false xwf e1 rfl e2 (by rw [e3]; simp)
      · intro i
        by_cases hi : i = t
        · subst hi; simp [e1, xexp i]
        · simp [e1, Function.update_noteq hi, xexp i]
      · intro i hi
        rw [e1, Function.update_noteq (hne i hi)]; exact hreq i hi
      · intro i hi hr
        rcases List.mem_append.mp hi with hi | hi
        · exact hrep i hi hr
        · rw [List.mem_singleton] at hi; subst hi; exact absurd hr hrp
      · simp [e7, hcalls, htx]
      · intro i hi
        have hi1 : i ∉ done := fun h => hi (List.mem_append_left _ h)
        have hi2 : i ≠ t := fun h => hi (by rw [h]; simp)
        rw [e1, Function.update_noteq hi2]; exact hfr i hi1
  have hinv0 : Inv s.timer_poll_list.length
      { s with timer_in_poll := true, timer_poll_gen := (s.timer_poll_gen + 1) % 2 ^ 64 } :=
    ⟨(wf_congr s _ rfl rfl rfl).mpr hwf, hl, rfl, rfl, fun _ => rfl, [], s.timer_poll_list, [],
      rfl, rfl, by simp, List.Sublist.refl _, by simp, by simp, by simp, fun _ _ => rfl⟩
  obtain ⟨x, m1, hres, ⟨xwf, xl, xgen, xtl, xexp, done, rem, req, _, hsplit, hpl, hsub, hreq, hrep,
    hcalls, hfr⟩, hstop⟩ := poll_loop_inv P code now Inv hstep fuel _ _ hinv0 hf
  have hnd : (done ++ rem).Nodup := hsplit ▸ hwf.2.1
  refine ⟨{ x with timer_in_poll := false }, done, rem, req, ?_, hsplit, hpl, hsub, ?_, hrep,
    hcalls, hfr, xexp, xtl, xgen, rfl, xl, (wf_congr x _ rfl rfl rfl).mpr xwf, ?_⟩
  · simp only [__check_poll_timers, hin, Bool.false_eq_true, if_false, bind, Except.bind, hres]
    rfl
  · intro i hi; rw [xgen]; exact hreq i hi
  · cases hrem : rem with
    | nil => exact Or.inl rfl
    | cons t rest =>
      refine Or.inr ⟨t, rest, rfl, ?_⟩
      have htd : t ∉ done := fun h =>
        (List.nodup_append.mp hnd).2.2 h (by rw [hrem]; exact List.mem_cons_self t rest)
      rw [hrem, List.cons_append] at hpl
      rcases hstop with h | ⟨t1, rest1, hlist, h⟩
      · rw [hpl] at h; exact absurd h (List.cons_ne_nil _ _)
      · rw [hpl] at hlist
        have ht1 : t1 = t := (List.cons.inj hlist).1.symm
        subst ht1
        rw [hfr t1 htd, xgen] at h
        exact h

/-- The deadline loop on a well-formed state, entered with the lock held, on
timers whose callbacks are idle or re-schedule their own timer with the poll
value: it returns; only timers of the deadline list are called and written,
and no timer leaves the poll list. -/
theorem check_loop_benign (P : Platform) (code : Nat → timer_func_t) (fuel now : Nat) (x : Sched)
    (hwf : wf x) (hl : x.timer_lock = true)
    (hcb : ∀ i ∈ x.timer_list,
      cb_idle (code (x.timers i).expiry) ∨ cb_repolls P (code (x.timers i).expiry))
    (hf : x.timer_list.length < fuel) :
    ∃ x1, __check_timers P code fuel now x = .ok x1 ∧ wf x1 ∧ x1.timer_lock = true ∧
      x1.timer_poll_gen = x.timer_poll_gen ∧ x1.timer_in_poll = x.timer_in_poll ∧
      (∀ i, i ∉ x.timer_list → x1.timers i = x.timers i) ∧
      (∀ i ∈ x.timer_poll_list, i ∈ x1.timer_poll_list) ∧
      ∃ calls, x1.expiry_calls = x.expiry_calls ++ calls ∧ ∀ c ∈ calls, c.1 ∈ x.timer_list := by
  let Inv : Nat → Nat → Sched → Prop := fun m _ y =>
    wf y ∧ y.timer_lock = true ∧ y.timer_poll_gen = x.timer_poll_gen ∧
    y.timer_in_poll = x.timer_in_poll ∧ y.timer_list.length = m ∧
    (∀ i ∈ y.timer_list, i ∈ x.timer_list ∧ y.timers i = x.timers i) ∧
    (∀ i, i ∉ x.timer_list → y.timers i = x.timers i) ∧
    (∀ i ∈ x.timer_poll_list, i ∈ y.timer_poll_list) ∧
    ∃ calls, y.expiry_calls = x.expiry_calls ++ calls ∧ ∀ c ∈ calls, c.1 ∈ x.timer_list
  have hstep : ∀ m now1 y t rest, Inv m now1 y → y.timer_list = t :: rest →
      (y.timers t).target ≤ now1 → (y.timers t).running = none →
      ∃ y1 m1, dispatch P code t now1 y = .ok y1 ∧ m1 < m ∧
        Inv m1 (P.mftb y1.mftb_reads) { y1 with mftb_reads := y1.mftb_reads + 1 } := by
    rintro m now1 y t rest ⟨ywf, _, ygen, yin, hlen, hmem, hout, hpoll, calls, hcalls, hfrom⟩
      hlist _ _
    have ht : t ∈ x.timer_list ∧ y.timers t = x.timers t := hmem t (by rw [hlist]; simp)
    have hnd : (t :: rest).Nodup := hlist ▸ ywf.1
    have htr : t ∉ rest := (List.nodup_cons.mp hnd).1
    have htp : t ∉ y.timer_poll_list := ywf.2.2.1 t (by rw [hlist]; simp)
    -- what either kind of callback leaves behind
    have hturn : ∃ y1 v rq, dispatch P code t now1 y = .ok y1 ∧
        y1.timers = Function.update y.timers t v ∧ v.link = rq ∧
        y1.timer_list = y.timer_list.erase t ∧
        y1.timer_poll_list = y.timer_poll_list.erase t ++ (if rq = true then [t] else []) ∧
        y1.timer_in_poll = y.timer_in_poll ∧ y1.timer_poll_gen = y.timer_poll_gen ∧
        y1.timer_lock = true ∧
        y1.expiry_calls = y.expiry_calls ++ [(t, (y.timers t).user_data, now1)] := by
      rcases hcb t ht.1 with hid | hrp
      · obtain ⟨y1, hd, e1, e2, e3, e4, e5, e6, e7⟩ :=
          dispatch_idle P code t now1 y (by rw [ht.2]; exact hid)
        exact ⟨y1, _, false, hd, e1, rfl, e2, by rw [e3]; simp, e4, e5, e6, e7⟩
      · obtain ⟨y1, hd, e1, e2, e3, e4, e5, e6, e7⟩ :=
          dispatch_repolls P code t now1 y (by rw [ht.2]; exact hrp)
        exact ⟨y1, _, true, hd, e1, rfl, e2, by rw [e3]; rfl, e4, e5, e6, e7⟩
    obtain ⟨y1, v, rq, hd, e1, hv, e2, e3, e4, e5, e6, e7⟩ := hturn
    have e2b : y1.timer_list = rest := by rw [e2, hlist, List.erase_cons_head]
    refine ⟨y1, rest.length, hd, by rw [← hlen, hlist]; simp, ?_, e6, by rw [e5, ygen],
      by rw [e4, yin], by simp [e2b], ?_, ?_, ?_, calls ++ [(t, (y.timers t).user_data, now1)],
      by simp [e7, hcalls], ?_⟩
    · exact (wf_congr y1 _ rfl rfl rfl).mpr (wf_after_dispatch y y1 t v rq ywf e1 hv e2 e3)
    · intro i hi
      have hi2 : i ∈ rest := by simpa [e2b] using hi
      have hne : i ≠ t := fun h => htr (h ▸ hi2)
      have := hmem i (by rw [hlist]; exact List.mem_cons_of_mem t hi2)
      exact ⟨this.1, by simp [e1, Function.update_noteq hne, this.2]⟩
    · intro i hi
      have hne : i ≠ t := fun h => hi (h ▸ ht.1)
      simp [e1, Function.update_noteq hne, hout i hi]
    · intro i hi
      have hi2 := hpoll i hi
      have hne : i ≠ t := fun h => htp (h ▸ hi2)
      simp only [e3]
      exact List.mem_append_left _ ((List.mem_erase_of_ne hne).mpr hi2)
    · intro c hc
      rcases List.mem_append.mp hc with hc | hc
      · exact hfrom c hc
      · rw [List.mem_singleton] at hc; subst hc; exact ht.1
  have hinv0 : Inv x.timer_list.length now x :=
    ⟨hwf, hl, rfl, rfl, rfl, fun i hi => ⟨hi, rfl⟩, fun _ _ => rfl, fun _ hi => hi, [],
      by simp, by simp⟩
  obtain ⟨x1, m1, now1, hres, ⟨a, b, c, d, _, _, e, f, g⟩, _⟩ :=
    check_loop_inv P code Inv hstep fuel _ now x hinv0 hf
  exact ⟨x1, hres, a, b, c, d, e, f, g⟩

/-- Counting the calls of `t` in a log extended by the calls of a list of timers. -/
theorem invocations_append_map (t : Nat) (calls : List (Nat × Nat × Nat)) (l : List Nat)
    (f : Nat → Nat × Nat) :
    ((calls ++ l.map (fun i => (i, f i))).filter (fun c => decide (c.1 = t))).length =
      (calls.filter (fun c => decide (c.1 = t))).length + l.count t := by
  induction l with
  | nil => simp
  | cons a l ih =>
    rw [List.filter_append, List.length_append] at ih ⊢
    rw [Nat.add_left_cancel_iff] at ih
    rw [Nat.add_left_cancel_iff, List.map_cons, List.filter_cons, List.count_cons]
    by_cases h : a = t
    · simp [h, ih]
    · simp [h, ih]

/-- Calls of other timers do not count. -/
theorem invocations_append_others (t : Nat) (calls more : List (Nat × Nat × Nat))
    (h : ∀ c ∈ more, c.1 ≠ t) :
    ((calls ++ more).filter (fun c => decide (c.1 = t))).length =
      (calls.filter (fun c => decide (c.1 = t))).length := by
  rw [List.filter_append, List.length_append]
  have : more.filter (fun c => decide (c.1 = t)) = [] := by
    rw [List.filter_eq_nil_iff]
    intro c hc; simpa using h c hc
  simp [this]

/-- In `code_poll` the callback at address 0 is idle. -/
theorem code_poll_zero (P : Platform) : cb_idle (code_poll P 0) :=
  fun _ _ _ s => ⟨s, rfl, rfl, rfl, rfl, rfl, rfl, rfl, rfl⟩

/-- In `code_poll` the callback at address 1 re-schedules its timer with the
poll value. -/
theorem code_poll_one (P : Platform) : cb_repolls P (code_poll P 1) :=
  fun _ _ _ s => ⟨s, ⟨rfl, rfl, rfl, rfl, rfl, rfl, rfl⟩, rfl⟩

/-- The state `sched_poll2` is well-formed. -/
theorem wf_sched_poll2 : wf sched_poll2 := by
  refine ⟨by decide, by decide, by decide, fun i => ?_⟩
  by_cases h1 : i = 1
  · subst h1; decide
  · by_cases h2 : i = 2
    · subst h2; decide
    · simp [sched_poll2, sched0, fresh, h1, h2]

/-- C4, as stated, fails: timer 1 is alone on the poll list, not running, the
in-progress flag is clear and its callback is idle, but its stamp is the value
the counter takes in the pass; the poll pass, entered with the lock held as
`check_timers` enters it, and `check_timers(false)` itself with the lock free,
return without calling the callback. -/
theorem C4_counterexample :
    sched_stale.timer_poll_list = [1] ∧ (sched_stale.timers 1).running = none ∧
    sched_stale.timer_in_poll = false ∧
    (∃ s1, __check_poll_timers P0 code_idle 5 25 { sched_stale with timer_lock := true } = .ok s1 ∧
      s1.expiry_calls = [] ∧ s1.timer_poll_list = [1]) ∧
    (∃ s1, check_timers P0 code_idle 5 false sched_stale = .ok s1 ∧
      s1.expiry_calls = [] ∧ s1.timer_poll_list = [1]) :=
  ⟨rfl, rfl, rfl, ⟨_, rfl, rfl, rfl⟩, ⟨_, rfl, rfl, rfl⟩⟩

/-- C4, amended. Poll servicing: on a well-formed state, entered with the lock
held and the in-progress flag clear, in which no timer on the poll list is
running and none is stamped with the value the counter takes in the pass, with
callbacks that are idle or re-schedule their own timer with the poll value, the
poll pass returns; it has called every timer that was on the poll list, in list
order, each once, with (timer, user_data, now); what is on the poll list
afterwards is some of these timers, in their order, among them every one that
re-scheduled itself, all stamped with the new counter value, so that the pass
did not call them again. -/
theorem C4_poll_servicing (P : Platform) (code : Nat → timer_func_t) (fuel now : Nat) (s : Sched)
    (hwf : wf s) (hl : s.timer_lock = true) (hin : s.timer_in_poll = false)
    (hrun : ∀ i ∈ s.timer_poll_list, (s.timers i).running = none)
    (hgen : ∀ i ∈ s.timer_poll_list, (s.timers i).gen ≠ (s.timer_poll_gen + 1) % 2 ^ 64)
    (hcb : ∀ i ∈ s.timer_poll_list,
      cb_idle (code (s.timers i).expiry) ∨ cb_repolls P (code (s.timers i).expiry))
    (hf : s.timer_poll_list.length < fuel) :
    ∃ s1, __check_poll_timers P code fuel now s = .ok s1 ∧
      s1.expiry_calls = s.expiry_calls ++
        s.timer_poll_list.map (fun i => (i, (s.timers i).user_data, now)) ∧
      s.timer_poll_list.Nodup ∧
      s1.timer_poll_gen = (s.timer_poll_gen + 1) % 2 ^ 64 ∧
      s1.timer_poll_list.Sublist s.timer_poll_list ∧
      (∀ i ∈ s1.timer_poll_list, (s1.timers i).gen = s1.timer_poll_gen) ∧
      (∀ i ∈ s.timer_poll_list, cb_repolls P (code (s.timers i).expiry) →
        i ∈ s1.timer_poll_list) ∧
      s1.timer_in_poll = false ∧ s1.timer_lock = true := by
  obtain ⟨s1, done, rem, req, hres, hsplit, hpl, hsub, hreq, hrep, hcalls, _, _, _, hg, hin1, hl1,
    _, hstop⟩ := poll_pass P code fuel now s hwf hl hin hcb hf
  have hrem : rem = [] := by
    rcases hstop with h | ⟨t, rest, h, hbad⟩
    · exact h
    · have ht : t ∈ s.timer_poll_list := by rw [hsplit, h]; simp
      rcases hbad with hb | hb
      · exact absurd hb (hgen t ht)
      · exact absurd (hrun t ht) hb
  subst hrem
  rw [List.append_nil] at hsplit
  rw [List.nil_append] at hpl
  subst hsplit
  exact ⟨s1, hres, hcalls, hwf.2.1, hg, hpl ▸ hsub, hpl ▸ hreq,
    fun i hi hr => hpl ▸ hrep i hi hr, hin1, hl1⟩

/-- C4, amended, on timers 1 (idle callback) and 2 (re-scheduling callback):
both are called, in that order, and timer 2 is on the poll list afterwards. -/
theorem C4_poll_servicing_witness :
    ∃ s1, __check_poll_timers P0 (code_poll P0) 3 25 { sched_poll2 with timer_lock := true } =
        .ok s1 ∧
      s1.expiry_calls = [(1, 0, 25), (2, 0, 25)] ∧ 2 ∈ s1.timer_poll_list ∧
      s1.timer_poll_gen = 1 ∧ (∀ i ∈ s1.timer_poll_list, (s1.timers i).gen = s1.timer_poll_gen) := by
  obtain ⟨s1, h1, h2, _, h3, _, h4, h5, _⟩ :=
    C4_poll_servicing P0 (code_poll P0) 3 25 { sched_poll2 with timer_lock := true }
      ((wf_congr sched_poll2 _ rfl rfl rfl).mpr wf_sched_poll2) rfl rfl (by decide) (by decide)
      (fun i hi => by
        have : i = 1 ∨ i = 2 := by simpa [sched_poll2] using hi
        rcases this with rfl | rfl
        · exact Or.inl (code_poll_zero P0)
        · exact Or.inr (code_poll_one P0))
      (by decide)
  exact ⟨s1, h1, h2.trans (by decide), h5 2 (by decide) (code_poll_one P0), h3.trans (by decide), h4⟩

/-- C3, as stated, fails: timers 1 and 2 are on the poll list, the in-progress
flag is clear, the callback of timer 2 re-schedules timer 2 with the poll value
unconditionally, and the callback of timer 1 is running on another cpu.
`check_timers(false)` returns having stopped at timer 1: timer 2 is on the poll
list with its old stamp 0, while the counter of the pass is 1. -/
theorem C3_counterexample :
    2 ∈ sched_blocked.timer_poll_list ∧ sched_blocked.timer_in_poll = false ∧
    cb_repolls P0 (code_poll P0 (sched_blocked.timers 2).expiry) ∧
    ∃ s1, check_timers P0 (code_poll P0) 5 false sched_blocked = .ok s1 ∧
      s1.timer_poll_gen = 1 ∧ (s1.timers 2).gen = 0 ∧ s1.expiry_calls = [] :=
  ⟨by decide, rfl, code_poll_one P0, _, rfl, rfl, rfl, rfl⟩

/-- C3, amended. Poll fairness: on a well-formed state with the lock free and
the in-progress flag clear, with `t` on the poll list, its callback
re-scheduling `t` with the poll value unconditionally and the callbacks of the
queued timers idle or of that same kind, `check_timers(false)` returns, for
any fuel above the lengths of both lists; the poll counter has advanced by one;
`t` is on the poll list; and the callback of `t` was called not at all or
once, and if once, `t` is stamped with the new counter value. -/
theorem C3_poll_fairness (P : Platform) (code : Nat → timer_func_t) (fuel t : Nat) (s : Sched)
    (hwf : wf s) (hl : s.timer_lock = false) (hin : s.timer_in_poll = false)
    (ht : t ∈ s.timer_poll_list) (hrep : cb_repolls P (code (s.timers t).expiry))
    (hcb : ∀ i, i ∈ s.timer_list ∨ i ∈ s.timer_poll_list →
      cb_idle (code (s.timers i).expiry) ∨ cb_repolls P (code (s.timers i).expiry))
    (hf1 : s.timer_poll_list.length < fuel) (hf2 : s.timer_list.length < fuel) :
    ∃ s1, check_timers P code fuel false s = .ok s1 ∧
      s1.timer_poll_gen = (s.timer_poll_gen + 1) % 2 ^ 64 ∧
      t ∈ s1.timer_poll_list ∧
      (invocations t s1 = invocations t s ∨
        (invocations t s1 = invocations t s + 1 ∧ (s1.timers t).gen = s1.timer_poll_gen)) := by
  have hgo : s.timer_poll_list ≠ [] := List.ne_nil_of_mem ht
  -- the poll pass
  obtain ⟨s2, done, rem, req, hpoll, hsplit, hpl, _, hreq, hrq, hcalls, _, hexp, htl, hg2, _, hl2,
    hwf2, _⟩ := poll_pass P code fuel (P.mftb s.mftb_reads)
      { s with mftb_reads := s.mftb_reads + 1, timer_lock := true }
      ((wf_congr s _ rfl rfl rfl).mpr hwf) rfl hin (fun i hi => hcb i (Or.inr hi)) hf1
  dsimp only at hsplit hrq hcalls hexp htl hg2
  have hnd : (done ++ rem).Nodup := by
    have := hwf.2.1
    rw [show s.timer_poll_list = done ++ rem from hsplit] at this
    exact this
  have ht2 : t ∈ s2.timer_poll_list ∧
      (invocations t s2 = invocations t s ∨
        (invocations t s2 = invocations t s + 1 ∧ (s2.timers t).gen = s2.timer_poll_gen)) := by
    have hinv : invocations t s2 = invocations t s + done.count t := by
      unfold invocations
      rw [hcalls]
      exact invocations_append_map t s.expiry_calls done
        (fun i => ((s.timers i).user_data, P.mftb s.mftb_reads))
    by_cases hd : t ∈ done
    · have hreqt : t ∈ req := hrq t hd hrep
      refine ⟨by rw [hpl]; exact List.mem_append_right _ hreqt, Or.inr ⟨?_, hreq t hreqt⟩⟩
      rw [hinv, List.count_eq_one_of_mem (List.nodup_append.mp hnd).1 hd]
    · have hr : t ∈ rem := by
        have : t ∈ done ++ rem := by
          rw [← show s.timer_poll_list = done ++ rem from hsplit]; exact ht
        exact (List.mem_append.mp this).resolve_left hd
      refine ⟨by rw [hpl]; exact List.mem_append_left _ hr, Or.inl ?_⟩
      rw [hinv, List.count_eq_zero_of_not_mem hd, Nat.add_zero]
  -- the deadline pass
  obtain ⟨s3, hloop, _, _, hg3, _, hout, hkeep, calls, hcalls3, hfrom⟩ :=
    check_loop_benign P code fuel (P.mftb s.mftb_reads) s2 hwf2 hl2
      (fun i hi => by
        rw [hexp i]
        exact hcb i (Or.inl (by rw [htl] at hi; exact hi)))
      (by rw [htl]; exact hf2)
  have htn : t ∉ s2.timer_list := fun h => hwf2.2.2.1 t h ht2.1
  have hinv3 : invocations t s3 = invocations t s2 := by
    unfold invocations
    rw [hcalls3]
    exact invocations_append_others t s2.expiry_calls calls
      (fun c hc h => htn (h ▸ hfrom c hc))
  refine ⟨unlock s3, ?_, ?_, hkeep t ht2.1, ?_⟩
  · rw [check_timers_locked P code fuel false s hl (Or.inl hgo)]
    simp only [Bool.false_eq_true, if_false, hpoll, Except.bind, hloop]
  · simp [hg3, hg2]
  · have hinvu : invocations t (unlock s3) = invocations t s3 := rfl
    rw [hinvu, hinv3]
    rcases ht2.2 with h | ⟨h, hgen⟩
    · exact Or.inl h
    · refine Or.inr ⟨h, ?_⟩
      simp only [unlock_timers, unlock_timer_poll_gen]
      rw [hout t htn, hg3]; exact hgen

/-- C3, amended, on timers 1 (idle callback) and 2 (re-scheduling callback),
for timer 2. -/
theorem C3_poll_fairness_witness :
    ∃ s1, check_timers P0 (code_poll P0) 3 false sched_poll2 = .ok s1 ∧
      s1.timer_poll_gen = 1 ∧ 2 ∈ s1.timer_poll_list ∧
      (invocations 2 s1 = invocations 2 sched_poll2 ∨
        (invocations 2 s1 = invocations 2 sched_poll2 + 1 ∧
          (s1.timers 2).gen = s1.timer_poll_gen)) := by
  obtain ⟨s1, h1, h2, h3, h4⟩ :=
    C3_poll_fairness P0 (code_poll P0) 3 2 sched_poll2 wf_sched_poll2 rfl rfl (by decide)
      (code_poll_one P0)
      (fun i hi => by
        have : i = 1 ∨ i = 2 := by simpa [sched_poll2, sched0] using hi
        rcases this with rfl | rfl
        · exact Or.inl (code_poll_zero P0)
        · exact Or.inr (code_poll_one P0))
      (by decide) (by decide)
  exact ⟨s1, h1, h2.trans (by decide), h3, h4⟩

/-- C15. `schedule_timer` (relative scheduling): the call reads the clock once,
getting `now`, and is `schedule_timer_at(t, TIMER_POLL)` when `how_long` is the
poll value and `schedule_timer_at(t, (now + how_long) mod 2^64)` otherwise,
made in the state after the clock read; when that call returns, `schedule_timer`
returns `now` with the state it produced, and with the lock free it returns. -/
theorem C15_schedule_timer (P : Platform) (t d : Nat) (s : Sched) :
    schedule_timer P t d s =
      (schedule_timer_at P t
          (if d = P.TIMER_POLL then P.TIMER_POLL else (P.mftb s.mftb_reads + d) % 2 ^ 64)
          { s with mftb_reads := s.mftb_reads + 1 }).map
        (fun s1 => (P.mftb s.mftb_reads, s1)) ∧
    (s.timer_lock = false → ∃ s1, schedule_timer P t d s = .ok (P.mftb s.mftb_reads, s1)) := by
  have h : schedule_timer P t d s =
      (schedule_timer_at P t
          (if d = P.TIMER_POLL then P.TIMER_POLL else (P.mftb s.mftb_reads + d) % 2 ^ 64)
          { s with mftb_reads := s.mftb_reads + 1 }).map
        (fun s1 => (P.mftb s.mftb_reads, s1)) := by
    unfold schedule_timer
    by_cases hd : d = P.TIMER_POLL
    · simp only [mftb, hd, if_true, bind, Except.bind, Except.map, pure, Except.pure]
    · simp only [mftb, hd, if_false, bind, Except.bind, Except.map, pure, Except.pure]
  refine ⟨h, fun hl => ?_⟩
  rw [h, schedule_timer_at_ok P t _ _ (by exact hl)]
  exact ⟨_, rfl⟩

/-- C15 at a delay of 5 with the clock at 25: the call returns 25 and the timer
has target 30. -/
theorem C15_schedule_timer_witness :
    ∃ s1, schedule_timer P0 1 5 sched0 = .ok (25, s1) ∧ s1.timer_list = [1] ∧
      (s1.timers 1).target = 30 :=
  ⟨_, ((C15_schedule_timer P0 1 5 sched0).1.trans rfl), rfl, rfl⟩

/-- C16. `cancel_timer_async`: on a timer whose running marker is none it is
`cancel_timer`; on a well-formed state with the lock free it returns whatever
the running marker is (the calling cpu included), the timer is then off both
lists with its link null, the lists keep the other timers in their order, the
other timer objects are unchanged and every running marker, that of the timer
included, is as before. -/
theorem C16_cancel_async (P : Platform) (t : Nat) (s : Sched) :
    ((s.timers t).running = none → cancel_timer_async t s = cancel_timer P t s) ∧
    (wf s → s.timer_lock = false →
      ∃ s1, cancel_timer_async t s = .ok s1 ∧
        t ∉ s1.timer_list ∧ t ∉ s1.timer_poll_list ∧ (s1.timers t).link = false ∧
        s1.timer_list = s.timer_list.filter (fun i => decide (i ≠ t)) ∧
        s1.timer_poll_list = s.timer_poll_list.filter (fun i => decide (i ≠ t)) ∧
        (∀ i, i ≠ t → s1.timers i = s.timers i) ∧
        (∀ i, (s1.timers i).running = (s.timers i).running)) := by
  constructor
  · intro hr
    unfold cancel_timer_async cancel_timer
    cases hlock : lock s with
    | error e => rfl
    | ok s1 =>
      have h1 : s1.timers = s.timers := by
        unfold lock at hlock
        split at hlock
        · cases hlock
        · cases hlock; rfl
      simp [__sync_timer, h1, hr, bind, Except.bind, pure, Except.pure]
  · intro hwf hl
    obtain ⟨_, _, a, b, c, d, e, f, g, _⟩ := cancel_result t s hwf hl
    exact ⟨_, cancel_timer_async_ok t s hl, a, b, c, d, e, f, g⟩

/-- C16 on a queued timer whose callback is running on the calling cpu: the
asynchronous cancel returns and the marker stays. -/
theorem C16_cancel_async_witness :
    cancel_timer_async 2 sched_one = cancel_timer P0 2 sched_one ∧
    ∃ s1, cancel_timer_async 1 sched_self = .ok s1 ∧ 1 ∉ s1.timer_list ∧
      (s1.timers 1).running = some 1 := by
  refine ⟨(C16_cancel_async P0 2 sched_one).1 rfl, ?_⟩
  obtain ⟨s1, h, a, _, _, _, _, _, g⟩ := (C16_cancel_async P0 1 sched_self).2
    ⟨by decide, by decide, by decide, fun i => by
      by_cases h : i = 1 <;> simp [sched_self, sched_one, sched0, fresh, h]⟩ rfl
  exact ⟨s1, h, a, (g 1).trans rfl⟩

/-- C18, as stated, fails: `init_timer` does not write the generation field; a
timer stamped 7 is still stamped 7 afterwards. -/
theorem C18_counterexample :
    (sched_dirty.timers 1).gen = 7 ∧ ((init_timer 1 5 6 sched_dirty).timers 1).gen = 7 :=
  ⟨rfl, rfl⟩

/-- C18, amended. `init_timer` postcondition: after `init_timer(t, f, p)`,
whatever the timer held, its link is null, its target 0, its running marker
none, its expiry `f`, its user_data `p`; its generation field is what it was;
no other timer object is written, and the two lists, the generation counter,
the in-progress flag, the lock and the logs are unchanged. -/
theorem C18_init_timer (t f p : Nat) (s : Sched) :
    ((init_timer t f p s).timers t).link = false ∧
    ((init_timer t f p s).timers t).target = 0 ∧
    ((init_timer t f p s).timers t).running = none ∧
    ((init_timer t f p s).timers t).expiry = f ∧
    ((init_timer t f p s).timers t).user_data = p ∧
    ((init_timer t f p s).timers t).gen = (s.timers t).gen ∧
    (∀ i, i ≠ t → (init_timer t f p s).timers i = s.timers i) ∧
    (init_timer t f p s).timer_list = s.timer_list ∧
    (init_timer t f p s).timer_poll_list = s.timer_poll_list ∧
    (init_timer t f p s).timer_poll_gen = s.timer_poll_gen ∧
    (init_timer t f p s).timer_in_poll = s.timer_in_poll ∧
    (init_timer t f p s).timer_lock = s.timer_lock ∧
    (init_timer t f p s).slw_calls = s.slw_calls ∧
    (init_timer t f p s).expiry_calls = s.expiry_calls := by
  refine ⟨?_, ?_, ?_, ?_, ?_, ?_, ?_, rfl, rfl, rfl, rfl, rfl, rfl, rfl⟩
  all_goals first
    | (intro i hi; simp [init_timer, Function.update_noteq hi])
    | simp [init_timer]

/-- C20, as stated, fails: with the poll value `2^64 - 1` and the clock at 25,
the delay `2^64 - 26` is not the poll value, its sum with the clock reading is,
and `schedule_timer` leaves the timer on the poll list, not on the deadline
list. -/
theorem C20_counterexample :
    (18446744073709551590 : Nat) ≠ P0.TIMER_POLL ∧
    (25 + 18446744073709551590) % 2 ^ 64 = P0.TIMER_POLL ∧
    ∃ s1, schedule_timer P0 1 18446744073709551590 sched0 = .ok (25, s1) ∧
      s1.timer_list = [] ∧ s1.timer_poll_list = [1] :=
  ⟨by decide, by decide, _, rfl, rfl, rfl⟩

/-- C20, amended. Relative deadlines: on a well-formed state with the lock
free, for a delay `d` that is not the poll value, `schedule_timer(t, d)`
returns the clock reading `now`; when `(now + d) mod 2^64` is not the poll
value, `t` is once on the deadline list and not on the poll list, with that
target; when it is the poll value, `t` is once on the poll list and not on
the deadline list. -/
theorem C20_relative_deadline (P : Platform) (t d : Nat) (s : Sched) (hwf : wf s)
    (hl : s.timer_lock = false) (hd : d ≠ P.TIMER_POLL) :
    ∃ s1, schedule_timer P t d s = .ok (P.mftb s.mftb_reads, s1) ∧
      (s1.timers t).target = (P.mftb s.mftb_reads + d) % 2 ^ 64 ∧
      ((P.mftb s.mftb_reads + d) % 2 ^ 64 ≠ P.TIMER_POLL →
        s1.timer_list.count t = 1 ∧ t ∉ s1.timer_poll_list) ∧
      ((P.mftb s.mftb_reads + d) % 2 ^ 64 = P.TIMER_POLL →
        s1.timer_poll_list.count t = 1 ∧ t ∉ s1.timer_list) := by
  have hwf0 : wf { s with mftb_reads := s.mftb_reads + 1 } := (wf_congr s _ rfl rfl rfl).mpr hwf
  have hl0 : ({ s with mftb_reads := s.mftb_reads + 1 } : Sched).timer_lock = false := hl
  obtain ⟨_, _, _, _, _, hpoll, hdl⟩ :=
    schedule_at_result P t ((P.mftb s.mftb_reads + d) % 2 ^ 64) _ hwf0
  refine ⟨_, ?_, ?_, hdl, fun h => ?_⟩
  · simp only [schedule_timer, mftb, hd, if_false, bind, Except.bind,
      schedule_timer_at_ok P t _ _ hl0, pure, Except.pure]
  · simp [sched_at_timers]
  · exact ⟨(hpoll h).1, (hpoll h).2.1⟩

/-- C20, amended, at a delay of 5 with the clock at 25. -/
theorem C20_relative_deadline_witness :
    ∃ s1, schedule_timer P0 1 5 sched_poll2 = .ok (25, s1) ∧
      (s1.timers 1).target = 30 ∧ s1.timer_list.count 1 = 1 ∧ 1 ∉ s1.timer_poll_list := by
  obtain ⟨s1, h1, h2, h3, _⟩ :=
    C20_relative_deadline P0 1 5 sched_poll2 wf_sched_poll2 rfl (by decide)
  exact ⟨s1, h1, h2.trans (by decide), (h3 (by decide)).1, (h3 (by decide)).2⟩

/-- `check_timers` takes the lock-free return or runs `locked_pass`. -/
theorem check_timers_cases (P : Platform) (code : Nat → timer_func_t) (fuel : Nat)
    (from_interrupt : Bool) (s : Sched) :
    check_timers P code fuel from_interrupt s = .ok { s with mftb_reads := s.mftb_reads + 1 } ∨
    check_timers P code fuel from_interrupt s =
      locked_pass P code fuel from_interrupt (P.mftb s.mftb_reads)
        { s with mftb_reads := s.mftb_reads + 1 } := by
  unfold check_timers locked_pass
  simp only [mftb]
  split
  · exact Or.inl rfl
  · exact Or.inr rfl

/-- With the lock free, `locked_pass` takes the lock, runs the poll pass unless
called from an interrupt, runs the deadline pass and releases the lock. -/
theorem locked_pass_eq (P : Platform) (code : Nat → timer_func_t) (fuel : Nat)
    (from_interrupt : Bool) (now : Nat) (s0 : Sched) (hl : s0.timer_lock = false) :
    locked_pass P code fuel from_interrupt now s0 =
      ((if from_interrupt = true then .ok { s0 with timer_lock := true }
        else __check_poll_timers P code fuel now { s0 with timer_lock := true }).bind
        (fun s2 => (__check_timers P code fuel now s2).bind (fun s3 => .ok (unlock s3)))) := by
  unfold locked_pass
  simp only [lock_ok _ hl, bind, Except.bind]
  cases from_interrupt <;> rfl

/-- C19. Lock-free early return: when the poll list is empty and the sorted
deadline list is empty or its head has a target above the time read,
`check_timers` returns the state it was given, changed only by the clock read,
for any fuel and whether or not the lock is held on entry (it does not take
it), so without any call; in such a state every timer on the deadline list has
a target above the time read; and the locked pass, had it run with the lock
free, would have returned without logging a call and with the lists and the
timer objects unchanged. -/
theorem C19_early_return (P : Platform) (code : Nat → timer_func_t) (fuel : Nat)
    (from_interrupt : Bool) (s : Sched) (hp : s.timer_poll_list = [])
    (hs : (targets s).Sorted (· ≤ ·))
    (hd : ∀ t rest, s.timer_list = t :: rest → P.mftb s.mftb_reads < (s.timers t).target) :
    check_timers P code fuel from_interrupt s = .ok { s with mftb_reads := s.mftb_reads + 1 } ∧
    (∀ i ∈ s.timer_list, P.mftb s.mftb_reads < (s.timers i).target) ∧
    (s.timer_lock = false → 0 < fuel →
      ∃ s2, locked_pass P code fuel from_interrupt (P.mftb s.mftb_reads)
          { s with mftb_reads := s.mftb_reads + 1 } = .ok s2 ∧
        s2.expiry_calls = s.expiry_calls ∧ s2.timer_list = s.timer_list ∧
        s2.timer_poll_list = s.timer_poll_list ∧ s2.timers = s.timers ∧
        s2.timer_lock = false) := by
  refine ⟨check_timers_early P code fuel from_interrupt s hp hd, ?_, ?_⟩
  · intro i hi
    cases hlist : s.timer_list with
    | nil => rw [hlist] at hi; cases hi
    | cons t rest =>
      have ht := hd t rest hlist
      rw [hlist] at hi
      rcases List.mem_cons.mp hi with h | h
      · subst h; exact ht
      · have hsorted : ((t :: rest).map (fun i => (s.timers i).target)).Sorted (· ≤ ·) := by
          have := hs; unfold targets at this; rw [hlist] at this; exact this
        have h2 : (s.timers t).target ≤ (s.timers i).target :=
          (List.sorted_cons.mp hsorted).1 _
            (List.mem_map_of_mem (fun i => (s.timers i).target) h)
        omega
  · intro hl hf
    obtain ⟨n, rfl⟩ : ∃ n, fuel = n + 1 := ⟨fuel - 1, by omega⟩
    have hl0 : ({ s with mftb_reads := s.mftb_reads + 1 } : Sched).timer_lock = false := hl
    obtain ⟨s2, hpoll, p1, p2, p3, p4, p5⟩ :
        ∃ s2, (if from_interrupt = true then
              .ok { s with mftb_reads := s.mftb_reads + 1, timer_lock := true }
            else __check_poll_timers P code (n + 1) (P.mftb s.mftb_reads)
              { s with mftb_reads := s.mftb_reads + 1, timer_lock := true }) = .ok s2 ∧
          s2.timers = s.timers ∧ s2.timer_list = s.timer_list ∧ s2.timer_poll_list = [] ∧
          s2.timer_lock = true ∧ s2.expiry_calls = s.expiry_calls := by
      cases from_interrupt with
      | true => exact ⟨_, rfl, rfl, rfl, hp, rfl, rfl⟩
      | false =>
        simpa using check_poll_timers_empty P code (n + 1) (P.mftb s.mftb_reads)
          { s with mftb_reads := s.mftb_reads + 1, timer_lock := true } hp (by omega)
    have hloop : __check_timers P code (n + 1) (P.mftb s.mftb_reads) s2 = .ok s2 := by
      cases hlist : s2.timer_list with
      | nil => exact check_loop_nil P code _ n s2 hlist
      | cons t rest =>
        refine check_loop_stop P code _ n t rest s2 hlist (Or.inl ?_)
        rw [p1]; exact hd t rest (by rw [← p2]; exact hlist)
    refine ⟨unlock s2, ?_, p5, p2, by rw [unlock_timer_poll_list, p3, hp], p1, rfl⟩
    rw [locked_pass_eq P code (n + 1) from_interrupt _ _ hl0, hpoll]
    simp only [Except.bind, hloop]

/-- C19 on timers at 10, 20, 30 with the clock at 5. -/
theorem C19_early_return_witness :
    check_timers P0_at5 code_idle 0 false sched_three =
      .ok { sched_three with mftb_reads := sched_three.mftb_reads + 1 } ∧
    (∀ i ∈ sched_three.timer_list, 5 < (sched_three.timers i).target) :=
  let h := C19_early_return P0_at5 code_idle 0 false sched_three rfl (by decide)
    (fun t rest hlist => by
      have ht : t = 1 := by
        have := (List.cons.inj (hlist.symm.trans (rfl : sched_three.timer_list = [1, 2, 3]))).1
        exact this
      subst ht; decide)
  ⟨h.1, h.2.1⟩

/-- A turn of the poll loop on an eligible head is a `dispatch`, then the loop. -/
theorem poll_loop_bind (P : Platform) (code : Nat → timer_func_t) (now fuel t : Nat)
    (rest : List Nat) (s : Sched) (h : s.timer_poll_list = t :: rest)
    (hg : (s.timers t).gen ≠ s.timer_poll_gen) (hr : (s.timers t).running = none) :
    poll_loop P code now (fuel + 1) s =
      (dispatch P code t now s).bind (poll_loop P code now fuel) := by
  cases hd : dispatch P code t now s with
  | ok s1 => exact poll_loop_step P code now fuel t rest s s1 h hg hr hd
  | error e =>
    rw [dispatch_def] at hd
    simp only [poll_loop, h, hg, hr, Option.isSome_none, if_false, Bool.false_eq_true, bind]
    revert hd
    cases call_expiry code t now _ with
    | error e1 => intro hd; simp only [Except.bind] at hd ⊢; exact hd
    | ok s4 =>
      simp only [Except.bind]
      cases lock s4 with
      | error e2 => intro hd; simp only at hd ⊢; exact hd
      | ok s5 => intro hd; simp at hd

/-- A turn of the deadline loop on a due, idle head is a `dispatch`, then a
clock read and the loop. -/
theorem check_loop_bind (P : Platform) (code : Nat → timer_func_t) (now fuel t : Nat)
    (rest : List Nat) (s : Sched) (h : s.timer_list = t :: rest)
    (hg : (s.timers t).target ≤ now) (hr : (s.timers t).running = none) :
    __check_timers P code (fuel + 1) now s =
      (dispatch P code t now s).bind
        (fun s1 => __check_timers P code fuel (P.mftb s1.mftb_reads)
          { s1 with mftb_reads := s1.mftb_reads + 1 }) := by
  cases hd : dispatch P code t now s with
  | ok s1 => exact check_loop_step P code now fuel t rest s s1 h hg hr hd
  | error e =>
    rw [dispatch_def] at hd
    have hg2 : ¬ now < (s.timers t).target := Nat.not_lt.mpr hg
    simp only [__check_timers, h, hg2, hr, Option.isSome_none, if_false, Bool.false_eq_true, bind,
      gt_iff_lt]
    revert hd
    cases call_expiry code t now _ with
    | error e1 => intro hd; simp only [Except.bind] at hd ⊢; exact hd
    | ok s4 =>
      simp only [Except.bind]
      cases lock s4 with
      | error e2 => intro hd; simp only at hd ⊢; exact hd
      | ok s5 => intro hd; simp at hd

/-- What a `dispatch` that returns has done: the callback returned a state with
the lock free; the lock is held again and the running marker is cleared. -/
theorem dispatch_ok_inv (P : Platform) (code : Nat → timer_func_t) (t now : Nat) (s s1 : Sched)
    (h : dispatch P code t now s = .ok s1) :
    ∃ s4, code (s.timers t).expiry t (s.timers t).user_data now (callback_entry P t now s) =
        .ok s4 ∧ s4.timer_lock = false ∧
      s1 = set_timer t { s4.timers t with running := none } { s4 with timer_lock := true } := by
  rw [dispatch_eq] at h
  cases hc : code (s.timers t).expiry t (s.timers t).user_data now (callback_entry P t now s) with
  | error e => rw [hc] at h; simp [Except.bind] at h
  | ok s4 =>
    rw [hc] at h
    by_cases hl : s4.timer_lock = true
    · simp [Except.bind, lock, hl] at h
    · have hl2 : s4.timer_lock = false := by simpa using hl
      simp only [Except.bind, lock_ok s4 hl2] at h
      cases h
      exact ⟨s4, rfl, hl2, rfl⟩

/-- Partial-correctness rule for the poll loop: a property kept by every turn
that returns holds when the loop returns. -/
theorem poll_loop_keeps (P : Platform) (code : Nat → timer_func_t) (now : Nat)
    (Inv : Sched → Prop)
    (hstep : ∀ s t rest s1, Inv s → s.timer_poll_list = t :: rest →
      (s.timers t).gen ≠ s.timer_poll_gen → (s.timers t).running = none →
      dispatch P code t now s = .ok s1 → Inv s1) :
    ∀ fuel s s1, Inv s → poll_loop P code now fuel s = .ok s1 → Inv s1 := by
  intro fuel
  induction fuel with
  | zero => intro s s1 _ h; simp [poll_loop] at h
  | succ fuel ih =>
    intro s s1 hinv h
    cases hlist : s.timer_poll_list with
    | nil => rw [poll_loop_nil P code now fuel s hlist] at h; cases h; exact hinv
    | cons t rest =>
      by_cases hg : (s.timers t).gen = s.timer_poll_gen
      · rw [poll_loop_stop P code now fuel t rest s hlist (Or.inl hg)] at h; cases h; exact hinv
      · by_cases hr : (s.timers t).running = none
        · rw [poll_loop_bind P code now fuel t rest s hlist hg hr] at h
          cases hd : dispatch P code t now s with
          | error e => rw [hd] at h; simp [Except.bind] at h
          | ok s2 =>
            rw [hd] at h
            exact ih s2 s1 (hstep s t rest s2 hinv hlist hg hr hd) h
        · rw [poll_loop_stop P code now fuel t rest s hlist (Or.inr hr)] at h; cases h; exact hinv

/-- Partial-correctness rule for the deadline loop: a property kept by every
turn that returns, and by the clock read that follows, holds when the loop
returns. -/
theorem check_loop_keeps (P : Platform) (code : Nat → timer_func_t)
    (Inv : Sched → Prop)
    (hstep : ∀ now s t rest s1, Inv s → s.timer_list = t :: rest →
      (s.timers t).target ≤ now → (s.timers t).running = none →
      dispatch P code t now s = .ok s1 → Inv { s1 with mftb_reads := s1.mftb_reads + 1 }) :
    ∀ fuel now s s1, Inv s → __check_timers P code fuel now s = .ok s1 → Inv s1 := by
  intro fuel
  induction fuel with
  | zero => intro now s s1 _ h; simp [__check_timers] at h
  | succ fuel ih =>
    intro now s s1 hinv h
    cases hlist : s.timer_list with
    | nil => rw [check_loop_nil P code now fuel s hlist] at h; cases h; exact hinv
    | cons t rest =>
      by_cases hg : now < (s.timers t).target
      · rw [check_loop_stop P code now fuel t rest s hlist (Or.inl hg)] at h; cases h; exact hinv
      · by_cases hr : (s.timers t).running = none
        · rw [check_loop_bind P code now fuel t rest s hlist (Nat.not_lt.mp hg) hr] at h
          cases hd : dispatch P code t now s with
          | error e => rw [hd] at h; simp [Except.bind] at h
          | ok s2 =>
            rw [hd] at h
            exact ih _ _ s1 (hstep now s t rest s2 hinv hlist (Nat.not_lt.mp hg) hr hd) h
        · rw [check_loop_stop P code now fuel t rest s hlist (Or.inr hr)] at h; cases h; exact hinv

/-- Taking the lock returns only when the lock is free. -/
theorem lock_inv (s s1 : Sched) (h : lock s = .ok s1) :
    s.timer_lock = false ∧ s1 = { s with timer_lock := true } := by
  unfold lock at h
  by_cases hl : s.timer_lock = true
  · simp [hl] at h
  · simp only [hl, Bool.false_eq_true, if_false, Except.ok.injEq] at h
    exact ⟨by simpa using hl, h.symm⟩

/-- What a poll pass that returns has done. -/
theorem check_poll_timers_inv (P : Platform) (code : Nat → timer_func_t) (fuel now : Nat)
    (s s1 : Sched) (h : __check_poll_timers P code fuel now s = .ok s1) :
    (s.timer_in_poll = true ∧ s1 = s) ∨
    (s.timer_in_poll = false ∧ ∃ s3,
      poll_loop P code now fuel
        { s with timer_in_poll := true, timer_poll_gen := (s.timer_poll_gen + 1) % 2 ^ 64 } =
          .ok s3 ∧
      s1 = { s3 with timer_in_poll := false }) := by
  unfold __check_poll_timers at h
  by_cases hin : s.timer_in_poll = true
  · simp only [hin, if_true, Except.ok.injEq] at h
    exact Or.inl ⟨hin, h.symm⟩
  · simp only [hin, Bool.false_eq_true, if_false, bind, Except.bind] at h
    refine Or.inr ⟨by simpa using hin, ?_⟩
    revert h
    cases poll_loop P code now fuel _ with
    | error e => intro h; simp at h
    | ok s3 => intro h; simp only [pure, Except.pure, Except.ok.injEq] at h; exact ⟨s3, rfl, h.symm⟩

/-- What a locked pass that returns has done. -/
theorem locked_pass_inv (P : Platform) (code : Nat → timer_func_t) (fuel : Nat)
    (from_interrupt : Bool) (now : Nat) (s0 s1 : Sched)
    (h : locked_pass P code fuel from_interrupt now s0 = .ok s1) :
    s0.timer_lock = false ∧ ∃ s2 s3,
      ((from_interrupt = true ∧ s2 = { s0 with timer_lock := true }) ∨
       (from_interrupt = false ∧
         __check_poll_timers P code fuel now { s0 with timer_lock := true } = .ok s2)) ∧
      __check_timers P code fuel now s2 = .ok s3 ∧ s1 = unlock s3 := by
  have hl : s0.timer_lock = false := by
    by_contra hl
    have hl2 : s0.timer_lock = true := by simpa using hl
    simp [locked_pass, lock, hl2, bind, Except.bind] at h
  refine ⟨hl, ?_⟩
  rw [locked_pass_eq P code fuel from_interrupt now s0 hl] at h
  cases from_interrupt with
  | true =>
    simp only [if_true, Except.bind] at h
    cases hc : __check_timers P code fuel now { s0 with timer_lock := true } with
    | error e => rw [hc] at h; simp at h
    | ok s3 =>
      rw [hc] at h; simp only [Except.ok.injEq] at h
      exact ⟨_, s3, Or.inl ⟨rfl, rfl⟩, hc, h.symm⟩
  | false =>
    simp only [Bool.false_eq_true, if_false] at h
    cases hp : __check_poll_timers P code fuel now { s0 with timer_lock := true } with
    | error e => rw [hp] at h; simp [Except.bind] at h
    | ok s2 =>
      rw [hp] at h
      simp only [Except.bind] at h
      cases hc : __check_timers P code fuel now s2 with
      | error e => rw [hc] at h; simp at h
      | ok s3 =>
        rw [hc] at h; simp only [Except.ok.injEq] at h
        exact ⟨s2, s3, Or.inr ⟨rfl, rfl⟩, hc, h.symm⟩

/-- Partial-correctness rule for `check_timers`: a property of the timer
objects and the lists that every turn that returns keeps holds when
`check_timers` returns. -/
theorem check_timers_keeps (P : Platform) (code : Nat → timer_func_t) (Inv : Sched → Prop)
    (hframe : ∀ s s1 : Sched, s1.timers = s.timers → s1.timer_list = s.timer_list →
      s1.timer_poll_list = s.timer_poll_list → Inv s → Inv s1)
    (hstep : ∀ s t now s1, Inv s → dispatch P code t now s = .ok s1 → Inv s1)
    (fuel : Nat) (from_interrupt : Bool) (s s1 : Sched) (hinv : Inv s)
    (h : check_timers P code fuel from_interrupt s = .ok s1) : Inv s1 := by
  rcases check_timers_cases P code fuel from_interrupt s with he | he
  · rw [he] at h; cases h
    exact hframe s _ rfl rfl rfl hinv
  · rw [he] at h
    obtain ⟨_, s2, s3, hpoll, hloop, rfl⟩ := locked_pass_inv P code fuel from_interrupt _ _ s1 h
    have hinv1 : Inv { s with mftb_reads := s.mftb_reads + 1, timer_lock := true } :=
      hframe s _ rfl rfl rfl hinv
    have hinv2 : Inv s2 := by
      rcases hpoll with ⟨_, rfl⟩ | ⟨_, hp⟩
      · exact hinv1
      · rcases check_poll_timers_inv P code fuel _ _ s2 hp with ⟨_, rfl⟩ | ⟨_, s4, hl4, rfl⟩
        · exact hinv1
        · refine hframe s4 _ rfl rfl rfl
            (poll_loop_keeps P code _ Inv (fun x t _ x1 hx _ _ _ hd => hstep x t _ x1 hx hd)
              fuel _ s4 ?_ hl4)
          exact hframe s _ rfl rfl rfl hinv
    have hinv3 : Inv s3 :=
      check_loop_keeps P code Inv
        (fun now x t _ x1 hx _ _ _ hd => hframe x1 _ rfl rfl rfl (hstep x t now x1 hx hd))
        fuel _ s2 s3 hinv2 hloop
    exact hframe s3 _ rfl rfl rfl hinv3

/-- `check_timers` is the lock-free return when the poll list is empty and no
head is due, and `locked_pass` otherwise. -/
theorem check_timers_if (P : Platform) (code : Nat → timer_func_t) (fuel : Nat)
    (from_interrupt : Bool) (s : Sched) :
    check_timers P code fuel from_interrupt s =
      if (s.timer_poll_list.isEmpty &&
          !(match s.timer_list with
            | [] => false
            | t :: _ => decide ((s.timers t).target ≤ P.mftb s.mftb_reads))) = true
      then .ok { s with mftb_reads := s.mftb_reads + 1 }
      else locked_pass P code fuel from_interrupt (P.mftb s.mftb_reads)
        { s with mftb_reads := s.mftb_reads + 1 } := rfl

/-- A watched turn whose callback is entered in a state that passes the test
is the turn itself. -/
theorem monitored_dispatch (P : Platform) (code : Nat → timer_func_t) (ok : Nat → Sched → Bool)
    (t now : Nat) (s : Sched) (h : ok t (callback_entry P t now s) = true) :
    dispatch P (monitored ok code) t now s = dispatch P code t now s := by
  rw [dispatch_eq, dispatch_eq]
  simp only [monitored, h, if_true]

/-- The watched poll loop is the poll loop, when the test holds at every entry. -/
theorem monitored_poll_loop (P : Platform) (code : Nat → timer_func_t) (ok : Nat → Sched → Bool)
    (now : Nat) (Inv : Sched → Prop)
    (hentry : ∀ s t now, Inv s → ok t (callback_entry P t now s) = true)
    (hstep : ∀ s t now s1, Inv s → dispatch P code t now s = .ok s1 → Inv s1) :
    ∀ fuel s, Inv s →
      poll_loop P (monitored ok code) now fuel s = poll_loop P code now fuel s := by
  intro fuel
  induction fuel with
  | zero => intro s _; rfl
  | succ fuel ih =>
    intro s hinv
    cases hlist : s.timer_poll_list with
    | nil => rw [poll_loop_nil P _ now fuel s hlist, poll_loop_nil P _ now fuel s hlist]
    | cons t rest =>
      by_cases hg : (s.timers t).gen = s.timer_poll_gen
      · rw [poll_loop_stop P _ now fuel t rest s hlist (Or.inl hg),
          poll_loop_stop P _ now fuel t rest s hlist (Or.inl hg)]
      · by_cases hr : (s.timers t).running = none
        · rw [poll_loop_bind P _ now fuel t rest s hlist hg hr,
            poll_loop_bind P _ now fuel t rest s hlist hg hr,
            monitored_dispatch P code ok t now s (hentry s t now hinv)]
          cases hd : dispatch P code t now s with
          | error e => rfl
          | ok s1 => exact ih s1 (hstep s t now s1 hinv hd)
        · rw [poll_loop_stop P _ now fuel t rest s hlist (Or.inr hr),
            poll_loop_stop P _ now fuel t rest s hlist (Or.inr hr)]

/-- The watched deadline loop is the deadline loop, when the test holds at
every entry. -/
theorem monitored_check_loop (P : Platform) (code : Nat → timer_func_t)
    (ok : Nat → Sched → Bool) (Inv : Sched → Prop)
    (hframe : ∀ s s1 : Sched, s1.timers = s.timers → s1.timer_list = s.timer_list →
      s1.timer_poll_list = s.timer_poll_list → Inv s → Inv s1)
    (hentry : ∀ s t now, Inv s → ok t (callback_entry P t now s) = true)
    (hstep : ∀ s t now s1, Inv s → dispatch P code t now s = .ok s1 → Inv s1) :
    ∀ fuel now s, Inv s →
      __check_timers P (monitored ok code) fuel now s = __check_timers P code fuel now s := by
  intro fuel
  induction fuel with
  | zero => intro now s _; rfl
  | succ fuel ih =>
    intro now s hinv
    cases hlist : s.timer_list with
    | nil => rw [check_loop_nil P _ now fuel s hlist, check_loop_nil P _ now fuel s hlist]
    | cons t rest =>
      by_cases hg : now < (s.timers t).target
      · rw [check_loop_stop P _ now fuel t rest s hlist (Or.inl hg),
          check_loop_stop P _ now fuel t rest s hlist (Or.inl hg)]
      · by_cases hr : (s.timers t).running = none
        · rw [check_loop_bind P _ now fuel t rest s hlist (Nat.not_lt.mp hg) hr,
            check_loop_bind P _ now fuel t rest s hlist (Nat.not_lt.mp hg) hr,
            monitored_dispatch P code ok t now s (hentry s t now hinv)]
          cases hd : dispatch P code t now s with
          | error e => rfl
          | ok s1 =>
            exact ih _ _ (hframe s1 _ rfl rfl rfl (hstep s t now s1 hinv hd))
        · rw [check_loop_stop P _ now fuel t rest s hlist (Or.inr hr),
            check_loop_stop P _ now fuel t rest s hlist (Or.inr hr)]

/-- The watched `check_timers` is `check_timers`, when the test holds at every
entry: every callback it calls is entered in a state that passes the test. -/
theorem monitored_check_timers (P : Platform) (code : Nat → timer_func_t)
    (ok : Nat → Sched → Bool) (Inv : Sched → Prop)
    (hframe : ∀ s s1 : Sched, s1.timers = s.timers → s1.timer_list = s.timer_list →
      s1.timer_poll_list = s.timer_poll_list → Inv s → Inv s1)
    (hentry : ∀ s t now, Inv s → ok t (callback_entry P t now s) = true)
    (hstep : ∀ s t now s1, Inv s → dispatch P code t now s = .ok s1 → Inv s1)
    (fuel : Nat) (from_interrupt : Bool) (s : Sched) (hinv : Inv s) :
    check_timers P (monitored ok code) fuel from_interrupt s =
      check_timers P code fuel from_interrupt s := by
  rw [check_timers_if, check_timers_if]
  split
  · rfl
  · by_cases hl : s.timer_lock = true
    · simp [locked_pass, lock, hl, bind, Except.bind]
    · have hl0 : ({ s with mftb_reads := s.mftb_reads + 1 } : Sched).timer_lock = false := by
        simpa using hl
      have hinv1 : Inv { s with mftb_reads := s.mftb_reads + 1, timer_lock := true } :=
        hframe s _ rfl rfl rfl hinv
      rw [locked_pass_eq P _ fuel from_interrupt _ _ hl0,
        locked_pass_eq P _ fuel from_interrupt _ _ hl0]
      have hpoll : (if from_interrupt = true then
            (.ok { s with mftb_reads := s.mftb_reads + 1, timer_lock := true } : Run)
          else __check_poll_timers P (monitored ok code) fuel (P.mftb s.mftb_reads)
            { s with mftb_reads := s.mftb_reads + 1, timer_lock := true }) =
          (if from_interrupt = true then
            (.ok { s with mftb_reads := s.mftb_reads + 1, timer_lock := true } : Run)
          else __check_poll_timers P code fuel (P.mftb s.mftb_reads)
            { s with mftb_reads := s.mftb_reads + 1, timer_lock := true }) := by
        cases from_interrupt with
        | true => rfl
        | false =>
          simp only [Bool.false_eq_true, if_false]
          unfold __check_poll_timers
          split
          · rfl
          · simp only [bind, Except.bind]
            rw [monitored_poll_loop P code ok _ Inv hentry hstep fuel
              { s with mftb_reads := s.mftb_reads + 1, timer_lock := true, timer_in_poll := true,
                       timer_poll_gen := (s.timer_poll_gen + 1) % 2 ^ 64 }
              (hframe s _ rfl rfl rfl hinv)]
      rw [hpoll]
      cases hp : (if from_interrupt = true then
            (.ok { s with mftb_reads := s.mftb_reads + 1, timer_lock := true } : Run)
          else __check_poll_timers P code fuel (P.mftb s.mftb_reads)
            { s with mftb_reads := s.mftb_reads + 1, timer_lock := true }) with
      | error e => rfl
      | ok s2 =>
        have hinv2 : Inv s2 := by
          cases from_interrupt with
          | true =>
            simp only [if_true, Except.ok.injEq] at hp
            rw [← hp]; exact hinv1
          | false =>
            simp only [Bool.false_eq_true, if_false] at hp
            rcases check_poll_timers_inv P code fuel _ _ s2 hp with ⟨_, rfl⟩ | ⟨_, s4, hl4, rfl⟩
            · exact hinv1
            · refine hframe s4 _ rfl rfl rfl
                (poll_loop_keeps P code _ Inv
                  (fun x t _ x1 hx _ _ _ hd => hstep x t _ x1 hx hd) fuel _ s4 ?_ hl4)
              exact hframe s _ rfl rfl rfl hinv
        simp only [Except.bind]
        rw [monitored_check_loop P code ok Inv hframe hentry hstep fuel _ s2 hinv2]

/-- The invariant `wf` reads only the links of the timer objects. -/
theorem wf_congr_link (s s1 : Sched) (h1 : ∀ i, (s1.timers i).link = (s.timers i).link)
    (h2 : s1.timer_list = s.timer_list) (h3 : s1.timer_poll_list = s.timer_poll_list) :
    wf s1 ↔ wf s := by
  simp [wf, h1, h2, h3]

/-- The state handed to a callback is well-formed when the state of the turn is. -/
theorem wf_callback_entry (P : Platform) (t now : Nat) (s : Sched) (h : wf s) :
    wf (callback_entry P t now s) := by
  refine Iff.mpr (wf_congr_link (__remove_timer t s) _ (fun i => ?_) rfl rfl)
    (wf_remove_timer t s h).1
  by_cases hi : i = t
  · subst hi; simp
  · simp [Function.update_noteq hi]

/-- A turn keeps `wf` when the callbacks do. -/
theorem wf_dispatch (P : Platform) (code : Nat → timer_func_t)
    (hcb : ∀ f t d now x x1, wf x → code f t d now x = .ok x1 → wf x1)
    (s : Sched) (t now : Nat) (s1 : Sched) (h : wf s) (hd : dispatch P code t now s = .ok s1) :
    wf s1 := by
  obtain ⟨s4, hc, _, rfl⟩ := dispatch_ok_inv P code t now s s1 hd
  have h4 : wf s4 := hcb _ _ _ _ _ _ (wf_callback_entry P t now s h) hc
  refine Iff.mpr (wf_congr_link s4 _ (fun i => ?_) rfl rfl) h4
  by_cases hi : i = t
  · subst hi; simp
  · simp [Function.update_noteq hi]

/-- C12, as stated, fails: timer 1 is queued, due and marked running by the
calling cpu (the state inside its own callback after it re-scheduled itself);
`check_timers` returns with the lock free and timer 1 still marked running by
the calling cpu. -/
theorem C12_counterexample :
    ∃ s1, check_timers P0 code_idle 5 false sched_self = .ok s1 ∧ s1.timer_lock = false ∧
      (s1.timers 1).running = some P0.this_cpu :=
  ⟨_, rfl, rfl, rfl⟩

/-- C12, amended. Unlock-around-callback, for any callbacks and any state:
(1) a run of `check_timers` is the same when every callback is watched for
being entered with the lock not held, the link of its timer null and the timer
marked running by the calling cpu, so every callback, in the poll pass and in
the deadline pass, is entered in such a state; (2) on a well-formed state, with
callbacks that keep states well-formed, the same holds for the test that the
timer is on neither list; (3) when a turn of a dispatch loop returns, the lock
is held again and the running marker of its timer is none; (4) entered with
the lock free, `check_timers` returns with the lock free; (5) with callbacks
that leave no new timer marked running by the calling cpu, every timer so
marked when `check_timers` returns was so marked when it was entered. -/
theorem C12_unlock_around_callback (P : Platform) (code : Nat → timer_func_t) (fuel : Nat)
    (from_interrupt : Bool) (s : Sched) :
    (check_timers P (monitored (entry_ok P) code) fuel from_interrupt s =
      check_timers P code fuel from_interrupt s) ∧
    (wf s → (∀ f t d now x x1, wf x → code f t d now x = .ok x1 → wf x1) →
      check_timers P (monitored entry_off code) fuel from_interrupt s =
        check_timers P code fuel from_interrupt s) ∧
    (∀ t now s1, dispatch P code t now s = .ok s1 →
      s1.timer_lock = true ∧ (s1.timers t).running = none) ∧
    (∀ s1, s.timer_lock = false → check_timers P code fuel from_interrupt s = .ok s1 →
      s1.timer_lock = false) ∧
    (∀ s1,
      (∀ f t d now x x1, code f t d now x = .ok x1 →
        ∀ i, (x1.timers i).running = some P.this_cpu → (x.timers i).running = some P.this_cpu) →
      check_timers P code fuel from_interrupt s = .ok s1 →
      ∀ i, (s1.timers i).running = some P.this_cpu → (s.timers i).running = some P.this_cpu) := by
  refine ⟨?_, ?_, ?_, ?_, ?_⟩
  · exact monitored_check_timers P code (entry_ok P) (fun _ => True) (fun _ _ _ _ _ _ => trivial)
      (fun x t now _ => by simp [entry_ok]) (fun _ _ _ _ _ _ => trivial) fuel from_interrupt s
      trivial
  · intro hwf hcb
    refine monitored_check_timers P code entry_off wf
      (fun x x1 h1 h2 h3 hx => (wf_congr x x1 h1 h2 h3).mpr hx) (fun x t now hx => ?_)
      (fun x t now x1 hx hd => wf_dispatch P code hcb x t now x1 hx hd) fuel from_interrupt s hwf
    have e1 : t ∉ x.timer_list.erase t := fun h => ((List.Nodup.mem_erase_iff hx.1).mp h).1 rfl
    have e2 : t ∉ x.timer_poll_list.erase t :=
      fun h => ((List.Nodup.mem_erase_iff hx.2.1).mp h).1 rfl
    simp [entry_off, e1, e2]
  · intro t now s1 hd
    obtain ⟨s4, _, _, rfl⟩ := dispatch_ok_inv P code t now s s1 hd
    simp
  · intro s1 hl h
    rcases check_timers_cases P code fuel from_interrupt s with he | he
    · rw [he] at h; cases h; exact hl
    · rw [he] at h
      obtain ⟨_, s2, s3, _, _, rfl⟩ := locked_pass_inv P code fuel from_interrupt _ _ s1 h
      rfl
  · intro s1 hcb h
    refine check_timers_keeps P code
      (fun x => ∀ i, (x.timers i).running = some P.this_cpu →
        (s.timers i).running = some P.this_cpu)
      (fun x x1 h1 _ _ hx i hi => hx i (by rw [← h1]; exact hi)) ?_ fuel from_interrupt s s1
      (fun _ hi => hi) h
    intro x t now x1 hx hd i hi
    obtain ⟨s4, hc, _, rfl⟩ := dispatch_ok_inv P code t now x x1 hd
    by_cases hit : i = t
    · subst hit; simp at hi
    · have h4 : (s4.timers i).running = some P.this_cpu := by
        simpa [Function.update_noteq hit] using hi
      have h5 := hcb _ _ _ _ _ _ hc i h4
      apply hx i
      simpa [Function.update_noteq hit] using h5

/-- C12, amended, on timers at 10, 20, 30 with the clock at 25 and idle
callbacks: the watched run is the run, which returns with the lock free and no
timer marked running by the calling cpu. -/
theorem C12_unlock_around_callback_witness :
    check_timers P0 (monitored (entry_ok P0) code_idle) 4 false sched_three =
      check_timers P0 code_idle 4 false sched_three ∧
    check_timers P0 (monitored entry_off code_idle) 4 false sched_three =
      check_timers P0 code_idle 4 false sched_three ∧
    ∃ s1, check_timers P0 code_idle 4 false sched_three = .ok s1 ∧
      s1.expiry_calls = [(1, 0, 25), (2, 0, 25)] ∧ s1.timer_lock = false ∧
      ∀ i, (s1.timers i).running ≠ some P0.this_cpu := by
  have h := C12_unlock_around_callback P0 code_idle 4 false sched_three
  have hwf : wf sched_three := by
    refine ⟨by decide, by decide, by decide, fun i => ?_⟩
    by_cases h1 : i = 1
    · subst h1; decide
    · by_cases h2 : i = 2
      · subst h2; decide
      · by_cases h3 : i = 3
        · subst h3; decide
        · simp [sched_three, sched0, fresh, h1, h2, h3]
  refine ⟨h.1, h.2.1 hwf (fun _ _ _ _ x x1 hx hc => by cases hc; exact hx), _, rfl, rfl,
    h.2.2.2.1 _ rfl rfl, fun i hi => ?_⟩
  have := h.2.2.2.2 _ (fun _ _ _ _ x x1 hc i hi => by cases hc; exact hi) rfl i hi
  by_cases h1 : i = 1
  · subst h1; simp [sched_three, sched0, fresh] at this
  · by_cases h2 : i = 2
    · subst h2; simp [sched_three, sched0, fresh] at this
    · by_cases h3 : i = 3
      · subst h3; simp [sched_three, sched0, fresh] at this
      · simp [sched_three, sched0, fresh, h1, h2, h3] at this

/-- The deadline pass behind a lock-free entry, with callbacks that, called on
timers off the poll list `pl`, keep states well-formed, keep the poll list,
the poll counter and the in-progress flag, and log no call: when it returns,
the poll state is as before and every call logged is for a timer off `pl`. -/
theorem check_loop_keeps_poll (P : Platform) (code : Nat → timer_func_t) (s : Sched)
    (hcb : ∀ f t d now x x1, t ∉ s.timer_poll_list → wf x → code f t d now x = .ok x1 →
      wf x1 ∧ x1.timer_poll_list = x.timer_poll_list ∧ x1.timer_poll_gen = x.timer_poll_gen ∧
      x1.timer_in_poll = x.timer_in_poll ∧ x1.expiry_calls = x.expiry_calls)
    (fuel now : Nat) (x s1 : Sched) (hwf : wf x) (hp : x.timer_poll_list = s.timer_poll_list)
    (hg : x.timer_poll_gen = s.timer_poll_gen) (hi : x.timer_in_poll = s.timer_in_poll)
    (hc : x.expiry_calls = s.expiry_calls)
    (h : __check_timers P code fuel now x = .ok s1) :
    s1.timer_poll_list = s.timer_poll_list ∧ s1.timer_poll_gen = s.timer_poll_gen ∧
    s1.timer_in_poll = s.timer_in_poll ∧
    ∃ calls, s1.expiry_calls = s.expiry_calls ++ calls ∧ ∀ c ∈ calls, c.1 ∉ s.timer_poll_list := by
  have := check_loop_keeps P code
    (fun y => wf y ∧ y.timer_poll_list = s.timer_poll_list ∧
      y.timer_poll_gen = s.timer_poll_gen ∧ y.timer_in_poll = s.timer_in_poll ∧
      ∃ calls, y.expiry_calls = s.expiry_calls ++ calls ∧ ∀ c ∈ calls, c.1 ∉ s.timer_poll_list)
    ?_ fuel now x s1 ⟨hwf, hp, hg, hi, [], by simp [hc], by simp⟩ h
  · exact this.2
  · rintro now1 y t rest y1 ⟨ywf, yp, yg, yi, calls, ycalls, yfrom⟩ hlist _ _ hd
    obtain ⟨s4, hcall, _, rfl⟩ := dispatch_ok_inv P code t now1 y y1 hd
    have htp : t ∉ y.timer_poll_list := ywf.2.2.1 t (by rw [hlist]; simp)
    have hts : t ∉ s.timer_poll_list := yp ▸ htp
    obtain ⟨w4, p4, g4, i4, c4⟩ :=
      hcb _ _ _ _ _ _ hts (wf_callback_entry P t now1 y ywf) hcall
    refine ⟨?_, ?_, ?_, ?_, calls ++ [(t, (y.timers t).user_data, now1)], ?_, ?_⟩
    · refine Iff.mpr (wf_congr_link s4 _ (fun i => ?_) rfl rfl) w4
      by_cases hit : i = t
      · subst hit; simp
      · simp [Function.update_noteq hit]
    · show s4.timer_poll_list = s.timer_poll_list
      rw [p4, callback_entry_timer_poll_list, List.erase_of_not_mem htp, yp]
    · simp [g4, yg]
    · simp [i4, yi]
    · simp [c4, ycalls]
    · intro c hc
      rcases List.mem_append.mp hc with hc | hc
      · exact yfrom c hc
      · rw [List.mem_singleton] at hc; subst hc; exact hts

/-- `takeWhile` reads the test on the members of the list only. -/
theorem takeWhile_congr_mem (p q : Nat → Bool) (l : List Nat) (h : ∀ i ∈ l, p i = q i) :
    l.takeWhile p = l.takeWhile q ∧ l.dropWhile p = l.dropWhile q := by
  induction l with
  | nil => simp
  | cons a l ih =>
    have ha := h a (List.mem_cons_self a l)
    obtain ⟨i1, i2⟩ := ih (fun i hi => h i (List.mem_cons_of_mem a hi))
    rw [List.takeWhile_cons, List.takeWhile_cons, List.dropWhile_cons, List.dropWhile_cons, ha, i1, i2]
    exact ⟨rfl, rfl⟩

/-- The deadline pass under a constant clock and idle callbacks, started in a
state `x` that agrees with `s` on the deadline list and its timers. -/
theorem check_loop_idle_from (P : Platform) (code : Nat → timer_func_t) (now fuel : Nat)
    (s x : Sched) (hclock : ∀ k, P.mftb k = now) (hf : s.timer_list.length < fuel)
    (hl : x.timer_lock = true) (htl : x.timer_list = s.timer_list)
    (hsame : ∀ i ∈ s.timer_list, x.timers i = s.timers i)
    (hrun : ∀ i ∈ s.timer_list,
      (s.timers i).running = none ∧ cb_idle (code (s.timers i).expiry)) :
    ∃ x1, __check_timers P code fuel now x = .ok x1 ∧
      x1.timer_list = s.timer_list.dropWhile (fun i => decide ((s.timers i).target ≤ now)) ∧
      x1.expiry_calls = x.expiry_calls ++
        (s.timer_list.takeWhile (fun i => decide ((s.timers i).target ≤ now))).map
          (fun i => (i, (s.timers i).user_data, now)) := by
  obtain ⟨x1, h1, h2, h3, _, _⟩ := check_loop_idle P code now fuel x hclock (by rw [htl]; exact hf) hl
    (fun i hi => by rw [htl] at hi; rw [hsame i hi]; exact (hrun i hi).1)
    (fun i hi => by rw [htl] at hi; rw [hsame i hi]; exact (hrun i hi).2)
  obtain ⟨e1, e2⟩ := takeWhile_congr_mem (fun i => decide ((x.timers i).target ≤ now))
    (fun i => decide ((s.timers i).target ≤ now)) s.timer_list
    (fun i hi => by simp only [hsame i hi])
  refine ⟨x1, h1, by rw [h2, htl, e2], ?_⟩
  rw [h3, htl, e1]
  congr 1
  apply List.map_congr_left
  intro i hi
  rw [hsame i (List.takeWhile_subset _ hi)]

/-- The state `sched_mixed` is well-formed. -/
theorem wf_sched_mixed : wf sched_mixed := by
  refine ⟨by decide, by decide, by decide, fun i => ?_⟩
  by_cases h1 : i = 1
  · subst h1; decide
  · by_cases h2 : i = 2
    · subst h2; decide
    · by_cases h3 : i = 3
      · subst h3; decide
      · simp [sched_mixed, sched0, fresh, h1, h2, h3]

/-- The state `sched_one` is well-formed. -/
theorem wf_sched_one : wf sched_one := by
  refine ⟨by decide, by decide, by decide, fun i => ?_⟩
  by_cases h : i = 1 <;> simp [sched_one, sched0, fresh, h]

/-- No call since the state itself. -/
theorem spares_running_refl (s : Sched) : spares_running s s :=
  ⟨fun _ h => h, [], by simp, fun _ h => by cases h⟩

/-- The relation `spares_running s` reads only the timer objects and the call log. -/
theorem spares_running_congr (s x x1 : Sched) (h1 : x1.timers = x.timers)
    (h2 : x1.expiry_calls = x.expiry_calls) (h : spares_running s x) : spares_running s x1 := by
  obtain ⟨a, calls, b, c⟩ := h
  exact ⟨fun i hi => by rw [h1]; exact a i hi, calls, by rw [h2]; exact b, c⟩

/-- A turn on a timer whose running marker is none, with a callback that spares
the timers marked running at its entry, spares the timers marked running in `s`. -/
theorem spares_running_dispatch (P : Platform) (code : Nat → timer_func_t)
    (hcb : ∀ f t d now x x1, code f t d now x = .ok x1 → spares_running x x1)
    (s x x1 : Sched) (t now : Nat) (hx : spares_running s x)
    (hr : (x.timers t).running = none) (hd : dispatch P code t now x = .ok x1) :
    spares_running s x1 := by
  obtain ⟨s4, hc, _, rfl⟩ := dispatch_ok_inv P code t now x x1 hd
  obtain ⟨a, calls, b, c⟩ := hx
  obtain ⟨a4, more, b4, c4⟩ := hcb _ _ _ _ _ _ hc
  have hst : (s.timers t).running = none := by
    by_contra h
    exact a t h hr
  refine ⟨fun i hi => ?_, calls ++ [(t, (x.timers t).user_data, now)] ++ more, ?_, ?_⟩
  · have hit : i ≠ t := fun e => hi (e ▸ hst)
    have h4 := a4 i (by simpa [Function.update_noteq hit] using a i hi)
    simpa [Function.update_noteq hit] using h4
  · show s4.expiry_calls = _
    rw [b4, callback_entry_expiry_calls, b]
    simp [List.append_assoc]
  · intro c1 hc1
    rcases List.mem_append.mp hc1 with h | h
    · rcases List.mem_append.mp h with h | h
      · exact c c1 h
      · have : c1 = (t, (x.timers t).user_data, now) := by simpa using h
        rw [this]; exact hst
    · have h5 := c4 c1 h
      have hit : c1.1 ≠ t := by
        intro e
        rw [e] at h5
        simp at h5
      have h6 : (x.timers c1.1).running = none := by
        simpa [Function.update_noteq hit] using h5
      by_contra h7
      exact a c1.1 h7 h6

/-- Partial-correctness rule for `check_timers`: a property of the timer
objects and the call log that is kept by every turn on a timer whose running
marker is none holds when `check_timers` returns. -/
theorem check_timers_keeps_calls (P : Platform) (code : Nat → timer_func_t) (Inv : Sched → Prop)
    (hframe : ∀ s s1 : Sched, s1.timers = s.timers → s1.expiry_calls = s.expiry_calls →
      Inv s → Inv s1)
    (hstep : ∀ s t now s1, Inv s → (s.timers t).running = none →
      dispatch P code t now s = .ok s1 → Inv s1)
    (fuel : Nat) (from_interrupt : Bool) (s s1 : Sched) (hinv : Inv s)
    (h : check_timers P code fuel from_interrupt s = .ok s1) : Inv s1 := by
  rcases check_timers_cases P code fuel from_interrupt s with he | he
  · rw [he] at h; cases h
    exact hframe s _ rfl rfl hinv
  · rw [he] at h
    obtain ⟨_, s2, s3, hpoll, hloop, rfl⟩ := locked_pass_inv P code fuel from_interrupt _ _ s1 h
    have hinv1 : Inv { s with mftb_reads := s.mftb_reads + 1, timer_lock := true } :=
      hframe s _ rfl rfl hinv
    have hinv2 : Inv s2 := by
      rcases hpoll with ⟨_, rfl⟩ | ⟨_, hp⟩
      · exact hinv1
      · rcases check_poll_timers_inv P code fuel _ _ s2 hp with ⟨_, rfl⟩ | ⟨_, s4, hl4, rfl⟩
        · exact hinv1
        · refine hframe s4 _ rfl rfl
            (poll_loop_keeps P code _ Inv (fun x t _ x1 hx _ _ hr hd => hstep x t _ x1 hx hr hd)
              fuel _ s4 ?_ hl4)
          exact hframe s _ rfl rfl hinv
    have hinv3 : Inv s3 :=
      check_loop_keeps P code Inv
        (fun now x t _ x1 hx _ _ hr hd => hframe x1 _ rfl rfl (hstep x t now x1 hx hr hd))
        fuel _ s2 s3 hinv2 hloop
    exact hframe s3 _ rfl rfl hinv3

/-- A deadline pass that returns is a sequence of turns, each on the head of
the list of its moment, due and with its running marker none at that moment. -/
theorem check_loop_turns (P : Platform) (code : Nat → timer_func_t) :
    ∀ fuel now s s1, __check_timers P code fuel now s = .ok s1 → check_turns P code now s s1 := by
  intro fuel
  induction fuel with
  | zero => intro now s s1 h; simp [__check_timers] at h
  | succ fuel ih =>
    intro now s s1 h
    cases hlist : s.timer_list with
    | nil =>
      rw [check_loop_nil P code now fuel s hlist] at h; cases h
      exact check_turns.stop now s (fun t rest e => by rw [hlist] at e; cases e)
    | cons t rest =>
      by_cases hg : now < (s.timers t).target
      · rw [check_loop_stop P code now fuel t rest s hlist (Or.inl hg)] at h; cases h
        refine check_turns.stop now s (fun t2 rest2 e hdue => ?_)
        rw [hlist] at e
        obtain ⟨rfl, _⟩ := List.cons.inj e
        exact absurd hdue (Nat.not_le.mpr hg)
      · by_cases hr : (s.timers t).running = none
        · rw [check_loop_bind P code now fuel t rest s hlist (Nat.not_lt.mp hg) hr] at h
          cases hd : dispatch P code t now s with
          | error e => rw [hd] at h; simp [Except.bind] at h
          | ok s2 =>
            rw [hd] at h
            exact check_turns.turn now t rest s s2 s1 hlist (Nat.not_lt.mp hg) hr hd
              (ih _ _ s1 h)
        · rw [check_loop_stop P code now fuel t rest s hlist (Or.inr hr)] at h; cases h
          refine check_turns.stop now s (fun t2 rest2 e _ => ?_)
          rw [hlist] at e
          obtain ⟨rfl, _⟩ := List.cons.inj e
          exact hr

/-- A poll loop that returns is a sequence of turns, each on the head of the
list of its moment, with its running marker none at that moment. -/
theorem poll_loop_turns (P : Platform) (code : Nat → timer_func_t) (now : Nat) :
    ∀ fuel s s1, poll_loop P code now fuel s = .ok s1 → poll_turns P code now s s1 := by
  intro fuel
  induction fuel with
  | zero => intro s s1 h; simp [poll_loop] at h
  | succ fuel ih =>
    intro s s1 h
    cases hlist : s.timer_poll_list with
    | nil =>
      rw [poll_loop_nil P code now fuel s hlist] at h; cases h
      exact poll_turns.stop s (fun t rest e => by rw [hlist] at e; cases e)
    | cons t rest =>
      by_cases hg : (s.timers t).gen = s.timer_poll_gen
      · rw [poll_loop_stop P code now fuel t rest s hlist (Or.inl hg)] at h; cases h
        refine poll_turns.stop s (fun t2 rest2 e hne => ?_)
        rw [hlist] at e
        obtain ⟨rfl, _⟩ := List.cons.inj e
        exact absurd hg hne
      · by_cases hr : (s.timers t).running = none
        · rw [poll_loop_bind P code now fuel t rest s hlist hg hr] at h
          cases hd : dispatch P code t now s with
          | error e => rw [hd] at h; simp [Except.bind] at h
          | ok s2 =>
            rw [hd] at h
            exact poll_turns.turn t rest s s2 s1 hlist hg hr hd (ih _ s1 h)
        · rw [poll_loop_stop P code now fuel t rest s hlist (Or.inr hr)] at h; cases h
          refine poll_turns.stop s (fun t2 rest2 e _ => ?_)
          rw [hlist] at e
          obtain ⟨rfl, _⟩ := List.cons.inj e
          exact hr
/-- C13. Stop at a running head, in any state and for any callbacks. (1) When
the head of the deadline list is marked running (due or not) the deadline pass
returns the state unchanged, so without calling any callback, whatever stands
behind the head. (2) When the head of the poll list is marked running the poll
pass returns without a call and with the lists and timer objects unchanged.
(3, 4) A deadline pass or a poll loop that logs a call starts with a head that
is not marked running. (5) Every deadline pass that returns is a sequence of
turns, each of which dispatches the head of the deadline list of that moment,
due and with its running marker none at that moment, and it ends where the
list is empty or its head is not due or is marked running. (6) Every poll pass
that returns either found the in-progress flag set and did nothing, or is such
a sequence of turns on the heads of the poll list. (7) With callbacks that
themselves call no callback for a timer marked running at their entry and
clear no running marker set at their entry, the same holds of the deadline
pass, of the poll pass and of `check_timers`: every call logged during the run
is for a timer whose running marker was none at the start, and the markers set
at the start are still set at the end. -/
theorem C13_stop_at_running_head (P : Platform) (code : Nat → timer_func_t) (fuel now : Nat)
    (s : Sched) :
    (∀ t rest, s.timer_list = t :: rest → (s.timers t).running ≠ none →
      __check_timers P code (fuel + 1) now s = .ok s) ∧
    (∀ t rest, s.timer_poll_list = t :: rest → (s.timers t).running ≠ none →
      ∃ s1, __check_poll_timers P code (fuel + 1) now s = .ok s1 ∧
        s1.expiry_calls = s.expiry_calls ∧ s1.timer_poll_list = s.timer_poll_list ∧
        s1.timer_list = s.timer_list ∧ s1.timers = s.timers) ∧
    (∀ s1, __check_timers P code (fuel + 1) now s = .ok s1 →
      s1.expiry_calls ≠ s.expiry_calls →
      ∃ t rest, s.timer_list = t :: rest ∧ (s.timers t).running = none) ∧
    (∀ s1, poll_loop P code now (fuel + 1) s = .ok s1 →
      s1.expiry_calls ≠ s.expiry_calls →
      ∃ t rest, s.timer_poll_list = t :: rest ∧ (s.timers t).running = none) ∧
    (∀ n s1, __check_timers P code n now s = .ok s1 → check_turns P code now s s1) ∧
    (∀ n s1, __check_poll_timers P code n now s = .ok s1 →
      (s.timer_in_poll = true ∧ s1 = s) ∨
      ∃ s3, poll_turns P code now
          { s with timer_in_poll := true, timer_poll_gen := (s.timer_poll_gen + 1) % 2 ^ 64 } s3 ∧
        s1 = { s3 with timer_in_poll := false }) ∧
    ((∀ f t d now x x1, code f t d now x = .ok x1 → spares_running x x1) →
      (∀ n s1, __check_timers P code n now s = .ok s1 → spares_running s s1) ∧
      (∀ n s1, __check_poll_timers P code n now s = .ok s1 → spares_running s s1) ∧
      (∀ n from_interrupt s1, check_timers P code n from_interrupt s = .ok s1 →
        spares_running s s1)) := by
  refine ⟨?_, ?_, ?_, ?_, ?_, ?_, ?_⟩
  · intro t rest hlist hr
    exact check_loop_stop P code now fuel t rest s hlist (Or.inr hr)
  · intro t rest hlist hr
    by_cases hin : s.timer_in_poll = true
    · exact ⟨s, by simp [__check_poll_timers, hin], rfl, rfl, rfl, rfl⟩
    · have hloop := poll_loop_stop P code now fuel t rest
        { s with timer_in_poll := true, timer_poll_gen := (s.timer_poll_gen + 1) % 2 ^ 64 }
        hlist (Or.inr hr)
      refine ⟨{ s with timer_poll_gen := (s.timer_poll_gen + 1) % 2 ^ 64, timer_in_poll := false },
        ?_, rfl, rfl, rfl, rfl⟩
      simp only [__check_poll_timers, hin, Bool.false_eq_true, if_false, bind, Except.bind, hloop]
      rfl
  · intro s1 hres hne
    cases hlist : s.timer_list with
    | nil =>
      rw [check_loop_nil P code now fuel s hlist] at hres
      cases hres; exact absurd rfl hne
    | cons t rest =>
      refine ⟨t, rest, rfl, ?_⟩
      by_contra hr
      rw [check_loop_stop P code now fuel t rest s hlist (Or.inr hr)] at hres
      cases hres; exact absurd rfl hne
  · intro s1 hres hne
    cases hlist : s.timer_poll_list with
    | nil =>
      rw [poll_loop_nil P code now fuel s hlist] at hres
      cases hres; exact absurd rfl hne
    | cons t rest =>
      refine ⟨t, rest, rfl, ?_⟩
      by_contra hr
      rw [poll_loop_stop P code now fuel t rest s hlist (Or.inr hr)] at hres
      cases hres; exact absurd rfl hne
  · intro n s1 h
    exact check_loop_turns P code n now s s1 h
  · intro n s1 h
    rcases check_poll_timers_inv P code n now s s1 h with h1 | ⟨_, s3, hl, rfl⟩
    · exact Or.inl h1
    · exact Or.inr ⟨s3, poll_loop_turns P code now n _ s3 hl, rfl⟩
  · intro hcb
    refine ⟨?_, ?_, ?_⟩
    · intro n s1 h
      exact check_loop_keeps P code (spares_running s)
        (fun now0 x t _ x1 hx _ _ hr hd =>
          spares_running_congr s x1 _ rfl rfl
            (spares_running_dispatch P code hcb s x x1 t now0 hx hr hd))
        n now s s1 (spares_running_refl s) h
    · intro n s1 h
      rcases check_poll_timers_inv P code n now s s1 h with ⟨_, e⟩ | ⟨_, s3, hl, rfl⟩
      · rw [e]; exact spares_running_refl s
      · refine spares_running_congr s s3 _ rfl rfl
          (poll_loop_keeps P code now (spares_running s)
            (fun x t _ x1 hx _ _ hr hd => spares_running_dispatch P code hcb s x x1 t now hx hr hd)
            n { s with timer_in_poll := true, timer_poll_gen := (s.timer_poll_gen + 1) % 2 ^ 64 }
            s3 ?_ hl)
        exact spares_running_congr s s _ rfl rfl (spares_running_refl s)
    · intro n from_interrupt s1 h
      exact check_timers_keeps_calls P code (spares_running s)
        (fun x x1 h1 h2 hx => spares_running_congr s x x1 h1 h2 hx)
        (fun x t now0 x1 hx hr hd => spares_running_dispatch P code hcb s x x1 t now0 hx hr hd)
        n from_interrupt s s1 (spares_running_refl s) h

/-- C13 on the deadline list of timers 1, 2, 3 at 10, 20, 30 with the clock at
25. With timer 1 marked running the deadline pass returns the state as it is,
though timer 2 behind it is due. With timer 2 marked running the pass calls the
callback of timer 1 only and stops at timer 2, which stays at the head, due and
not called. -/
theorem C13_stop_at_running_head_witness :
    __check_timers P0 code_idle (4 + 1) 25 sched_front_busy = .ok sched_front_busy ∧
    ∃ s1, __check_timers P0 code_idle 5 25 sched_second_busy = .ok s1 ∧
      s1.expiry_calls = [(1, 0, 25)] ∧ s1.timer_list = [2, 3] ∧
      (s1.timers 2).target ≤ 25 ∧ (s1.timers 2).running = some 7 ∧
      check_turns P0 code_idle 25 sched_second_busy s1 ∧
      spares_running sched_second_busy s1 :=
  ⟨(C13_stop_at_running_head P0 code_idle 4 25 sched_front_busy).1 1 [2, 3] rfl (by decide),
    _, rfl, rfl, rfl, by decide, rfl,
    (C13_stop_at_running_head P0 code_idle 4 25 sched_second_busy).2.2.2.2.1 5 _ rfl,
    ((C13_stop_at_running_head P0 code_idle 4 25 sched_second_busy).2.2.2.2.2.2
      (fun _ _ _ _ x x1 h => by cases h; exact spares_running_refl x)).1 5 _ rfl⟩

/-- The four outcomes of `cancel_timer`: the lock is held; the timer is marked
running by the calling cpu; it is marked running by another cpu; it is not
marked running. -/
theorem cancel_timer_outcome (P : Platform) (t : Nat) (s : Sched) :
    (s.timer_lock = true ∧ cancel_timer P t s = .error (Fault.deadlock, s)) ∨
    (s.timer_lock = false ∧ (s.timers t).running = some P.this_cpu ∧
      cancel_timer P t s = .error (Fault.assertion, { s with timer_lock := true })) ∨
    (s.timer_lock = false ∧ (s.timers t).running ≠ none ∧
      (s.timers t).running ≠ some P.this_cpu ∧
      cancel_timer P t s = .error (Fault.spin, { s with timer_lock := true })) ∨
    (s.timer_lock = false ∧ (s.timers t).running = none ∧
      cancel_timer P t s =
        .ok (unlock (if (s.timers t).link = true then __remove_timer t { s with timer_lock := true }
                     else { s with timer_lock := true }))) := by
  by_cases hl : s.timer_lock = true
  · exact Or.inl ⟨hl, by simp [cancel_timer, lock, hl, bind, Except.bind]⟩
  · have hl2 : s.timer_lock = false := by simpa using hl
    by_cases hr : (s.timers t).running = none
    · exact Or.inr (Or.inr (Or.inr ⟨hl2, hr, cancel_timer_ok P t s hl2 hr⟩))
    · by_cases hc : (s.timers t).running = some P.this_cpu
      · refine Or.inr (Or.inl ⟨hl2, hc, ?_⟩)
        simp [cancel_timer, lock_ok s hl2, __sync_timer, hc, bind, Except.bind]
      · refine Or.inr (Or.inr (Or.inl ⟨hl2, hr, hc, ?_⟩))
        have hs : (s.timers t).running.isSome = true := by
          cases h : (s.timers t).running with
          | none => exact absurd h hr
          | some a => rfl
        simp [cancel_timer, lock_ok s hl2, __sync_timer, hc, hs, bind, Except.bind]

/-- What a step of the cancelling context does: it starts with the lock free
and either returns, which is `cancel_timer` returning in a state where the
running marker is none, or aborts, from the entry with the marker naming the
calling cpu, or finds the marker set and waits, the state unchanged. -/
theorem cancel_step_inv (P : Platform) (t : Nat) (c c2 : cancel_cfg)
    (h : cancel_step P t c = some c2) :
    c.s.timer_lock = false ∧
    ((c2.pc = .returned ∧ (c.s.timers t).running = none ∧ cancel_timer P t c.s = .ok c2.s) ∨
     (c2.pc = .aborted ∧ c.pc = .at_lock ∧ (c.s.timers t).running = some P.this_cpu ∧
       c2.s = { c.s with timer_lock := true }) ∨
     (c2.pc = .at_relock ∧ (c.s.timers t).running ≠ none ∧
       c2.s = unlock { c.s with timer_lock := true })) := by
  unfold cancel_step at h
  cases hpc : c.pc with
  | at_lock =>
    rw [hpc] at h
    simp only at h
    rcases cancel_timer_outcome P t c.s with ⟨_, e⟩ | ⟨hl, hr, e⟩ | ⟨hl, hr, _, e⟩ | ⟨hl, hr, e⟩
    · rw [e] at h; cases h
    · rw [e] at h; cases h
      exact ⟨hl, Or.inr (Or.inl ⟨rfl, rfl, hr, rfl⟩)⟩
    · rw [e] at h; cases h
      exact ⟨hl, Or.inr (Or.inr ⟨rfl, hr, rfl⟩)⟩
    · rw [e] at h; cases h
      exact ⟨hl, Or.inl ⟨rfl, hr, e⟩⟩
  | at_relock =>
    rw [hpc] at h
    simp only at h
    rcases cancel_timer_outcome P t c.s with ⟨_, e⟩ | ⟨hl, hr, e⟩ | ⟨hl, hr, _, e⟩ | ⟨hl, hr, e⟩
    · rw [e] at h; cases h
    · rw [e] at h; cases h
      exact ⟨hl, Or.inr (Or.inr ⟨rfl, by rw [hr]; exact Option.some_ne_none _, rfl⟩)⟩
    · rw [e] at h; cases h
      exact ⟨hl, Or.inr (Or.inr ⟨rfl, hr, rfl⟩)⟩
    · rw [e] at h; cases h
      exact ⟨hl, Or.inl ⟨rfl, hr, e⟩⟩
  | returned => rw [hpc] at h; cases h
  | aborted => rw [hpc] at h; cases h

/-- A step of a run keeps the state well-formed. -/
theorem cancel_next_wf (P : Platform) (t : Nat) (c c2 : cancel_cfg) (hwf : wf c.s)
    (h : cancel_next P t c c2) : wf c2.s := by
  rcases h with h | ⟨_, h⟩
  · obtain ⟨hl, ⟨_, hr, e⟩ | ⟨_, _, _, e⟩ | ⟨_, _, e⟩⟩ := cancel_step_inv P t c c2 h
    · rw [cancel_timer_ok P t c.s hl hr] at e
      have := (cancel_result t c.s hwf hl).1
      simp only [Except.ok.injEq] at e
      rw [← e]; exact this
    · rw [e]; exact (wf_congr c.s _ rfl rfl rfl).mpr hwf
    · rw [e]; exact (wf_congr c.s _ rfl rfl rfl).mpr hwf
  · exact h

/-- In every configuration of a run that starts in a well-formed state the
state is well-formed. -/
theorem cancel_chain_wf (P : Platform) (t : Nat) :
    ∀ (rest : List cancel_cfg) (c0 : cancel_cfg), wf c0.s →
      List.Chain' (cancel_next P t) (c0 :: rest) → ∀ c ∈ c0 :: rest, wf c.s := by
  intro rest
  induction rest with
  | nil =>
    intro c0 hwf _ c hc
    have : c = c0 := by simpa using hc
    rw [this]; exact hwf
  | cons c1 rest ih =>
    intro c0 hwf hch c hc
    rw [List.chain'_cons] at hch
    rcases List.mem_cons.mp hc with h | h
    · rw [h]; exact hwf
    · exact ih c1 (cancel_next_wf P t c0 c1 hwf hch.1) hch.2 c h

/-- In a run in which the running marker of `t` is set in every configuration,
a cancelling context that has not returned at the start has returned nowhere. -/
theorem cancel_chain_waits (P : Platform) (t : Nat) :
    ∀ (rest : List cancel_cfg) (c0 : cancel_cfg), c0.pc ≠ .returned →
      List.Chain' (cancel_next P t) (c0 :: rest) →
      (∀ c ∈ c0 :: rest, (c.s.timers t).running ≠ none) →
      ∀ c ∈ c0 :: rest, c.pc ≠ .returned := by
  intro rest
  induction rest with
  | nil =>
    intro c0 h0 _ _ c hc
    have : c = c0 := by simpa using hc
    rw [this]; exact h0
  | cons c1 rest ih =>
    intro c0 h0 hch hset c hc
    rw [List.chain'_cons] at hch
    rcases List.mem_cons.mp hc with h | h
    · rw [h]; exact h0
    · have h1 : c1.pc ≠ .returned := by
        rcases hch.1 with hs | ⟨hp, _⟩
        · obtain ⟨_, ⟨_, hr, _⟩ | ⟨hp, _⟩ | ⟨hp, _⟩⟩ := cancel_step_inv P t c0 c1 hs
          · exact absurd hr (hset c0 (List.mem_cons_self _ _))
          · rw [hp]; decide
          · rw [hp]; decide
        · rw [hp]; exact h0
      exact ih c1 h1 hch.2 (fun x hx => hset x (List.mem_cons_of_mem _ hx)) c h

/-- C17. Cancel-during-run waits. Context `P.this_cpu` calls `cancel_timer(t)`
in a well-formed state in which the callback of `t` is running in another
context `A` (running marker `some A`), and the call runs among other contexts.
(1) Run alone with the lock free, the embedded `cancel_timer` does not return:
it ends in `spin`, waiting in `__sync_timer` with the lists untouched; and the
first step of the cancelling context leaves it inside the wait loop, the state
unchanged. (2) In every run in which the running marker of `t` stays set, the
cancelling context has returned nowhere. (3) In every run, the step by which
the cancelling context returns starts in a state where the running marker of
`t` is none and the lock is free, this state is not the entry state, the step
is `cancel_timer` returning in that state, and in the state it returns the
running marker of `t` is none, `t` is on neither list, its link is null and
the lock is free. -/
theorem C17_cancel_waits (P : Platform) (t A : Nat) (c0 : cancel_cfg) (rest : List cancel_cfg)
    (h0 : c0.pc = .at_lock) (hwf : wf c0.s) (hA : (c0.s.timers t).running = some A)
    (hne : A ≠ P.this_cpu) (hrun : List.Chain' (cancel_next P t) (c0 :: rest)) :
    (c0.s.timer_lock = false →
      cancel_timer P t c0.s = .error (Fault.spin, { c0.s with timer_lock := true }) ∧
      cancel_step P t c0 =
        some { s := unlock { c0.s with timer_lock := true }, pc := .at_relock }) ∧
    ((∀ c ∈ c0 :: rest, (c.s.timers t).running ≠ none) →
      ∀ c ∈ c0 :: rest, c.pc ≠ .returned) ∧
    (∀ pre c c2 post, c0 :: rest = pre ++ c :: c2 :: post → c.pc ≠ .returned →
      c2.pc = .returned →
      (c.s.timers t).running = none ∧ c.s.timer_lock = false ∧ pre ≠ [] ∧
      cancel_timer P t c.s = .ok c2.s ∧
      (c2.s.timers t).running = none ∧ t ∉ c2.s.timer_list ∧ t ∉ c2.s.timer_poll_list ∧
      (c2.s.timers t).link = false ∧ c2.s.timer_lock = false) := by
  refine ⟨?_, ?_, ?_⟩
  · intro hl
    have hspin : cancel_timer P t c0.s = .error (Fault.spin, { c0.s with timer_lock := true }) := by
      rcases cancel_timer_outcome P t c0.s with ⟨h, _⟩ | ⟨_, hr, _⟩ | ⟨_, _, _, e⟩ | ⟨_, hr, _⟩
      · rw [hl] at h; cases h
      · rw [hA] at hr; exact absurd (Option.some.inj hr) hne
      · exact e
      · rw [hA] at hr; cases hr
    refine ⟨hspin, ?_⟩
    unfold cancel_step
    rw [h0]
    simp only [hspin]
  · exact cancel_chain_waits P t rest c0 (by rw [h0]; decide) hrun
  · intro pre c c2 post hsplit hpc hret
    have hmem : c ∈ c0 :: rest := by rw [hsplit]; simp
    have hwfc : wf c.s := cancel_chain_wf P t rest c0 hwf hrun c hmem
    have hpair : cancel_next P t c c2 := by
      have hrun2 := hrun
      rw [hsplit, List.chain'_split, List.chain'_cons] at hrun2
      exact hrun2.2.1
    rcases hpair with hs | ⟨hp, _⟩
    · obtain ⟨hl, ⟨_, hr, e⟩ | ⟨hp, _⟩ | ⟨hp, _⟩⟩ := cancel_step_inv P t c c2 hs
      · have hpre : pre ≠ [] := by
          intro hnil
          rw [hnil] at hsplit
          have : c0 = c := (List.cons.inj hsplit).1
          rw [← this, hA] at hr
          cases hr
        have e2 := e
        rw [cancel_timer_ok P t c.s hl hr] at e2
        simp only [Except.ok.injEq] at e2
        obtain ⟨_, r2, r3, r4, r5, _, _, _, r9, _⟩ := cancel_result t c.s hwfc hl
        rw [e2] at r2 r3 r4 r5 r9
        exact ⟨hr, hl, hpre, e, by rw [r9 t]; exact hr, r3, r4, r5, r2⟩
      · rw [hp] at hret; cases hret
      · rw [hp] at hret; cases hret
    · rw [hret] at hp; exact absurd hp.symm hpc

/-- C17 on a run: context 1 calls `cancel_timer(1)` while the callback of timer
1 runs on cpu 7, finds the marker set and waits; cpu 7 clears the marker;
context 1 returns, timer 1 off the deadline list. -/
theorem C17_cancel_waits_witness :
    (busy_entry.s.timers 1).running = some 7 ∧
    List.Chain' (cancel_next P0 1) [busy_entry, busy_waiting, cleared_waiting, cancelled] ∧
    cancel_timer P0 1 sched_busy = .error (Fault.spin, { sched_busy with timer_lock := true }) ∧
    (cleared_waiting.s.timers 1).running = none ∧
    cancel_timer P0 1 cleared_waiting.s = .ok cancelled.s ∧
    (cancelled.s.timers 1).running = none ∧ 1 ∉ cancelled.s.timer_list ∧
    1 ∉ cancelled.s.timer_poll_list ∧ (cancelled.s.timers 1).link = false ∧
    cancelled.s.timer_lock = false :=
  have hwf : wf busy_entry.s := by
    refine ⟨by decide, by decide, by decide, fun i => ?_⟩
    by_cases h : i = 1 <;> simp [busy_entry, sched_busy, sched_one, sched0, fresh, h]
  have hrun : List.Chain' (cancel_next P0 1)
      [busy_entry, busy_waiting, cleared_waiting, cancelled] :=
    List.Chain.cons (Or.inl rfl)
      (List.Chain.cons (Or.inr ⟨rfl, wf_sched_one⟩)
        (List.Chain.cons (Or.inl rfl) List.Chain.nil))
  have h := C17_cancel_waits P0 1 7 busy_entry [busy_waiting, cleared_waiting, cancelled]
    rfl hwf rfl (by decide) hrun
  have h3 := h.2.2 [busy_entry, busy_waiting] cleared_waiting cancelled [] rfl
    (by decide) rfl
  ⟨rfl, hrun, (h.1 rfl).1, h3.1, h3.2.2.2.1, h3.2.2.2.2⟩

/-- The turns from `sched_second_busy` at time 25 with idle callbacks are
determined: whatever state they reach, exactly the call of timer 1 is logged;
a run that also called timer 2, marked running, is not a sequence of turns. -/
theorem check_turns_second_busy (s1 : Sched)
    (h : check_turns P0 code_idle 25 sched_second_busy s1) :
    s1.expiry_calls = [(1, 0, 25)] := by
  cases h with
  | stop _ _ hstop => exact absurd rfl (hstop 1 [2, 3] rfl (by decide))
  | turn _ t rest _ x1 _ hl hdue hr hd hrest =>
    have ht : t = 1 := ((List.cons.inj hl).1).symm
    subst ht
    cases hd
    cases hrest with
    | stop _ _ _ => rfl
    | turn _ t2 rest2 _ x2 _ hl2 hdue2 hr2 hd2 hrest2 =>
      have ht : t2 = 2 := ((List.cons.inj hl2).1).symm
      subst ht
      exact absurd hr2 (by decide)

end Timer
